import Mathlib

/-!
# SSTable segment reader (`sst/sstreader.go`)

A shallow embedding of `NewReader`, `Reader.verifyMagic` and `Reader.Find`.

* A file is the list of its bytes (naturals below 256).
* `int64` values are integers, wrapped by `wrapInt64` after every addition and conversion.
* `Find` is a loop; it is embedded with an iteration budget (`fuel`).  A run that
  exhausts the budget yields `none`, a run that returns or panics yields `some _`.
* Every positional read is logged as a `ReadOp`.
* `make([]byte, n)` panics for `n` above `maxAlloc`; the key buffer of line 53 has the
  constant capacity `MaxKeySize` and exists throughout a call.
* For the effect of a call on the reader, `Find` is also embedded statement by
  statement on a memory that holds the reader object (`Frame`, `Reader.FindSt`).
-/

namespace sst

/-! ## Machine integers -/

/-- Two's complement wrap-around of an integer into the `int64` range. -/
def wrapInt64 (x : Int) : Int :=
  (x + 9223372036854775808) % 18446744073709551616 - 9223372036854775808

/-- Go conversion `int64(u)` of a `uint64` value. -/
def toInt64 (u : Nat) : Int := wrapInt64 (u : Int)

/-- The largest number of bytes the Go runtime allocates for one slice on a 64-bit
platform (`maxAlloc` in `runtime/malloc.go`, `1 << 48`): `make([]byte, n)` panics with
`len out of range` for every `n` above it, which includes every `uint64` length from
`2 ^ 63` on (a negative `int`).  Exhaustion of the memory of the machine by a smaller
allocation is not part of the embedding. -/
def maxAlloc : Nat := 281474976710656

/-! ## Errors and results -/

/-- The error returned by the ordered key codec (`orderedcode.Parse`). -/
inductive CodecError where
  | corrupt
  deriving DecidableEq, Repr

/-- Error values that `Find` can return. -/
inductive Err where
  /-- The package variable `ErrNotFound`. -/
  | ErrNotFound
  /-- A positional read that met end-of-file before the buffer was full (`io.EOF`). -/
  | eof
  /-- A positional read at a negative offset. -/
  | negativeOffset
  /-- A length varint that does not fit 64 bits. -/
  | varintOverflow
  /-- An error of the ordered key codec. -/
  | codec (e : CodecError)
  deriving DecidableEq, Repr

/-- Run-time panics of `Find`. -/
inductive Fault where
  /-- `kb[0:keyLen]` with `keyLen > cap(kb)`. -/
  | sliceBounds
  /-- `make([]byte, valueLen)` with a length that the runtime refuses
  (`panic: runtime error: makeslice: len out of range`). -/
  | makeLen
  /-- `value[0]` on an empty slice. -/
  | indexRange
  deriving DecidableEq, Repr

/-- How a call of `Find` ends: it returns `(value, ts, err)` or it panics.
`value = none` is the nil slice, `err = none` the nil error. -/
inductive Run where
  | ret (value : Option (List Nat)) (ts : Int) (err : Option Err)
  | fault (p : Fault)
  deriving DecidableEq, Repr

/-- One positional read: `len` bytes requested at offset `off`. -/
structure ReadOp where
  off : Int
  len : Nat
  deriving DecidableEq, Repr

/-- A read can be satisfied in full by a file of `size` bytes: the offset is not
negative and either nothing is requested or the requested range lies in the file. -/
def ReadOp.satisfied (size : Nat) (op : ReadOp) : Prop :=
  0 ≤ op.off ∧ (op.len = 0 ∨ op.off + (op.len : Int) ≤ (size : Int))

instance (size : Nat) (op : ReadOp) : Decidable (op.satisfied size) := by
  unfold ReadOp.satisfied; infer_instance

/-! ## What `sstreader.go` takes from outside -/

/-- The constants `MaxKeySize`, `SstMagic`, `typeNil` (declared in another file of the
package) and the decoder `orderedcode.Parse(eKey, &readKey, orderedcode.Decr(&ts))`
of the external ordered key codec, which yields the user key and the timestamp. -/
structure Env where
  MaxKeySize : Nat
  SstMagic : Nat
  typeNil : Nat
  Parse : List Nat → Except CodecError (List Nat × Int)

/-- Go's `<` on strings: byte-wise lexicographic order, a proper prefix is smaller. -/
def strLess : List Nat → List Nat → Bool
  | [], [] => false
  | [], _ :: _ => true
  | _ :: _, [] => false
  | a :: as, b :: bs => decide (a < b) || (decide (a = b) && strLess as bs)

/-- `os.File.ReadAt(b, off)` with `len(b) = n` on a file with bytes `f`: a negative
offset is an error, an empty buffer is filled trivially, otherwise the `n` bytes at
`off` are returned, or `io.EOF` when the file ends before. -/
def ReadAt (f : List Nat) (n : Nat) (off : Int) : Except Err (List Nat) :=
  if off < 0 then .error .negativeOffset
  else
    let bs := (f.drop off.toNat).take n
    if bs.length = n then .ok bs else .error .eof

/-- Modelled from the spec: the decoding loop of `readAtUvarInt64`, which is declared
outside `sstreader.go`, over the bytes that follow the offset:
`i` bytes consumed so far, `x` the value so far, `s` the shift.  The second component
is the number of bytes requested from the file. -/
def uvarintLoop : List Nat → Nat → Nat → Nat → Except Err (Nat × Int) × Nat
  | [], i, _, _ => if 10 ≤ i then (.error .varintOverflow, i) else (.error .eof, i + 1)
  | b :: bs, i, x, s =>
    if 10 ≤ i then (.error .varintOverflow, i)
    else if b < 128 then
      if i = 9 ∧ 1 < b then (.error .varintOverflow, i + 1)
      else (.ok (x ||| (b <<< s), ((i + 1 : Nat) : Int)), i + 1)
    else uvarintLoop bs (i + 1) (x ||| ((b &&& 127) <<< s)) (s + 7)

/-- Modelled from the spec: `readAtUvarInt64` is declared outside `sstreader.go`.
It decodes a variable-length unsigned integer read directly from the file at the
given offset and reports the number of bytes the encoding occupied; a read that
cannot be satisfied is an error.  The encoding is Go's `binary.Uvarint` (seven bits
per byte, least significant group first, at most ten bytes).  The second component is
the read it issues. -/
def readAtUvarInt64 (f : List Nat) (offset : Int) : Except Err (Nat × Int) × ReadOp :=
  if offset < 0 then (.error .negativeOffset, ⟨offset, 1⟩)
  else
    let p := uvarintLoop (f.drop offset.toNat) 0 0 0
    (p.1, ⟨offset, p.2⟩)

/-! ## The reader -/

/-- `Reader`: the open file (its bytes), the cached length and the file name. -/
structure Reader where
  f : List Nat
  fLength : Int
  filename : String

/-- `binary.LittleEndian.Uint64`. -/
def leUint64 : List Nat → Nat
  | [] => 0
  | b :: bs => b + 256 * leUint64 bs

/-- `Reader.verifyMagic`: true iff 8 bytes can be read at `offset` and they are the magic. -/
def Reader.verifyMagic (env : Env) (r : Reader) (offset : Int) : Bool :=
  match ReadAt r.f 8 offset with
  | .error _ => false
  | .ok b => leUint64 b == env.SstMagic

/-- The outcome of `os.Open` followed by `f.Stat()`, as far as `NewReader` sees it. -/
structure OS where
  /-- The bytes behind the handle that `os.Open` returns, or its error. -/
  Open : String → Except String (List Nat)
  /-- The size reported by `f.Stat()`, or its error. -/
  Stat : List Nat → Except String Int

/-- `NewReader`. -/
def NewReader (env : Env) (os : OS) (filename : String) : Except String Reader :=
  match os.Open filename with
  | .error e => .error e
  | .ok f =>
    match os.Stat f with
    | .error e => .error e
    | .ok size =>
      let r : Reader := { f := f, fLength := size, filename := filename }
      if r.verifyMagic env 0 then .ok r
      else .error ("invalid magic at start of file " ++ filename)

/-- What one iteration of the scan loop does: it ends the call or moves to the next offset. -/
inductive Next where
  | done (run : Run)
  | continue (offset : Int)
  deriving DecidableEq, Repr

/-- The body of the loop of `Reader.Find` (lines 57 to 96), entered at `offset`.
Returns the reads issued and what happens next. -/
def iter (env : Env) (r : Reader) (key : List Nat) (offset : Int) : List ReadOp × Next :=
  match readAtUvarInt64 r.f offset with
  | (.error e, op1) => ([op1], .done (.ret none 0 (some e)))
  | (.ok (keyLen, n), op1) =>
    let offset := wrapInt64 (offset + n)
    match readAtUvarInt64 r.f offset with
    | (.error e, op2) => ([op1, op2], .done (.ret none 0 (some e)))
    | (.ok (valueLen, n), op2) =>
      let offset := wrapInt64 (offset + n)
      if env.MaxKeySize < keyLen then ([op1, op2], .done (.fault .sliceBounds))
      else
        let op3 : ReadOp := ⟨offset, keyLen⟩
        match ReadAt r.f keyLen offset with
        | .error e => ([op1, op2, op3], .done (.ret none 0 (some e)))
        | .ok kb =>
          let offset := wrapInt64 (offset + toInt64 keyLen)
          match env.Parse kb with
          | .error e => ([op1, op2, op3], .done (.ret none 0 (some (.codec e))))
          | .ok (readKey, ts) =>
            if readKey = key then
              if maxAlloc < valueLen then
                ([op1, op2, op3], .done (.fault .makeLen))
              else
                let op4 : ReadOp := ⟨offset, valueLen⟩
                match ReadAt r.f valueLen offset with
                | .error e => ([op1, op2, op3, op4], .done (.ret none 0 (some e)))
                | .ok value =>
                  match value with
                  | [] => ([op1, op2, op3, op4], .done (.fault .indexRange))
                  | tag :: rest =>
                    if tag = env.typeNil then
                      ([op1, op2, op3, op4], .done (.ret none ts none))
                    else ([op1, op2, op3, op4], .done (.ret (some rest) ts none))
            else if strLess key readKey then
              ([op1, op2, op3], .done (.ret none 0 (some .ErrNotFound)))
            else ([op1, op2, op3], .continue (wrapInt64 (offset + toInt64 valueLen)))

/-- The loop of `Reader.Find` from `offset`, with at most `fuel` iterations. -/
def findLoop (env : Env) (r : Reader) (key : List Nat) : Nat → Int → List ReadOp × Option Run
  | 0, _ => ([], none)
  | fuel + 1, offset =>
    if offset < r.fLength then
      match iter env r key offset with
      | (ops, .done run) => (ops, some run)
      | (ops, .continue offset) =>
        let p := findLoop env r key fuel offset
        (ops ++ p.1, p.2)
    else ([], some (.ret none 0 (some .ErrNotFound)))

/-- `Reader.Find(key)`: the scan starts after the magic, at offset 8. -/
def Reader.Find (env : Env) (r : Reader) (key : List Nat) (fuel : Nat) :
    List ReadOp × Option Run :=
  findLoop env r key fuel 8

/-! ## The ordered key codec and a sample environment

The codec is an external package.  Its decoder is modelled here only to evaluate the
reader on concrete files; every general theorem below holds for an arbitrary decoder. -/

/-- Modelled from the spec: the Ordered Key Codec is external to the repository.
Decoding of a string item in increasing order: `00 ff` stands for the byte `00`,
`ff 00` for the byte `ff`, and `00 01` ends the string.  Returns the string and the
remaining input. -/
def parseString : List Nat → List Nat → Except CodecError (List Nat × List Nat)
  | [], _ => .error .corrupt
  | [_], _ => .error .corrupt
  | a :: b :: rest, acc =>
    if a = 0 then
      if b = 1 then .ok (acc, rest)
      else if b = 255 then parseString rest (acc ++ [0])
      else .error .corrupt
    else if a = 255 then
      if b = 0 then parseString rest (acc ++ [255])
      else .error .corrupt
    else parseString (b :: rest) (acc ++ [a])

/-- Big-endian accumulation of the continuation bytes of an `int64` item. -/
def beAccum (dir : Nat) : List Nat → Int → Int
  | [], x => x
  | c :: cs, x => beAccum dir cs (x * 256 + ((c ^^^ dir : Nat) : Int))

/-- Number of leading one bits of the byte `c` below the mask `128 / 2 ^ k`, and `c`
with these bits cleared (`fuel` bounds the eight positions). -/
def stripOnes : Nat → Nat → Nat → Nat → Nat × Nat
  | 0, _, c, n => (c, n)
  | fuel + 1, mask, c, n =>
    if c &&& mask ≠ 0 then stripOnes fuel (mask / 2) (c - mask) (n + 1) else (c, n)

/-- Modelled from the spec: the Ordered Key Codec is external to the repository.
Decoding of an `int64` item written in direction `dir` (`255` is decreasing order):
a single byte holds the values from -64 to 63; otherwise the number of leading one
bits gives the length of the big-endian representation, and a negative value is the
inversion of the encoding of its complement. -/
def parseInt64 (dir : Nat) : List Nat → Except CodecError Int
  | [] => .error .corrupt
  | s0 :: rest =>
    let c := s0 ^^^ dir
    if 64 ≤ c ∧ c < 192 then
      .ok (if 128 ≤ c then ((c - 128 : Nat) : Int) else (c : Int) - 128)
    else
      let neg := decide (c < 128)
      let c := if neg then 255 - c else c
      let dir := if neg then 255 - dir else dir
      let finish (c : Nat) (n0 : Nat) (s : List Nat) : Except CodecError Int :=
        let p := stripOnes 8 128 c n0
        if s.length < p.2 then .error .corrupt
        else
          let x := beAccum dir ((s.drop 1).take (p.2 - 1)) (p.1 : Int)
          .ok (if neg then -x - 1 else x)
      if c = 255 then
        match rest with
        | [] => .error .corrupt
        | s1 :: _ =>
          let c := s1 ^^^ dir
          if 192 < c then .error .corrupt else finish c 7 rest
      else finish c 0 (s0 :: rest)

/-- Modelled from the spec: the Ordered Key Codec is external to the repository.
The call `orderedcode.Parse(eKey, &readKey, orderedcode.Decr(&ts))`: a string in
increasing order followed by an `int64` in decreasing order; what follows is ignored. -/
def orderedcodeParse (eKey : List Nat) : Except CodecError (List Nat × Int) :=
  match parseString eKey [] with
  | .error e => .error e
  | .ok (readKey, rest) =>
    match parseInt64 255 rest with
    | .error e => .error e
    | .ok ts => .ok (readKey, ts)

/-- A sample environment for concrete runs.  The three constants are declared outside
`sstreader.go`; the values here are placeholders. -/
def sampleEnv : Env :=
  { MaxKeySize := 16, SstMagic := 8314045556900262771, typeNil := 0,
    Parse := orderedcodeParse }

/-- The eight header bytes of the sample magic, little-endian. -/
def sampleMagic : List Nat := [115, 115, 116, 97, 98, 108, 97, 115]

/-- The file of the example scenario: records `("a", 5, "v1")`, `("a", 3, "v0")` and
`("b", 9, tombstone)`; present values carry the type tag `1`. -/
def exampleFile : List Nat :=
  sampleMagic ++
  [4, 3, 97, 0, 1, 122, 1, 118, 49] ++
  [4, 3, 97, 0, 1, 124, 1, 118, 48] ++
  [4, 1, 98, 0, 1, 118, 0]

/-- The reader that `NewReader` returns for the example file. -/
def exampleReader : Reader :=
  { f := exampleFile, fLength := 33, filename := "example.sst" }

/-! ## The file layout of the data model -/

/-- The byte string `enc` is an unsigned varint that decodes to `v` and occupies all of `enc`. -/
def IsUvarint (enc : List Nat) (v : Nat) : Prop :=
  (uvarintLoop enc 0 0 0).1 = .ok (v, (enc.length : Int))

/-- A stored record: the bytes of the two length varints, the encoded key and the
value payload, together with what the codec decodes from the encoded key. -/
structure Record where
  klEnc : List Nat
  vlEnc : List Nat
  eKey : List Nat
  payload : List Nat
  userKey : List Nat
  ts : Int

/-- The bytes of a record up to the end of its encoded key. -/
def Record.head (rec : Record) : List Nat := rec.klEnc ++ rec.vlEnc ++ rec.eKey

/-- The bytes of a record as stored. -/
def Record.bytes (rec : Record) : List Nat := rec.head ++ rec.payload

/-- The record invariants of the data model: `keyLength` and `valueLength` are varints
that hold the lengths of the encoded key and of the payload, the encoded key is no
longer than the maximum key size, and it decodes to the user key and timestamp. -/
structure Record.WF (env : Env) (rec : Record) : Prop where
  keyLength : IsUvarint rec.klEnc rec.eKey.length
  valueLength : IsUvarint rec.vlEnc rec.payload.length
  maxKey : rec.eKey.length ≤ env.MaxKeySize
  decodes : env.Parse rec.eKey = .ok (rec.userKey, rec.ts)

/-- The payload holds at least the type tag. -/
def Record.Tagged (rec : Record) : Prop := 1 ≤ rec.payload.length

instance (rec : Record) : Decidable rec.Tagged := by
  unfold Record.Tagged; infer_instance

/-- The body of a file: the records back to back. -/
def bodyBytes : List Record → List Nat
  | [] => []
  | rec :: recs => rec.bytes ++ bodyBytes recs

/-- The value of a record: absent (`none`) when the first payload byte is the nil type
tag, otherwise the payload bytes after the first byte. -/
def Record.value (env : Env) (rec : Record) : Option (List Nat) :=
  if rec.payload.head? = some env.typeNil then none else some rec.payload.tail

/-- What `Find` returns for a record whose user key equals the query: the record's
value and timestamp and a nil error. -/
def Record.result (env : Env) (rec : Record) : Run := .ret (rec.value env) rec.ts none

/-- The outcome `ErrNotFound`. -/
def notFound : Run := .ret none 0 (some .ErrNotFound)

/-- The contract of `Find` in the words of the specification: the first record in file
order whose user key is not less than the query decides; an equal key gives that
record's value and timestamp, a greater key or no such record gives `NotFound`. -/
def lookupSpec (env : Env) (recs : List Record) (key : List Nat) : Run :=
  match recs.find? (fun rec => !strLess rec.userKey key) with
  | some rec => if rec.userKey = key then rec.result env else notFound
  | none => notFound

/-- The reads of one iteration over the record `rec` stored at offset `off`, up to the
encoded key. -/
def Record.headOps (rec : Record) (off : Int) : List ReadOp :=
  [⟨off, rec.klEnc.length⟩, ⟨off + rec.klEnc.length, rec.vlEnc.length⟩,
   ⟨off + rec.klEnc.length + rec.vlEnc.length, rec.eKey.length⟩]

/-- The reads of a scan that skips the records `recs` stored from offset `off`. -/
def skipOps : List Record → Int → List ReadOp
  | [], _ => []
  | rec :: recs, off => rec.headOps off ++ skipOps recs (off + rec.bytes.length)

/-- The records are stored in non-decreasing byte order of their encoded keys. -/
def SortedByEncodedKey (recs : List Record) : Prop :=
  recs.Pairwise (fun a b => strLess b.eKey a.eKey = false)

/-- The order of two decoded keys that the codec promises for encoded keys in
non-decreasing byte order: ascending user key, then descending timestamp. -/
def KeyOrder (a b : Record) : Prop :=
  strLess a.userKey b.userKey = true ∨ (a.userKey = b.userKey ∧ b.ts ≤ a.ts)

instance (a b : Record) : Decidable (KeyOrder a b) := by
  unfold KeyOrder; infer_instance

/-- On the encoded keys of the file, the byte order of the codec is ascending user key
then descending timestamp. -/
def CodecOrdered (recs : List Record) : Prop :=
  ∀ a ∈ recs, ∀ b ∈ recs, strLess b.eKey a.eKey = false → KeyOrder a b

/-- The three records of the example scenario. -/
def exampleRecords : List Record :=
  [ { klEnc := [4], vlEnc := [3], eKey := [97, 0, 1, 122], payload := [1, 118, 49],
      userKey := [97], ts := 5 },
    { klEnc := [4], vlEnc := [3], eKey := [97, 0, 1, 124], payload := [1, 118, 48],
      userKey := [97], ts := 3 },
    { klEnc := [4], vlEnc := [1], eKey := [98, 0, 1, 118], payload := [0],
      userKey := [98], ts := 9 } ]

/-- A file with a single record `("a", 5, "")`: a present value that is empty. -/
def emptyValueRecord : Record :=
  { klEnc := [4], vlEnc := [1], eKey := [97, 0, 1, 122], payload := [1],
    userKey := [97], ts := 5 }

/-- The reader of the file that holds only `emptyValueRecord`. -/
def emptyValueReader : Reader :=
  { f := sampleMagic ++ [4, 1, 97, 0, 1, 122, 1], fLength := 15, filename := "empty.sst" }

/-- The example file cut after the encoded key of the `"b"` record and continued with
bytes that are no record. -/
def garbledReader : Reader :=
  { f := exampleFile.take 32 ++ [200, 200, 200], fLength := 35, filename := "garbled.sst" }

/-- A file system in which every name opens the file with the bytes `f`. -/
def singleFileOS (f : List Nat) : OS :=
  { Open := fun _ => .ok f, Stat := fun g => .ok (g.length : Int) }

/-- A file whose only record `"a"` declares a value payload of 0 bytes. -/
def zeroValueReader : Reader :=
  { f := sampleMagic ++ [4, 0, 97, 0, 1, 122], fLength := 14, filename := "zero.sst" }

/-- A file whose only record `"a"` declares the value length `2 ^ 64 - 15`, which
`int64` turns into `-15`: the skip leads back to offset 8. -/
def backwardSkipReader : Reader :=
  { f := sampleMagic ++ [4, 241, 255, 255, 255, 255, 255, 255, 255, 255, 1, 97, 0, 1, 122],
    fLength := 23, filename := "backward.sst" }

/-- A file whose first record declares the key length `2 ^ 64 - 1`, more than any
capacity a slice can have. -/
def hugeKeyReader : Reader :=
  { f := sampleMagic ++ [255, 255, 255, 255, 255, 255, 255, 255, 255, 1, 1, 97, 0, 1, 122, 1],
    fLength := 24, filename := "hugekey.sst" }

/-- Offsets at which the scan for `key` enters an iteration of the loop. -/
inductive Visits (env : Env) (r : Reader) (key : List Nat) : Int → Prop where
  | start : Visits env r key 8
  | next {off off' : Int} : Visits env r key off → off < r.fLength →
      (iter env r key off).2 = .continue off' → Visits env r key off'

/-- The two length fields decoded at `off`, and the offset of the encoded key behind
them, when both varints can be read. -/
def Reader.lengthsAt (r : Reader) (off : Int) : Option (Nat × Nat × Int) :=
  match readAtUvarInt64 r.f off with
  | (.error _, _) => none
  | (.ok (keyLen, n), _) =>
    match readAtUvarInt64 r.f (wrapInt64 (off + n)) with
    | (.error _, _) => none
    | (.ok (valueLen, m), _) => some (keyLen, valueLen, wrapInt64 (wrapInt64 (off + n) + m))

/-- The length fields at `off` respect what `Find` relies on: `keyLength` is at most
the maximum key size, `valueLength` is in the `int64` range, and a record whose user
key equals the query declares a payload of at least one byte and of at most `maxAlloc`
bytes. -/
def SafeRecordAt (env : Env) (r : Reader) (key : List Nat) (off : Int) : Prop :=
  ∀ keyLen valueLen koff, r.lengthsAt off = some (keyLen, valueLen, koff) →
    keyLen ≤ env.MaxKeySize ∧ valueLen < 9223372036854775808
    ∧ ∀ kb ts, ReadAt r.f keyLen koff = .ok kb → env.Parse kb = .ok (key, ts) →
        1 ≤ valueLen ∧ valueLen ≤ maxAlloc

/-- The example file cut inside the encoded key of the `"b"` record. -/
def cutKeyReader : Reader :=
  { f := exampleFile.take 30, fLength := 30, filename := "cutkey.sst" }

/-- The example file cut inside the payload of the first record. -/
def cutValueReader : Reader :=
  { f := exampleFile.take 15, fLength := 15, filename := "cutvalue.sst" }

/-- A record whose encoded key `"aaaa"` lacks the terminator of the string item. -/
def corruptRecord : Record :=
  { klEnc := [4], vlEnc := [3], eKey := [97, 97, 97, 97], payload := [1, 118, 48],
    userKey := [], ts := 0 }

/-- The example file with the second record replaced by `corruptRecord`. -/
def corruptReader : Reader :=
  { f := sampleMagic ++ [4, 3, 97, 0, 1, 122, 1, 118, 49] ++ corruptRecord.bytes
      ++ [4, 1, 98, 0, 1, 118, 0],
    fLength := 33, filename := "corrupt.sst" }

/-- The paths through one iteration of the loop of `Find` entered at `off`: which reads
succeed, what they return, and the reads and outcome of the iteration on that path. -/
inductive IterCase (env : Env) (r : Reader) (key : List Nat) (off : Int) :
    List ReadOp × Next → Prop where
  | keyLenErr {e : Err} {op1 : ReadOp} :
      readAtUvarInt64 r.f off = (.error e, op1) →
      IterCase env r key off ([op1], .done (.ret none 0 (some e)))
  | valueLenErr {kl : Nat} {n1 : Int} {e : Err} {op1 op2 : ReadOp} :
      readAtUvarInt64 r.f off = (.ok (kl, n1), op1) →
      readAtUvarInt64 r.f (wrapInt64 (off + n1)) = (.error e, op2) →
      IterCase env r key off ([op1, op2], .done (.ret none 0 (some e)))
  | keyTooLong {kl vl : Nat} {n1 n2 : Int} {op1 op2 : ReadOp} :
      readAtUvarInt64 r.f off = (.ok (kl, n1), op1) →
      readAtUvarInt64 r.f (wrapInt64 (off + n1)) = (.ok (vl, n2), op2) →
      env.MaxKeySize < kl →
      IterCase env r key off ([op1, op2], .done (.fault .sliceBounds))
  | keyReadErr {kl vl : Nat} {n1 n2 : Int} {op1 op2 : ReadOp} {e : Err} :
      readAtUvarInt64 r.f off = (.ok (kl, n1), op1) →
      readAtUvarInt64 r.f (wrapInt64 (off + n1)) = (.ok (vl, n2), op2) →
      kl ≤ env.MaxKeySize →
      ReadAt r.f kl (wrapInt64 (wrapInt64 (off + n1) + n2)) = .error e →
      IterCase env r key off
        ([op1, op2, ⟨wrapInt64 (wrapInt64 (off + n1) + n2), kl⟩], .done (.ret none 0 (some e)))
  | codecErr {kl vl : Nat} {n1 n2 : Int} {op1 op2 : ReadOp} {kb : List Nat} {e : CodecError} :
      readAtUvarInt64 r.f off = (.ok (kl, n1), op1) →
      readAtUvarInt64 r.f (wrapInt64 (off + n1)) = (.ok (vl, n2), op2) →
      kl ≤ env.MaxKeySize →
      ReadAt r.f kl (wrapInt64 (wrapInt64 (off + n1) + n2)) = .ok kb →
      env.Parse kb = .error e →
      IterCase env r key off
        ([op1, op2, ⟨wrapInt64 (wrapInt64 (off + n1) + n2), kl⟩],
          .done (.ret none 0 (some (.codec e))))
  | valueTooLong {kl vl : Nat} {n1 n2 : Int} {op1 op2 : ReadOp} {kb : List Nat} {ts : Int} :
      readAtUvarInt64 r.f off = (.ok (kl, n1), op1) →
      readAtUvarInt64 r.f (wrapInt64 (off + n1)) = (.ok (vl, n2), op2) →
      kl ≤ env.MaxKeySize →
      ReadAt r.f kl (wrapInt64 (wrapInt64 (off + n1) + n2)) = .ok kb →
      env.Parse kb = .ok (key, ts) →
      maxAlloc < vl →
      IterCase env r key off
        ([op1, op2, ⟨wrapInt64 (wrapInt64 (off + n1) + n2), kl⟩], .done (.fault .makeLen))
  | valueReadErr {kl vl : Nat} {n1 n2 : Int} {op1 op2 : ReadOp} {kb : List Nat} {ts : Int}
      {e : Err} :
      readAtUvarInt64 r.f off = (.ok (kl, n1), op1) →
      readAtUvarInt64 r.f (wrapInt64 (off + n1)) = (.ok (vl, n2), op2) →
      kl ≤ env.MaxKeySize →
      ReadAt r.f kl (wrapInt64 (wrapInt64 (off + n1) + n2)) = .ok kb →
      env.Parse kb = .ok (key, ts) →
      vl ≤ maxAlloc →
      ReadAt r.f vl (wrapInt64 (wrapInt64 (wrapInt64 (off + n1) + n2) + toInt64 kl)) = .error e →
      IterCase env r key off
        ([op1, op2, ⟨wrapInt64 (wrapInt64 (off + n1) + n2), kl⟩,
          ⟨wrapInt64 (wrapInt64 (wrapInt64 (off + n1) + n2) + toInt64 kl), vl⟩],
          .done (.ret none 0 (some e)))
  | emptyValue {kl vl : Nat} {n1 n2 : Int} {op1 op2 : ReadOp} {kb : List Nat} {ts : Int} :
      readAtUvarInt64 r.f off = (.ok (kl, n1), op1) →
      readAtUvarInt64 r.f (wrapInt64 (off + n1)) = (.ok (vl, n2), op2) →
      kl ≤ env.MaxKeySize →
      ReadAt r.f kl (wrapInt64 (wrapInt64 (off + n1) + n2)) = .ok kb →
      env.Parse kb = .ok (key, ts) →
      vl ≤ maxAlloc →
      ReadAt r.f vl (wrapInt64 (wrapInt64 (wrapInt64 (off + n1) + n2) + toInt64 kl)) = .ok [] →
      IterCase env r key off
        ([op1, op2, ⟨wrapInt64 (wrapInt64 (off + n1) + n2), kl⟩,
          ⟨wrapInt64 (wrapInt64 (wrapInt64 (off + n1) + n2) + toInt64 kl), vl⟩],
          .done (.fault .indexRange))
  | found {kl vl : Nat} {n1 n2 : Int} {op1 op2 : ReadOp} {kb : List Nat} {ts : Int}
      {tag : Nat} {raw : List Nat} :
      readAtUvarInt64 r.f off = (.ok (kl, n1), op1) →
      readAtUvarInt64 r.f (wrapInt64 (off + n1)) = (.ok (vl, n2), op2) →
      kl ≤ env.MaxKeySize →
      ReadAt r.f kl (wrapInt64 (wrapInt64 (off + n1) + n2)) = .ok kb →
      env.Parse kb = .ok (key, ts) →
      vl ≤ maxAlloc →
      ReadAt r.f vl (wrapInt64 (wrapInt64 (wrapInt64 (off + n1) + n2) + toInt64 kl))
        = .ok (tag :: raw) →
      IterCase env r key off
        ([op1, op2, ⟨wrapInt64 (wrapInt64 (off + n1) + n2), kl⟩,
          ⟨wrapInt64 (wrapInt64 (wrapInt64 (off + n1) + n2) + toInt64 kl), vl⟩],
          .done (if tag = env.typeNil then .ret none ts none else .ret (some raw) ts none))
  | greater {kl vl : Nat} {n1 n2 : Int} {op1 op2 : ReadOp} {kb readKey : List Nat} {ts : Int} :
      readAtUvarInt64 r.f off = (.ok (kl, n1), op1) →
      readAtUvarInt64 r.f (wrapInt64 (off + n1)) = (.ok (vl, n2), op2) →
      kl ≤ env.MaxKeySize →
      ReadAt r.f kl (wrapInt64 (wrapInt64 (off + n1) + n2)) = .ok kb →
      env.Parse kb = .ok (readKey, ts) →
      readKey ≠ key → strLess key readKey = true →
      IterCase env r key off
        ([op1, op2, ⟨wrapInt64 (wrapInt64 (off + n1) + n2), kl⟩],
          .done (.ret none 0 (some .ErrNotFound)))
  | less {kl vl : Nat} {n1 n2 : Int} {op1 op2 : ReadOp} {kb readKey : List Nat} {ts : Int} :
      readAtUvarInt64 r.f off = (.ok (kl, n1), op1) →
      readAtUvarInt64 r.f (wrapInt64 (off + n1)) = (.ok (vl, n2), op2) →
      kl ≤ env.MaxKeySize →
      ReadAt r.f kl (wrapInt64 (wrapInt64 (off + n1) + n2)) = .ok kb →
      env.Parse kb = .ok (readKey, ts) →
      readKey ≠ key → strLess key readKey = false →
      IterCase env r key off
        ([op1, op2, ⟨wrapInt64 (wrapInt64 (off + n1) + n2), kl⟩],
          .continue (wrapInt64
            (wrapInt64 (wrapInt64 (wrapInt64 (off + n1) + n2) + toInt64 kl) + toInt64 vl)))

/-- The slice operations of the iteration at `off` are in bounds: `keyLength` is at
most the maximum key size, and a record whose user key equals the query declares a
payload of at least one byte. -/
def SliceInBoundsAt (env : Env) (r : Reader) (key : List Nat) (off : Int) : Prop :=
  ∀ keyLen valueLen koff, r.lengthsAt off = some (keyLen, valueLen, koff) →
    keyLen ≤ env.MaxKeySize
    ∧ ∀ kb ts, ReadAt r.f keyLen koff = .ok kb → env.Parse kb = .ok (key, ts) → 1 ≤ valueLen

/-- The allocation `make([]byte, valueLen)` of the iteration at `off` is given a length
that the runtime accepts: a record whose user key equals the query declares a
`valueLength` of at most `maxAlloc`. -/
def AllocInRangeAt (env : Env) (r : Reader) (key : List Nat) (off : Int) : Prop :=
  ∀ keyLen valueLen koff, r.lengthsAt off = some (keyLen, valueLen, koff) →
    ∀ kb ts, ReadAt r.f keyLen koff = .ok kb → env.Parse kb = .ok (key, ts) →
      valueLen ≤ maxAlloc

/-- A file whose only record `"a"` declares the value length `2 ^ 64 - 1`. -/
def hugeValueReader : Reader :=
  { f := sampleMagic ++ [4, 255, 255, 255, 255, 255, 255, 255, 255, 255, 1, 97, 0, 1, 122, 1],
    fLength := 24, filename := "hugevalue.sst" }

/-- The memory that a running call of `Find` works on: the `Reader` object behind the
receiver pointer `r`, the two variables of the call that live across the iterations of
the loop (the key buffer `kb`, as the bytes `buf` of its backing array and its length
`kbLen`, and `offset`), and the log of the positional reads issued so far.  The other
variables are declared inside the loop body. -/
structure Frame where
  self : Reader
  buf : List Nat
  kbLen : Nat
  offset : Int
  log : List ReadOp

/-- The body of the loop of `Find` (lines 57 to 96), statement by statement, as a
transformer of the memory.  The file and the cached length are read from the reader
object of the memory at every use.  The second component is the outcome when the body
ends the call, and `none` when it reaches its end and the loop goes on. -/
def Frame.body (env : Env) (key : List Nat) (s : Frame) : Frame × Option Run :=
  -- line 57: keyLen, n, err := readAtUvarInt64(r.f, offset)
  match readAtUvarInt64 s.self.f s.offset with
  | (.error e, op1) => ({ s with log := s.log ++ [op1] }, some (.ret none 0 (some e)))
  | (.ok (keyLen, n), op1) =>
    -- line 61: offset += n
    let s : Frame := { s with log := s.log ++ [op1], offset := wrapInt64 (s.offset + n) }
    -- line 63: valueLen, n, err := readAtUvarInt64(r.f, offset)
    match readAtUvarInt64 s.self.f s.offset with
    | (.error e, op2) => ({ s with log := s.log ++ [op2] }, some (.ret none 0 (some e)))
    | (.ok (valueLen, n), op2) =>
      -- line 67: offset += n
      let s : Frame := { s with log := s.log ++ [op2], offset := wrapInt64 (s.offset + n) }
      -- line 69: kb = kb[0:keyLen]
      if env.MaxKeySize < keyLen then (s, some (.fault .sliceBounds))
      else
        let s : Frame := { s with kbLen := keyLen }
        -- line 70: r.f.ReadAt(kb, offset)
        let s : Frame := { s with log := s.log ++ [⟨s.offset, keyLen⟩] }
        match ReadAt s.self.f keyLen s.offset with
        | .error e => (s, some (.ret none 0 (some e)))
        | .ok bytes =>
          let s : Frame := { s with buf := bytes ++ s.buf.drop keyLen }
          -- line 73: offset += int64(keyLen)
          let s : Frame := { s with offset := wrapInt64 (s.offset + toInt64 keyLen) }
          -- lines 75 to 78: eKey := string(kb), orderedcode.Parse(eKey, &readKey, Decr(&ts))
          match env.Parse (s.buf.take s.kbLen) with
          | .error e => (s, some (.ret none 0 (some (.codec e))))
          | .ok (readKey, ts) =>
            if readKey = key then
              -- line 83: value := make([]byte, valueLen)
              if maxAlloc < valueLen then (s, some (.fault .makeLen))
              else
                -- line 84: r.f.ReadAt(value, offset)
                let s : Frame := { s with log := s.log ++ [⟨s.offset, valueLen⟩] }
                match ReadAt s.self.f valueLen s.offset with
                | .error e => (s, some (.ret none 0 (some e)))
                | .ok value =>
                  -- lines 87 to 90: value[0] == typeNil, value[1:]
                  match value with
                  | [] => (s, some (.fault .indexRange))
                  | tag :: rest =>
                    if tag = env.typeNil then (s, some (.ret none ts none))
                    else (s, some (.ret (some rest) ts none))
            else if strLess key readKey then (s, some (.ret none 0 (some .ErrNotFound)))
            -- line 96: offset += int64(valueLen)
            else ({ s with offset := wrapInt64 (s.offset + toInt64 valueLen) }, none)

/-- The loop of `Find` (line 56) on the memory, with at most `fuel` iterations; the
guard compares `offset` with the `fLength` field of the reader object of the memory. -/
def Frame.loop (env : Env) (key : List Nat) : Nat → Frame → Frame × Option Run
  | 0, s => (s, none)
  | fuel + 1, s =>
    if s.offset < s.self.fLength then
      match Frame.body env key s with
      | (s, some run) => (s, some run)
      | (s, none) => Frame.loop env key fuel s
    else (s, some (.ret none 0 (some .ErrNotFound)))

/-- A file of 23 bytes whose only record `"a"` declares the value length `2 ^ 62`, a
length in the `int` range that the runtime does not allocate. -/
def largeValueReader : Reader :=
  { f := sampleMagic ++ [4, 128, 128, 128, 128, 128, 128, 128, 128, 64, 97, 0, 1, 122, 1],
    fLength := 23, filename := "largevalue.sst" }

/-- `Find` as an operation on the reader object that the receiver points to: lines 53
and 54 create the key buffer (length 0, a zeroed backing array of `MaxKeySize` bytes)
and set `offset` to 8, then the loop runs on the memory.  The call yields the reader
object as its statements leave it, the reads and the outcome. -/
def Reader.FindSt (env : Env) (r : Reader) (key : List Nat) (fuel : Nat) :
    Reader × (List ReadOp × Option Run) :=
  let p := Frame.loop env key fuel
    { self := r, buf := List.replicate env.MaxKeySize 0, kbLen := 0, offset := 8, log := [] }
  (p.1.self, (p.1.log, p.2))

/-- The reader object after a sequence of calls of `Find`, each with its key and budget,
every call working on the object that the call before it left. -/
def Reader.afterCalls (env : Env) (r : Reader) : List (List Nat × Nat) → Reader
  | [] => r
  | (key, fuel) :: calls => ((r.FindSt env key fuel).1).afterCalls env calls

/-- The length fields at `off` are at most the maximum key size. -/
def LengthsBoundedAt (env : Env) (r : Reader) (off : Int) : Prop :=
  ∀ keyLen valueLen koff, r.lengthsAt off = some (keyLen, valueLen, koff) →
    keyLen ≤ env.MaxKeySize ∧ valueLen ≤ env.MaxKeySize

/-- The number of times the body of the loop of `Find` is entered in a scan from
`offset`, counted within the budget `fuel`. -/
def loopIterations (env : Env) (r : Reader) (key : List Nat) : Nat → Int → Nat
  | 0, _ => 0
  | fuel + 1, offset =>
    if offset < r.fLength then
      match (iter env r key offset).2 with
      | .done _ => 1
      | .continue offset => 1 + loopIterations env r key fuel offset
    else 0

/-- A file of nine bytes: the magic and one byte. -/
def tinyReader : Reader :=
  { f := sampleMagic ++ [0], fLength := 9, filename := "tiny.sst" }

/-- The skip over the record at `off` stays in the `int64` range: the end of the
declared payload is below `2 ^ 63`, so the next offset is that end. -/
def SkipInRangeAt (r : Reader) (off : Int) : Prop :=
  ∀ keyLen valueLen koff, r.lengthsAt off = some (keyLen, valueLen, koff) →
    koff + (keyLen : Int) + (valueLen : Int) < 9223372036854775808

/-- Two files hold the same bytes (or both none) at every position that the read `op`
requests. -/
def AgreeOn (f g : List Nat) (op : ReadOp) : Prop :=
  ∀ i : Nat, op.off ≤ (i : Int) → (i : Int) < op.off + (op.len : Int) → f[i]? = g[i]?

/-- The record `b` is the record `a` with its payload replaced by bytes of the same
length. -/
def Record.SameHead (a b : Record) : Prop :=
  a.klEnc = b.klEnc ∧ a.vlEnc = b.vlEnc ∧ a.eKey = b.eKey ∧ a.userKey = b.userKey
    ∧ a.ts = b.ts ∧ a.payload.length = b.payload.length

/-- The example file with the payloads of the two `"a"` records replaced. -/
def repaintedRecords : List Record :=
  [ { klEnc := [4], vlEnc := [3], eKey := [97, 0, 1, 122], payload := [9, 9, 9],
      userKey := [97], ts := 5 },
    { klEnc := [4], vlEnc := [3], eKey := [97, 0, 1, 124], payload := [0, 255, 7],
      userKey := [97], ts := 3 } ]

/-- The reader of the example file with the payloads of the two `"a"` records replaced. -/
def repaintedReader : Reader :=
  { f := sampleMagic ++ bodyBytes repaintedRecords ++ [4, 1, 98, 0, 1, 118, 0],
    fLength := 33, filename := "repainted.sst" }

/-- The example file cut at the end of the encoded key of the `"b"` record, whose
declared payload of one byte is missing. -/
def cutPayloadReader : Reader :=
  { f := exampleFile.take 32, fLength := 32, filename := "cutpayload.sst" }

/-- A file with a record `"a"` with a payload of 7 bytes, followed by a record `"b"`
that declares the value length `2 ^ 64 - 22`: the skip over `"b"` leads from offset 36
back to offset 14, the start of the payload of `"a"`. -/
def jumpBackFile (payload : List Nat) : List Nat :=
  sampleMagic ++ [4, 7, 97, 0, 1, 122] ++ payload
    ++ [4, 234, 255, 255, 255, 255, 255, 255, 255, 255, 1, 98, 0, 1, 118]

/-- The reader of `jumpBackFile` with a payload of `"a"` that reads as a record `"c"`. -/
def jumpBackReader₁ : Reader :=
  { f := jumpBackFile [4, 1, 99, 0, 1, 122, 7], fLength := 36, filename := "jump1.sst" }

/-- The reader of `jumpBackFile` with another payload of `"a"` of the same length. -/
def jumpBackReader₂ : Reader :=
  { f := jumpBackFile [1, 1, 1, 1, 1, 1, 1], fLength := 36, filename := "jump2.sst" }

end sst

/-! ## Basic facts -/

namespace sst

theorem wrapInt64_of_range {x : Int} (h0 : -9223372036854775808 ≤ x)
    (h1 : x < 9223372036854775808) : wrapInt64 x = x := by
  unfold wrapInt64; omega

theorem maxAlloc_lt : (maxAlloc : Int) < 9223372036854775808 := by decide

theorem toInt64_of_lt {u : Nat} (h : (u : Int) < 9223372036854775808) : toInt64 u = u := by
  unfold toInt64; exact wrapInt64_of_range (by omega) h

theorem ReadAt_of_drop {f : List Nat} {off : Int} {bs rest : List Nat} (h0 : 0 ≤ off)
    (h : f.drop off.toNat = bs ++ rest) : ReadAt f bs.length off = .ok bs := by
  unfold ReadAt
  rw [if_neg (by omega)]
  simp [h]

theorem drop_shift {f : List Nat} {off : Int} {bs rest : List Nat} (h0 : 0 ≤ off)
    (h : f.drop off.toNat = bs ++ rest) :
    f.drop (off + (bs.length : Int)).toNat = rest := by
  have e : (off + (bs.length : Int)).toNat = off.toNat + bs.length := by omega
  rw [e, ← List.drop_drop, h]
  simp

theorem length_of_drop {f : List Nat} {off : Int} {bs rest : List Nat} (h0 : 0 ≤ off)
    (h : f.drop off.toNat = bs ++ rest) :
    off + (bs.length : Int) + (rest.length : Int) = (f.length : Int) ∨ (bs = [] ∧ rest = []) := by
  by_cases hnil : bs ++ rest = []
  · right; simpa using hnil
  · left
    have hl := congrArg List.length h
    simp only [List.length_drop, List.length_append] at hl
    have hpos : 0 < bs.length + rest.length := by
      rw [← List.length_append]; exact List.length_pos.mpr hnil
    omega

theorem uvarintLoop_asked (bs : List Nat) (i x s v : Nat) (n : Int)
    (h : (uvarintLoop bs i x s).1 = .ok (v, n)) :
    (((uvarintLoop bs i x s).2 : Nat) : Int) = n ∧ (i : Int) < n ∧ n ≤ 10 := by
  induction bs generalizing i x s with
  | nil => unfold uvarintLoop at h; split at h <;> simp at h
  | cons b bs ih =>
    unfold uvarintLoop at h ⊢
    by_cases h10 : 10 ≤ i
    · simp [h10] at h
    · simp only [h10, if_false] at h ⊢
      by_cases hb : b < 128
      · simp only [hb, if_true] at h ⊢
        by_cases h9 : i = 9 ∧ 1 < b
        · simp [h9] at h
        · simp only [h9, if_false] at h ⊢
          simp only [Except.ok.injEq, Prod.mk.injEq] at h
          omega
      · simp only [hb, if_false] at h ⊢
        have := ih (i + 1) _ _ h
        omega

theorem uvarintLoop_append (bs rest : List Nat) (i x s v : Nat) (n : Int)
    (h : (uvarintLoop bs i x s).1 = .ok (v, n)) :
    uvarintLoop (bs ++ rest) i x s = uvarintLoop bs i x s := by
  induction bs generalizing i x s with
  | nil => unfold uvarintLoop at h; split at h <;> simp at h
  | cons b bs ih =>
    rw [List.cons_append]
    unfold uvarintLoop at h ⊢
    by_cases h10 : 10 ≤ i
    · simp [h10] at h
    · simp only [h10, if_false] at h ⊢
      by_cases hb : b < 128
      · simp only [hb, if_true]
      · simp only [hb, if_false] at h ⊢
        exact ih _ _ _ h

theorem IsUvarint.length_pos {enc : List Nat} {v : Nat} (h : IsUvarint enc v) :
    1 ≤ enc.length ∧ enc.length ≤ 10 := by
  have := uvarintLoop_asked enc 0 0 0 v _ h
  omega

theorem readAtUvarInt64_of_drop {f : List Nat} {off : Int} {enc rest : List Nat} {v : Nat}
    (h0 : 0 ≤ off) (hv : IsUvarint enc v) (h : f.drop off.toNat = enc ++ rest) :
    readAtUvarInt64 f off = (.ok (v, (enc.length : Int)), ⟨off, enc.length⟩) := by
  have ha := uvarintLoop_asked enc 0 0 0 v _ hv
  have hp := uvarintLoop_append enc rest 0 0 0 v _ hv
  unfold readAtUvarInt64
  rw [if_neg (by omega), h, hp]
  unfold IsUvarint at hv
  simp only [hv]
  congr 2
  exact_mod_cast ha.1

end sst

/-! ## One iteration over a stored record -/

namespace sst

/-- The iteration entered at the start of a record whose length fields and encoded key
are in the file: the three reads succeed and the decoded key decides. -/
theorem iter_head (env : Env) (r : Reader) (key : List Nat) (off : Int)
    (klEnc vlEnc eKey rest : List Nat) (vlen : Nat)
    (h0 : 0 ≤ off) (hsz : (r.f.length : Int) < 9223372036854775808)
    (hk : IsUvarint klEnc eKey.length) (hv : IsUvarint vlEnc vlen)
    (hmax : eKey.length ≤ env.MaxKeySize)
    (hdrop : r.f.drop off.toNat = klEnc ++ (vlEnc ++ (eKey ++ rest))) :
    iter env r key off =
      (match env.Parse eKey with
       | .error e =>
         ([⟨off, klEnc.length⟩, ⟨off + klEnc.length, vlEnc.length⟩,
           ⟨off + klEnc.length + vlEnc.length, eKey.length⟩],
          .done (.ret none 0 (some (.codec e))))
       | .ok (readKey, ts) =>
         if readKey = key then
           if maxAlloc < vlen then
             ([⟨off, klEnc.length⟩, ⟨off + klEnc.length, vlEnc.length⟩,
               ⟨off + klEnc.length + vlEnc.length, eKey.length⟩], .done (.fault .makeLen))
           else
             match ReadAt r.f vlen (off + klEnc.length + vlEnc.length + eKey.length) with
             | .error e =>
               ([⟨off, klEnc.length⟩, ⟨off + klEnc.length, vlEnc.length⟩,
                 ⟨off + klEnc.length + vlEnc.length, eKey.length⟩,
                 ⟨off + klEnc.length + vlEnc.length + eKey.length, vlen⟩],
                .done (.ret none 0 (some e)))
             | .ok value =>
               match value with
               | [] =>
                 ([⟨off, klEnc.length⟩, ⟨off + klEnc.length, vlEnc.length⟩,
                   ⟨off + klEnc.length + vlEnc.length, eKey.length⟩,
                   ⟨off + klEnc.length + vlEnc.length + eKey.length, vlen⟩],
                  .done (.fault .indexRange))
               | tag :: raw =>
                 ([⟨off, klEnc.length⟩, ⟨off + klEnc.length, vlEnc.length⟩,
                   ⟨off + klEnc.length + vlEnc.length, eKey.length⟩,
                   ⟨off + klEnc.length + vlEnc.length + eKey.length, vlen⟩],
                  .done (if tag = env.typeNil then .ret none ts none
                         else .ret (some raw) ts none))
         else if strLess key readKey then
           ([⟨off, klEnc.length⟩, ⟨off + klEnc.length, vlEnc.length⟩,
             ⟨off + klEnc.length + vlEnc.length, eKey.length⟩],
            .done (.ret none 0 (some .ErrNotFound)))
         else
           ([⟨off, klEnc.length⟩, ⟨off + klEnc.length, vlEnc.length⟩,
             ⟨off + klEnc.length + vlEnc.length, eKey.length⟩],
            .continue (wrapInt64
              (off + klEnc.length + vlEnc.length + eKey.length + toInt64 vlen)))) := by
  have hkl := hk.length_pos
  have hvl := hv.length_pos
  have hlen := length_of_drop h0 hdrop
  have hlen : off + (klEnc.length : Int) + (vlEnc.length : Int) + (eKey.length : Int)
      + (rest.length : Int) = (r.f.length : Int) := by
    rcases hlen with h | ⟨h, -⟩
    · simp only [List.length_append] at h; push_cast at h; omega
    · rw [h] at hkl; simp at hkl
  have h1 : 0 ≤ off + (klEnc.length : Int) := by omega
  have hd1 := drop_shift h0 hdrop
  have h2 : 0 ≤ off + (klEnc.length : Int) + (vlEnc.length : Int) := by omega
  have hd2 := drop_shift h1 hd1
  have hw1 : wrapInt64 (off + (klEnc.length : Int)) = off + (klEnc.length : Int) :=
    wrapInt64_of_range (by omega) (by omega)
  have hw2 : wrapInt64 (off + (klEnc.length : Int) + (vlEnc.length : Int))
      = off + (klEnc.length : Int) + (vlEnc.length : Int) :=
    wrapInt64_of_range (by omega) (by omega)
  have hw3 : wrapInt64 (off + (klEnc.length : Int) + (vlEnc.length : Int)
      + toInt64 eKey.length)
      = off + (klEnc.length : Int) + (vlEnc.length : Int) + (eKey.length : Int) := by
    rw [toInt64_of_lt (by omega)]
    exact wrapInt64_of_range (by omega) (by omega)
  unfold iter
  rw [readAtUvarInt64_of_drop h0 hk hdrop]
  simp only [hw1]
  rw [readAtUvarInt64_of_drop h1 hv hd1]
  simp only [hw2, if_neg (Nat.not_lt.mpr hmax), ReadAt_of_drop h2 hd2, hw3]
  cases hp : env.Parse eKey with
  | error e => rfl
  | ok p =>
    obtain ⟨readKey, ts⟩ := p
    simp only []
    by_cases hkey : readKey = key
    · simp only [hkey, if_true]
      by_cases hbig : maxAlloc < vlen
      · simp only [hbig, if_true]
      · simp only [hbig, if_false]
        cases hr : ReadAt r.f vlen
            (off + (klEnc.length : Int) + (vlEnc.length : Int) + (eKey.length : Int)) with
        | error e => rfl
        | ok value =>
          cases value with
          | nil => rfl
          | cons tag raw =>
            simp only []
            by_cases ht : tag = env.typeNil
            · simp only [ht, if_true]
            · simp only [ht, if_false]
    · simp only [hkey, if_false]

end sst

/-! ## The order on keys -/

namespace sst

theorem strLess_irrefl (a : List Nat) : strLess a a = false := by
  induction a with
  | nil => rfl
  | cons x xs ih => simp [strLess, ih]

theorem strLess_asymm {a b : List Nat} (h : strLess a b = true) : strLess b a = false := by
  induction a generalizing b with
  | nil => cases b <;> simp [strLess] at h ⊢
  | cons x xs ih =>
    cases b with
    | nil => simp [strLess] at h
    | cons y ys =>
      simp only [strLess, Bool.or_eq_true, Bool.and_eq_true, decide_eq_true_eq] at h
      simp only [strLess, Bool.or_eq_false_iff, Bool.and_eq_false_imp, decide_eq_false_iff_not,
        decide_eq_true_eq]
      rcases h with h | ⟨h1, h2⟩
      · exact ⟨by omega, fun e => by omega⟩
      · exact ⟨by omega, fun _ => ih h2⟩

theorem strLess_ne {a b : List Nat} (h : strLess a b = true) : a ≠ b := by
  intro e; subst e; rw [strLess_irrefl] at h; exact Bool.false_ne_true h

theorem strLess_total {a b : List Nat} (h : strLess a b = false) (hne : a ≠ b) :
    strLess b a = true := by
  induction a generalizing b with
  | nil => cases b <;> simp [strLess] at h hne ⊢
  | cons x xs ih =>
    cases b with
    | nil => simp [strLess]
    | cons y ys =>
      simp only [strLess, Bool.or_eq_false_iff, Bool.and_eq_false_imp, decide_eq_false_iff_not,
        decide_eq_true_eq] at h
      simp only [strLess, Bool.or_eq_true, Bool.and_eq_true, decide_eq_true_eq]
      by_cases hxy : x = y
      · right
        subst hxy
        refine ⟨rfl, ih (h.2 rfl) ?_⟩
        intro e; exact hne (by rw [e])
      · left; omega

end sst

/-! ## Iterations over records of the data model -/

namespace sst

theorem Record.bytes_length (rec : Record) :
    ((rec.bytes.length : Nat) : Int) = (rec.klEnc.length : Int) + rec.vlEnc.length
      + rec.eKey.length + rec.payload.length := by
  simp [Record.bytes, Record.head]; omega

theorem Record.WF.two_le {env : Env} {rec : Record} (h : rec.WF env) : 2 ≤ rec.bytes.length := by
  have h1 := h.keyLength.length_pos
  have h2 := h.valueLength.length_pos
  have := rec.bytes_length
  omega

theorem payload_lt {r : Reader} {off : Int} {rec : Record} {rest : List Nat} (h0 : 0 ≤ off)
    (hdrop : r.f.drop off.toNat = rec.bytes ++ rest) (hpos : 1 ≤ rec.bytes.length) :
    off + (rec.bytes.length : Int) + (rest.length : Int) = (r.f.length : Int) := by
  rcases length_of_drop h0 hdrop with h | ⟨h, -⟩
  · exact h
  · rw [h] at hpos; simp at hpos

/-- A record with a smaller user key is skipped: the scan moves to the end of its payload. -/
theorem iter_skip (env : Env) (r : Reader) (key : List Nat) (off : Int) (rec : Record)
    (rest : List Nat) (h0 : 0 ≤ off) (hsz : (r.f.length : Int) < 9223372036854775808)
    (hwf : rec.WF env) (hlt : strLess rec.userKey key = true)
    (hdrop : r.f.drop off.toNat = rec.bytes ++ rest) :
    iter env r key off = (rec.headOps off, .continue (off + (rec.bytes.length : Int))) := by
  have hd : r.f.drop off.toNat
      = rec.klEnc ++ (rec.vlEnc ++ (rec.eKey ++ (rec.payload ++ rest))) := by
    rw [hdrop]; simp [Record.bytes, Record.head]
  have hlen := payload_lt h0 hdrop (by have := hwf.two_le; omega)
  have hb := rec.bytes_length
  rw [iter_head env r key off _ _ _ _ _ h0 hsz hwf.keyLength hwf.valueLength hwf.maxKey hd,
    hwf.decodes]
  simp only [if_neg (strLess_ne hlt), strLess_asymm hlt, Bool.false_eq_true, if_false]
  rw [toInt64_of_lt (by omega), wrapInt64_of_range (by omega) (by omega)]
  simp only [Record.headOps, Prod.mk.injEq, true_and, Next.continue.injEq]
  omega

/-- A record with the queried user key ends the call with that record's value. -/
theorem iter_match (env : Env) (r : Reader) (off : Int) (rec : Record)
    (rest : List Nat) (h0 : 0 ≤ off) (hsz : (r.f.length : Int) < 9223372036854775808)
    (hwf : rec.WF env) (htag : rec.Tagged) (halloc : rec.payload.length ≤ maxAlloc)
    (hdrop : r.f.drop off.toNat = rec.bytes ++ rest) :
    iter env r rec.userKey off =
      (rec.headOps off ++ [⟨off + rec.head.length, rec.payload.length⟩],
        .done (rec.result env)) := by
  have hd : r.f.drop off.toNat
      = rec.klEnc ++ (rec.vlEnc ++ (rec.eKey ++ (rec.payload ++ rest))) := by
    rw [hdrop]; simp [Record.bytes, Record.head]
  have hlen := payload_lt h0 hdrop (by have := hwf.two_le; omega)
  have hb := rec.bytes_length
  have hkl := hwf.keyLength.length_pos
  have hhead : ((rec.head.length : Nat) : Int)
      = (rec.klEnc.length : Int) + rec.vlEnc.length + rec.eKey.length := by
    simp [Record.head]; omega
  have h3 : 0 ≤ off + (rec.klEnc.length : Int) + rec.vlEnc.length + rec.eKey.length := by omega
  have hd3 : r.f.drop (off + (rec.klEnc.length : Int) + rec.vlEnc.length
      + rec.eKey.length).toNat = rec.payload ++ rest := by
    have e : off + (rec.klEnc.length : Int) + rec.vlEnc.length + rec.eKey.length
        = off + ((rec.klEnc ++ (rec.vlEnc ++ rec.eKey)).length : Int) := by
      simp; omega
    rw [e]
    apply drop_shift h0
    rw [hd]; simp
  rw [iter_head env r rec.userKey off _ _ _ _ _ h0 hsz hwf.keyLength hwf.valueLength hwf.maxKey
    hd, hwf.decodes]
  simp only [if_true]
  rw [if_neg (Nat.not_lt.mpr halloc), ReadAt_of_drop h3 hd3]
  unfold Record.result Record.value Record.headOps Record.Tagged at *
  rw [hhead]
  cases hp : rec.payload with
  | nil => rw [hp] at htag; simp at htag
  | cons tag raw =>
    by_cases ht : tag = env.typeNil
    · simp [ht]; omega
    · simp [ht]; omega

/-- A record with the queried user key whose payload is too long to be allocated ends
the call with the panic of `make`. -/
theorem iter_match_big (env : Env) (r : Reader) (off : Int) (rec : Record)
    (rest : List Nat) (h0 : 0 ≤ off) (hsz : (r.f.length : Int) < 9223372036854775808)
    (hwf : rec.WF env) (hbig : maxAlloc < rec.payload.length)
    (hdrop : r.f.drop off.toNat = rec.bytes ++ rest) :
    iter env r rec.userKey off = (rec.headOps off, .done (.fault .makeLen)) := by
  have hd : r.f.drop off.toNat
      = rec.klEnc ++ (rec.vlEnc ++ (rec.eKey ++ (rec.payload ++ rest))) := by
    rw [hdrop]; simp [Record.bytes, Record.head]
  rw [iter_head env r rec.userKey off _ _ _ _ _ h0 hsz hwf.keyLength hwf.valueLength hwf.maxKey
    hd, hwf.decodes]
  simp only [if_true]
  rw [if_pos hbig]
  rfl

/-- A record with a greater user key ends the call with `ErrNotFound`; only its length
fields and its encoded key need to be in the file. -/
theorem iter_greater (env : Env) (r : Reader) (key : List Nat) (off : Int) (rec : Record)
    (rest : List Nat) (vlen : Nat) (h0 : 0 ≤ off)
    (hsz : (r.f.length : Int) < 9223372036854775808)
    (hk : IsUvarint rec.klEnc rec.eKey.length) (hv : IsUvarint rec.vlEnc vlen)
    (hmax : rec.eKey.length ≤ env.MaxKeySize)
    (hdec : env.Parse rec.eKey = .ok (rec.userKey, rec.ts))
    (hgt : strLess key rec.userKey = true)
    (hdrop : r.f.drop off.toNat = rec.head ++ rest) :
    iter env r key off = (rec.headOps off, .done notFound) := by
  have hd : r.f.drop off.toNat = rec.klEnc ++ (rec.vlEnc ++ (rec.eKey ++ rest)) := by
    rw [hdrop]; simp [Record.head]
  rw [iter_head env r key off _ _ _ _ _ h0 hsz hk hv hmax hd, hdec]
  simp only [if_neg (Ne.symm (strLess_ne hgt)), hgt, if_true]
  rfl

/-- A record whose encoded key does not decode ends the call with the codec's error. -/
theorem iter_corrupt (env : Env) (r : Reader) (key : List Nat) (off : Int) (rec : Record)
    (rest : List Nat) (vlen : Nat) (e : CodecError) (h0 : 0 ≤ off)
    (hsz : (r.f.length : Int) < 9223372036854775808)
    (hk : IsUvarint rec.klEnc rec.eKey.length) (hv : IsUvarint rec.vlEnc vlen)
    (hmax : rec.eKey.length ≤ env.MaxKeySize)
    (hdec : env.Parse rec.eKey = .error e)
    (hdrop : r.f.drop off.toNat = rec.head ++ rest) :
    iter env r key off = (rec.headOps off, .done (.ret none 0 (some (.codec e)))) := by
  have hd : r.f.drop off.toNat = rec.klEnc ++ (rec.vlEnc ++ (rec.eKey ++ rest)) := by
    rw [hdrop]; simp [Record.head]
  rw [iter_head env r key off _ _ _ _ _ h0 hsz hk hv hmax hd, hdec]
  rfl

end sst

/-! ## The scan over a run of records -/

namespace sst

theorem findLoop_succ_lt (env : Env) (r : Reader) (key : List Nat) (fuel : Nat) (off : Int)
    (h : off < r.fLength) :
    findLoop env r key (fuel + 1) off =
      (match iter env r key off with
       | (ops, .done run) => (ops, some run)
       | (ops, .continue offset) =>
         (ops ++ (findLoop env r key fuel offset).1, (findLoop env r key fuel offset).2)) := by
  rw [findLoop, if_pos h]

theorem findLoop_succ_ge (env : Env) (r : Reader) (key : List Nat) (fuel : Nat) (off : Int)
    (h : r.fLength ≤ off) :
    findLoop env r key (fuel + 1) off = ([], some notFound) := by
  rw [findLoop, if_neg (by omega)]; rfl

/-- The scan skips a run of records with smaller user keys and goes on behind them. -/
theorem findLoop_skip (env : Env) (r : Reader) (key : List Nat)
    (hsz : (r.f.length : Int) < 9223372036854775808) (less : List Record) :
    ∀ (off : Int) (rest : List Nat) (fuel : Nat), 0 ≤ off →
      (∀ rec ∈ less, rec.WF env) → (∀ rec ∈ less, strLess rec.userKey key = true) →
      r.f.drop off.toNat = bodyBytes less ++ rest →
      off + ((bodyBytes less).length : Int) ≤ r.fLength →
      findLoop env r key (less.length + fuel) off =
        (skipOps less off
          ++ (findLoop env r key fuel (off + ((bodyBytes less).length : Int))).1,
         (findLoop env r key fuel (off + ((bodyBytes less).length : Int))).2) := by
  induction less with
  | nil => intro off rest fuel _ _ _ _ _; simp [bodyBytes, skipOps]
  | cons rec less ih =>
    intro off rest fuel h0 hwf hlt hdrop hlen
    have hrec := hwf rec (List.mem_cons_self _ _)
    have h2 := hrec.two_le
    have hd : r.f.drop off.toNat = rec.bytes ++ (bodyBytes less ++ rest) := by
      rw [hdrop]; simp [bodyBytes]
    have hbl : (((bodyBytes (rec :: less)).length : Nat) : Int)
        = (rec.bytes.length : Int) + ((bodyBytes less).length : Int) := by
      simp [bodyBytes]
    have hlt' : off < r.fLength := by omega
    have e : (rec :: less).length + fuel = (less.length + fuel) + 1 := by simp; omega
    rw [e, findLoop_succ_lt env r key _ off hlt',
      iter_skip env r key off rec _ h0 hsz hrec (hlt rec (List.mem_cons_self _ _)) hd]
    simp only []
    have h0' : 0 ≤ off + (rec.bytes.length : Int) := by omega
    rw [ih (off + (rec.bytes.length : Int)) rest fuel h0'
      (fun x hx => hwf x (List.mem_cons_of_mem _ hx))
      (fun x hx => hlt x (List.mem_cons_of_mem _ hx))
      (drop_shift h0 hd) (by omega)]
    have eo : off + (rec.bytes.length : Int) + ((bodyBytes less).length : Int)
        = off + (((bodyBytes (rec :: less)).length : Nat) : Int) := by omega
    simp only [eo, skipOps, List.append_assoc]

/-- The result of a scan that starts at a run of records ending at the cached file
length: the contract `lookupSpec`, unless the scan meets a record with the queried user
key whose payload is too long to be allocated. -/
theorem findLoop_records_or (env : Env) (r : Reader) (key : List Nat)
    (hsz : (r.f.length : Int) < 9223372036854775808) (recs : List Record) :
    ∀ (off : Int) (rest : List Nat) (fuel : Nat), 0 ≤ off →
      (∀ rec ∈ recs, rec.WF env) → (∀ rec ∈ recs, rec.userKey = key → rec.Tagged) →
      r.f.drop off.toNat = bodyBytes recs ++ rest →
      r.fLength = off + ((bodyBytes recs).length : Int) →
      recs.length < fuel →
      (findLoop env r key fuel off).2 = some (lookupSpec env recs key)
      ∨ ((findLoop env r key fuel off).2 = some (.fault .makeLen)
          ∧ ∃ rec ∈ recs, rec.userKey = key ∧ maxAlloc < rec.payload.length) := by
  induction recs with
  | nil =>
    intro off rest fuel _ _ _ _ hlen hfuel
    obtain ⟨n, rfl⟩ : ∃ n, fuel = n + 1 := ⟨fuel - 1, by simp at hfuel; omega⟩
    rw [findLoop_succ_ge env r key n off (by simp [bodyBytes] at hlen; omega)]
    exact Or.inl rfl
  | cons rec recs ih =>
    intro off rest fuel h0 hwf htag hdrop hlen hfuel
    obtain ⟨n, rfl⟩ : ∃ n, fuel = n + 1 := ⟨fuel - 1, by simp at hfuel; omega⟩
    have hrec := hwf rec (List.mem_cons_self _ _)
    have h2 := hrec.two_le
    have hd : r.f.drop off.toNat = rec.bytes ++ (bodyBytes recs ++ rest) := by
      rw [hdrop]; simp [bodyBytes]
    have hbl : (((bodyBytes (rec :: recs)).length : Nat) : Int)
        = (rec.bytes.length : Int) + ((bodyBytes recs).length : Int) := by
      simp [bodyBytes]
    rw [findLoop_succ_lt env r key n off (by omega)]
    by_cases hless : strLess rec.userKey key = true
    · rw [iter_skip env r key off rec _ h0 hsz hrec hless hd]
      simp only []
      have hl : lookupSpec env (rec :: recs) key = lookupSpec env recs key := by
        simp [lookupSpec, List.find?, hless]
      rw [hl]
      rcases ih (off + (rec.bytes.length : Int)) rest n (by omega)
        (fun x hx => hwf x (List.mem_cons_of_mem _ hx))
        (fun x hx => htag x (List.mem_cons_of_mem _ hx)) (drop_shift h0 hd) (by omega)
        (by simp at hfuel; omega) with h | ⟨h, x, hx, hk, hb⟩
      · exact Or.inl h
      · exact Or.inr ⟨h, x, List.mem_cons_of_mem _ hx, hk, hb⟩
    · have hless : strLess rec.userKey key = false := by simpa using hless
      by_cases heq : rec.userKey = key
      · have ht := htag rec (List.mem_cons_self _ _) heq
        subst heq
        by_cases hbig : maxAlloc < rec.payload.length
        · rw [iter_match_big env r off rec _ h0 hsz hrec hbig hd]
          exact Or.inr ⟨rfl, rec, List.mem_cons_self _ _, rfl, hbig⟩
        · rw [iter_match env r off rec _ h0 hsz hrec ht (Nat.not_lt.mp hbig) hd]
          left
          simp [lookupSpec, List.find?, hless]
      · have hhead : r.f.drop off.toNat
            = rec.head ++ (rec.payload ++ (bodyBytes recs ++ rest)) := by
          rw [hd]; simp [Record.bytes]
        rw [iter_greater env r key off rec _ _ h0 hsz hrec.keyLength hrec.valueLength
          hrec.maxKey hrec.decodes (strLess_total hless heq) hhead]
        left
        simp [lookupSpec, List.find?, hless, heq]

/-- The result of a scan that starts at a run of records ending at the cached file
length, when the payload of a record with the queried user key can be allocated: the
contract `lookupSpec`. -/
theorem findLoop_records (env : Env) (r : Reader) (key : List Nat)
    (hsz : (r.f.length : Int) < 9223372036854775808) (recs : List Record)
    (off : Int) (rest : List Nat) (fuel : Nat) (h0 : 0 ≤ off)
    (hwf : ∀ rec ∈ recs, rec.WF env) (htag : ∀ rec ∈ recs, rec.userKey = key → rec.Tagged)
    (halloc : ∀ rec ∈ recs, rec.userKey = key → rec.payload.length ≤ maxAlloc)
    (hdrop : r.f.drop off.toNat = bodyBytes recs ++ rest)
    (hlen : r.fLength = off + ((bodyBytes recs).length : Int))
    (hfuel : recs.length < fuel) :
    (findLoop env r key fuel off).2 = some (lookupSpec env recs key) := by
  rcases findLoop_records_or env r key hsz recs off rest fuel h0 hwf htag hdrop hlen hfuel
    with h | ⟨_, x, hx, hk, hb⟩
  · exact h
  · exact absurd (halloc x hx hk) (by omega)

end sst

/-! ## The contract of `Find` on files of the data model -/

namespace sst

theorem exampleRecords_wf : ∀ rec ∈ exampleRecords, rec.WF sampleEnv ∧ rec.Tagged := by
  intro rec h
  simp only [exampleRecords, List.mem_cons, List.mem_singleton, List.not_mem_nil, or_false] at h
  rcases h with rfl | rfl | rfl <;>
    exact ⟨⟨rfl, rfl, by decide, rfl⟩, by decide⟩

theorem exampleFile_layout : exampleReader.f = sampleMagic ++ bodyBytes exampleRecords ++ [] := by
  decide

/-- The scan of a whole body of records yields the contract `lookupSpec`. -/
theorem find_eq_lookupSpec (env : Env) (r : Reader) (hdr : List Nat)
    (recs : List Record) (tail key : List Nat) (fuel : Nat)
    (hhdr : hdr.length = 8)
    (hfile : r.f = hdr ++ bodyBytes recs ++ tail)
    (hlen : r.fLength = 8 + ((bodyBytes recs).length : Int))
    (hsz : (r.f.length : Int) < 9223372036854775808)
    (hwf : ∀ rec ∈ recs, rec.WF env ∧ rec.Tagged)
    (halloc : ∀ rec ∈ recs, rec.userKey = key → rec.payload.length ≤ maxAlloc)
    (hfuel : recs.length < fuel) :
    (r.Find env key fuel).2 = some (lookupSpec env recs key) := by
  unfold Reader.Find
  apply findLoop_records env r key hsz recs 8 tail fuel (by omega) (fun x hx => (hwf x hx).1)
    (fun x hx _ => (hwf x hx).2) halloc _ hlen hfuel
  rw [hfile, List.append_assoc]
  have e : (8 : Int).toNat = hdr.length := by rw [hhdr]; rfl
  rw [e, List.drop_left]

/-- The scan of a whole body of records yields the contract `lookupSpec`, or it panics
at a record with the queried user key whose payload is too long to be allocated. -/
theorem find_eq_lookupSpec_or (env : Env) (r : Reader) (hdr : List Nat)
    (recs : List Record) (tail key : List Nat) (fuel : Nat)
    (hhdr : hdr.length = 8)
    (hfile : r.f = hdr ++ bodyBytes recs ++ tail)
    (hlen : r.fLength = 8 + ((bodyBytes recs).length : Int))
    (hsz : (r.f.length : Int) < 9223372036854775808)
    (hwf : ∀ rec ∈ recs, rec.WF env ∧ rec.Tagged)
    (hfuel : recs.length < fuel) :
    (r.Find env key fuel).2 = some (lookupSpec env recs key)
    ∨ ((r.Find env key fuel).2 = some (.fault .makeLen) ∧ ∃ rec ∈ recs, rec.userKey = key) := by
  unfold Reader.Find
  have hd : r.f.drop (8 : Int).toNat = bodyBytes recs ++ tail := by
    rw [hfile, List.append_assoc]
    have e : (8 : Int).toNat = hdr.length := by rw [hhdr]; rfl
    rw [e, List.drop_left]
  rcases findLoop_records_or env r key hsz recs 8 tail fuel (by omega)
    (fun x hx => (hwf x hx).1) (fun x hx _ => (hwf x hx).2) hd hlen hfuel
    with h | ⟨h, x, hx, hk, _⟩
  · exact Or.inl h
  · exact Or.inr ⟨h, x, hx, hk⟩

theorem exampleRecords_alloc (key : List Nat) :
    ∀ rec ∈ exampleRecords, rec.userKey = key → rec.payload.length ≤ maxAlloc := by
  intro rec h _
  simp only [exampleRecords, List.mem_cons, List.mem_singleton, List.not_mem_nil, or_false] at h
  rcases h with rfl | rfl | rfl <;> decide

/-- C1: in a file whose body, from offset 8 to the cached file length, is a sequence of
records of the data model (length varints, an encoded key within the maximum key size
that decodes, a payload of at least one byte), `Find(key)` is decided by the first
record in file order whose user key is not less than `key`: an equal key gives that
record's value (absent for the nil tag, otherwise the payload after the tag), its
timestamp and a nil error; a greater key, or no such record, gives `ErrNotFound`.
Any budget of more iterations than there are records suffices.  The payload of a
record with the queried key is one that the runtime can allocate (at most `maxAlloc`
bytes; the data model bounds `valueLength` by the maximum key size). -/
theorem C1_find_decided_by_first_record (env : Env) (r : Reader) (hdr : List Nat)
    (recs : List Record) (tail key : List Nat) (fuel : Nat)
    (hhdr : hdr.length = 8)
    (hfile : r.f = hdr ++ bodyBytes recs ++ tail)
    (hlen : r.fLength = 8 + ((bodyBytes recs).length : Int))
    (hsz : (r.f.length : Int) < 9223372036854775808)
    (hwf : ∀ rec ∈ recs, rec.WF env ∧ rec.Tagged)
    (halloc : ∀ rec ∈ recs, rec.userKey = key → rec.payload.length ≤ maxAlloc)
    (hfuel : recs.length < fuel) :
    (r.Find env key fuel).2 = some (lookupSpec env recs key) := by
  exact find_eq_lookupSpec env r hdr recs tail key fuel hhdr hfile hlen hsz hwf halloc hfuel

/-- C1, witness: the example scenario.  `Find("a")` is `("v1", 5)`, `Find("b")` is the
absent value with timestamp 9, `Find("c")` is `ErrNotFound`. -/
theorem C1_find_decided_by_first_record_witness :
    (∀ rec ∈ exampleRecords, rec.WF sampleEnv ∧ rec.Tagged)
    ∧ (exampleReader.Find sampleEnv [97] 4).2 = some (.ret (some [118, 49]) 5 none)
    ∧ (exampleReader.Find sampleEnv [98] 4).2 = some (.ret none 9 none)
    ∧ (exampleReader.Find sampleEnv [99] 4).2 = some (.ret none 0 (some .ErrNotFound)) :=
  ⟨exampleRecords_wf,
   C1_find_decided_by_first_record sampleEnv exampleReader sampleMagic exampleRecords [] [97] 4
     (by decide) exampleFile_layout (by decide) (by decide) exampleRecords_wf
     (exampleRecords_alloc [97]) (by decide),
   C1_find_decided_by_first_record sampleEnv exampleReader sampleMagic exampleRecords [] [98] 4
     (by decide) exampleFile_layout (by decide) (by decide) exampleRecords_wf
     (exampleRecords_alloc [98]) (by decide),
   C1_find_decided_by_first_record sampleEnv exampleReader sampleMagic exampleRecords [] [99] 4
     (by decide) exampleFile_layout (by decide) (by decide) exampleRecords_wf
     (exampleRecords_alloc [99]) (by decide)⟩

end sst

/-! ## Conformant files: sorted records -/

namespace sst

theorem keyOrder_of_sorted {recs : List Record} (hs : SortedByEncodedKey recs)
    (hc : CodecOrdered recs) : recs.Pairwise KeyOrder := by
  unfold SortedByEncodedKey at hs
  exact List.Pairwise.imp_of_mem (fun {a b} ha hb h => hc a ha b hb h) hs

/-- In records ordered by user key and then by descending timestamp, a key that occurs
is found at its newest record. -/
theorem lookupSpec_newest (env : Env) (key : List Nat) (recs : List Record)
    (ho : recs.Pairwise KeyOrder) (hex : ∃ rec ∈ recs, rec.userKey = key) :
    ∃ rec ∈ recs, rec.userKey = key ∧ (∀ other ∈ recs, other.userKey = key → other.ts ≤ rec.ts)
      ∧ lookupSpec env recs key = .ret (rec.value env) rec.ts none := by
  induction recs with
  | nil => obtain ⟨rec, h, _⟩ := hex; simp at h
  | cons x xs ih =>
    rw [List.pairwise_cons] at ho
    obtain ⟨hx, hxs⟩ := ho
    by_cases heq : x.userKey = key
    · refine ⟨x, List.mem_cons_self _ _, heq, ?_, ?_⟩
      · intro other ho hk
        rcases List.mem_cons.mp ho with rfl | hmem
        · exact le_refl _
        · rcases hx other hmem with h | ⟨_, h⟩
          · rw [heq, hk, strLess_irrefl] at h; exact absurd h Bool.false_ne_true
          · exact h
      · simp [lookupSpec, List.find?, heq, strLess_irrefl, Record.result]
    · obtain ⟨rec, hmem, hk⟩ := hex
      have hmem : rec ∈ xs := by
        rcases List.mem_cons.mp hmem with rfl | h
        · exact absurd hk heq
        · exact h
      have hless : strLess x.userKey key = true := by
        rcases hx rec hmem with h | ⟨h, _⟩
        · rw [hk] at h; exact h
        · exact absurd (h.trans hk) heq
      obtain ⟨best, hb, hbk, hbmax, hbres⟩ := ih hxs ⟨rec, hmem, hk⟩
      refine ⟨best, List.mem_cons_of_mem _ hb, hbk, ?_, ?_⟩
      · intro other ho hok
        rcases List.mem_cons.mp ho with rfl | h
        · exact absurd hok heq
        · exact hbmax other h hok
      · rw [← hbres]
        simp [lookupSpec, List.find?, hless]

/-- Without a record of the queried key the contract is `NotFound`. -/
theorem lookupSpec_absent (env : Env) (key : List Nat) (recs : List Record)
    (hno : ∀ rec ∈ recs, rec.userKey ≠ key) : lookupSpec env recs key = notFound := by
  unfold lookupSpec
  cases hf : recs.find? (fun rec => !strLess rec.userKey key) with
  | none => rfl
  | some rec =>
    have hmem := List.mem_of_find?_eq_some hf
    simp [hno rec hmem]

/-- C2: in a conformant file (records of the data model in non-decreasing order of
their encoded keys, the byte order of the codec being ascending user key then
descending timestamp) `Find` of a user key that occurs succeeds and returns the
timestamp that is maximal among the records of that user key, with the value of a
record that carries this timestamp.  The payload of a record with the queried key is
one that the runtime can allocate (at most `maxAlloc` bytes). -/
theorem C2_find_returns_newest (env : Env) (r : Reader) (hdr : List Nat)
    (recs : List Record) (tail key : List Nat) (fuel : Nat)
    (hhdr : hdr.length = 8)
    (hfile : r.f = hdr ++ bodyBytes recs ++ tail)
    (hlen : r.fLength = 8 + ((bodyBytes recs).length : Int))
    (hsz : (r.f.length : Int) < 9223372036854775808)
    (hwf : ∀ rec ∈ recs, rec.WF env ∧ rec.Tagged)
    (halloc : ∀ rec ∈ recs, rec.userKey = key → rec.payload.length ≤ maxAlloc)
    (hsorted : SortedByEncodedKey recs) (hcodec : CodecOrdered recs)
    (hex : ∃ rec ∈ recs, rec.userKey = key)
    (hfuel : recs.length < fuel) :
    ∃ rec ∈ recs, rec.userKey = key
      ∧ (∀ other ∈ recs, other.userKey = key → other.ts ≤ rec.ts)
      ∧ (r.Find env key fuel).2 = some (.ret (rec.value env) rec.ts none) := by
  obtain ⟨rec, hmem, hk, hmax, hres⟩ :=
    lookupSpec_newest env key recs (keyOrder_of_sorted hsorted hcodec) hex
  refine ⟨rec, hmem, hk, hmax, ?_⟩
  rw [← hres]
  exact find_eq_lookupSpec env r hdr recs tail key fuel hhdr hfile hlen hsz hwf halloc hfuel

theorem exampleRecords_sorted : SortedByEncodedKey exampleRecords := by
  unfold SortedByEncodedKey exampleRecords; decide

theorem exampleRecords_codec : CodecOrdered exampleRecords := by
  unfold CodecOrdered exampleRecords; decide

/-- C2, witness: in the example scenario `"a"` has the versions 5 and 3 and `Find("a")`
returns version 5. -/
theorem C2_find_returns_newest_witness :
    SortedByEncodedKey exampleRecords ∧ CodecOrdered exampleRecords
    ∧ ∃ rec ∈ exampleRecords, rec.userKey = [97]
      ∧ (∀ other ∈ exampleRecords, other.userKey = [97] → other.ts ≤ rec.ts)
      ∧ (exampleReader.Find sampleEnv [97] 4).2 = some (.ret (rec.value sampleEnv) rec.ts none) :=
  ⟨exampleRecords_sorted, exampleRecords_codec,
   C2_find_returns_newest sampleEnv exampleReader sampleMagic exampleRecords [] [97] 4
     (by decide) exampleFile_layout (by decide) (by decide) exampleRecords_wf
     (exampleRecords_alloc [97]) exampleRecords_sorted exampleRecords_codec
     ⟨_, List.mem_cons_self _ _, rfl⟩ (by decide)⟩

end sst

namespace sst

/-- C3: in a conformant file `Find(key)` returns `ErrNotFound` exactly when no record of
the file has the user key `key`; the early exit at a greater key hides no later match. -/
theorem C3_notFound_iff_absent (env : Env) (r : Reader) (hdr : List Nat)
    (recs : List Record) (tail key : List Nat) (fuel : Nat)
    (hhdr : hdr.length = 8)
    (hfile : r.f = hdr ++ bodyBytes recs ++ tail)
    (hlen : r.fLength = 8 + ((bodyBytes recs).length : Int))
    (hsz : (r.f.length : Int) < 9223372036854775808)
    (hwf : ∀ rec ∈ recs, rec.WF env ∧ rec.Tagged)
    (hsorted : SortedByEncodedKey recs) (hcodec : CodecOrdered recs)
    (hfuel : recs.length < fuel) :
    (r.Find env key fuel).2 = some (.ret none 0 (some .ErrNotFound))
      ↔ ∀ rec ∈ recs, rec.userKey ≠ key := by
  rcases find_eq_lookupSpec_or env r hdr recs tail key fuel hhdr hfile hlen hsz hwf hfuel
    with hfind | ⟨hfault, x, hx, hxk⟩
  · rw [hfind]
    constructor
    · intro h rec hmem hk
      obtain ⟨best, _, _, _, hres⟩ :=
        lookupSpec_newest env key recs (keyOrder_of_sorted hsorted hcodec) ⟨rec, hmem, hk⟩
      rw [hres] at h
      simp at h
    · intro h
      rw [lookupSpec_absent env key recs h]
      rfl
  · rw [hfault]
    constructor
    · intro h; simp at h
    · intro h; exact absurd hxk (h x hx)

/-- C3, witness: in the example scenario `"aa"` is absent and `Find("aa")` is
`ErrNotFound`, although the scan stops at `"b"`. -/
theorem C3_notFound_iff_absent_witness :
    ((exampleReader.Find sampleEnv [97, 97] 4).2 = some (.ret none 0 (some .ErrNotFound))
      ↔ ∀ rec ∈ exampleRecords, rec.userKey ≠ [97, 97])
    ∧ (exampleReader.Find sampleEnv [97, 97] 4).2 = some (.ret none 0 (some .ErrNotFound)) :=
  ⟨C3_notFound_iff_absent sampleEnv exampleReader sampleMagic exampleRecords [] [97, 97] 4
     (by decide) exampleFile_layout (by decide) (by decide) exampleRecords_wf
     exampleRecords_sorted exampleRecords_codec (by decide),
   by decide⟩

end sst

/-! ## Scans that end at a record behind smaller keys -/

namespace sst

/-- A scan that skips records with smaller keys and then meets an iteration that ends
the call: the result of that iteration is the result of `Find`. -/
theorem find_after_skip (env : Env) (r : Reader) (key hdr : List Nat) (less : List Record)
    (rest : List Nat) (fuel : Nat) (ops : List ReadOp) (run : Run)
    (hhdr : hdr.length = 8)
    (hfile : r.f = hdr ++ bodyBytes less ++ rest)
    (hlen : 8 + ((bodyBytes less).length : Int) < r.fLength)
    (hsz : (r.f.length : Int) < 9223372036854775808)
    (hless : ∀ x ∈ less, x.WF env ∧ strLess x.userKey key = true)
    (hit : iter env r key (8 + ((bodyBytes less).length : Int)) = (ops, .done run))
    (hfuel : less.length < fuel) :
    r.Find env key fuel = (skipOps less 8 ++ ops, some run) := by
  obtain ⟨n, rfl⟩ : ∃ n, fuel = less.length + (n + 1) := ⟨fuel - less.length - 1, by omega⟩
  have hd : r.f.drop (8 : Int).toNat = bodyBytes less ++ rest := by
    rw [hfile, List.append_assoc]
    have e : (8 : Int).toNat = hdr.length := by rw [hhdr]; rfl
    rw [e, List.drop_left]
  unfold Reader.Find
  rw [findLoop_skip env r key hsz less 8 rest (n + 1) (by omega) (fun x hx => (hless x hx).1)
    (fun x hx => (hless x hx).2) hd (by omega), findLoop_succ_lt env r key n _ hlen, hit]

theorem drop_after_skip {f hdr : List Nat} (less : List Record) {rest : List Nat}
    (hhdr : hdr.length = 8) (hfile : f = hdr ++ bodyBytes less ++ rest) :
    f.drop (8 + ((bodyBytes less).length : Int)).toNat = rest := by
  have e : (8 + ((bodyBytes less).length : Int)).toNat = (hdr ++ bodyBytes less).length := by
    rw [List.length_append, hhdr]; omega
  rw [hfile, e, List.drop_left]

/-- C4: when the scan reaches the first record whose user key equals the query (all
records before it have smaller user keys) and its payload starts with the nil type
tag, `Find` returns the absent value, the record's timestamp and a nil error; with
any other tag it returns exactly the payload bytes after the first byte, so a
present empty value is `some []` and differs from a tombstone.  The payload of the
record is one that the runtime can allocate (at most `maxAlloc` bytes). -/
theorem C4_tombstone_and_present (env : Env) (r : Reader) (hdr : List Nat)
    (less : List Record) (rec : Record) (rest : List Nat) (tag : Nat) (raw : List Nat)
    (fuel : Nat)
    (hhdr : hdr.length = 8)
    (hfile : r.f = hdr ++ bodyBytes less ++ (rec.bytes ++ rest))
    (hlen : 8 + ((bodyBytes less).length : Int) < r.fLength)
    (hsz : (r.f.length : Int) < 9223372036854775808)
    (hless : ∀ x ∈ less, x.WF env ∧ strLess x.userKey rec.userKey = true)
    (hrec : rec.WF env) (hpay : rec.payload = tag :: raw)
    (halloc : rec.payload.length ≤ maxAlloc)
    (hfuel : less.length < fuel) :
    (tag = env.typeNil → (r.Find env rec.userKey fuel).2 = some (.ret none rec.ts none))
    ∧ (tag ≠ env.typeNil →
        (r.Find env rec.userKey fuel).2 = some (.ret (some raw) rec.ts none)) := by
  have hit := iter_match env r (8 + ((bodyBytes less).length : Int)) rec rest (by omega) hsz
    hrec (by unfold Record.Tagged; rw [hpay]; simp) halloc (drop_after_skip less hhdr hfile)
  rw [find_after_skip env r rec.userKey hdr less _ fuel _ _ hhdr hfile hlen hsz hless hit hfuel]
  unfold Record.result Record.value
  rw [hpay]
  constructor
  · intro h; simp [h]
  · intro h; simp [h]

theorem exampleRecords_before_b :
    ∀ x ∈ exampleRecords.take 2, x.WF sampleEnv ∧ strLess x.userKey [98] = true := by
  intro rec h
  simp only [exampleRecords, List.take, List.mem_cons, List.mem_singleton, List.not_mem_nil,
    or_false] at h
  rcases h with rfl | rfl <;> exact ⟨⟨rfl, rfl, by decide, rfl⟩, by decide⟩

/-- C4, witness: the tombstone of `"b"` in the example scenario is found as the absent
value with timestamp 9, and the empty present value of `emptyValueRecord` as `some []`. -/
theorem C4_tombstone_and_present_witness :
    (exampleReader.Find sampleEnv [98] 3).2 = some (.ret none 9 none)
    ∧ (emptyValueReader.Find sampleEnv [97] 1).2 = some (.ret (some []) 5 none) :=
  ⟨(C4_tombstone_and_present sampleEnv exampleReader sampleMagic
      (exampleRecords.take 2) (exampleRecords.get ⟨2, by decide⟩) [] 0 [] 3
      (by decide) (by decide) (by decide) (by decide) exampleRecords_before_b
      ⟨rfl, rfl, by decide, rfl⟩ rfl (by decide) (by decide)).1 rfl,
   (C4_tombstone_and_present sampleEnv emptyValueReader sampleMagic
      [] emptyValueRecord [] 1 [] 1
      (by decide) (by decide) (by decide) (by decide) (by simp)
      ⟨rfl, rfl, by decide, rfl⟩ rfl (by decide) (by decide)).2 (by decide)⟩

end sst

/-! ## Early termination and the reads of a scan -/

namespace sst

theorem Record.head_length (rec : Record) :
    ((rec.head.length : Nat) : Int) = (rec.klEnc.length : Int) + rec.vlEnc.length
      + rec.eKey.length := by
  simp [Record.head]; omega

theorem headOps_bound (rec : Record) (off : Int) :
    ∀ op ∈ rec.headOps off, off ≤ op.off ∧ op.off + (op.len : Int) ≤ off + rec.head.length := by
  intro op h
  have hl := rec.head_length
  simp only [Record.headOps, List.mem_cons, List.mem_singleton, List.not_mem_nil, or_false] at h
  rcases h with rfl | rfl | rfl <;> simp only [] <;> omega

theorem skipOps_bound (recs : List Record) :
    ∀ (off : Int), ∀ op ∈ skipOps recs off,
      off ≤ op.off ∧ op.off + (op.len : Int) ≤ off + (bodyBytes recs).length := by
  induction recs with
  | nil => intro off op h; simp [skipOps] at h
  | cons rec recs ih =>
    intro off op h
    have hb : (((bodyBytes (rec :: recs)).length : Nat) : Int)
        = (rec.bytes.length : Int) + ((bodyBytes recs).length : Int) := by
      simp [bodyBytes]
    have hl := rec.head_length
    have hbl := rec.bytes_length
    simp only [skipOps, List.mem_append] at h
    rcases h with h | h
    · have := headOps_bound rec off op h
      omega
    · have := ih _ op h
      omega

/-- The scan that meets a greater key behind smaller keys, in closed form. -/
theorem find_greater (env : Env) (r : Reader) (key hdr : List Nat) (less : List Record)
    (rec : Record) (vlen : Nat) (rest : List Nat) (fuel : Nat)
    (hhdr : hdr.length = 8)
    (hfile : r.f = hdr ++ bodyBytes less ++ (rec.head ++ rest))
    (hlen : 8 + ((bodyBytes less).length : Int) + rec.head.length ≤ r.fLength)
    (hsz : (r.f.length : Int) < 9223372036854775808)
    (hless : ∀ x ∈ less, x.WF env ∧ strLess x.userKey key = true)
    (hk : IsUvarint rec.klEnc rec.eKey.length) (hv : IsUvarint rec.vlEnc vlen)
    (hmax : rec.eKey.length ≤ env.MaxKeySize)
    (hdec : env.Parse rec.eKey = .ok (rec.userKey, rec.ts))
    (hgt : strLess key rec.userKey = true)
    (hfuel : less.length < fuel) :
    r.Find env key fuel
      = (skipOps less 8 ++ rec.headOps (8 + ((bodyBytes less).length : Int)), some notFound) := by
  have hkl := hk.length_pos
  have hl := rec.head_length
  exact find_after_skip env r key hdr less _ fuel _ _ hhdr hfile (by omega) hsz hless
    (iter_greater env r key _ rec rest vlen (by omega) hsz hk hv hmax hdec hgt
      (drop_after_skip less hhdr hfile)) hfuel

/-- C5: when the scan reaches, behind records with smaller user keys only, a record
whose decoded user key is greater than the query, `Find` returns `ErrNotFound` and
issues no read beyond the end of that record's encoded key; two files that agree up
to the end of that encoded key, whatever follows and whatever their lengths, give the
same reads and both give `ErrNotFound`. -/
theorem C5_early_termination (env : Env) (r₁ r₂ : Reader) (key hdr : List Nat)
    (less : List Record) (rec : Record) (vlen : Nat) (rest₁ rest₂ : List Nat) (fuel : Nat)
    (hhdr : hdr.length = 8)
    (hfile₁ : r₁.f = hdr ++ bodyBytes less ++ (rec.head ++ rest₁))
    (hfile₂ : r₂.f = hdr ++ bodyBytes less ++ (rec.head ++ rest₂))
    (hlen₁ : 8 + ((bodyBytes less).length : Int) + rec.head.length ≤ r₁.fLength)
    (hlen₂ : 8 + ((bodyBytes less).length : Int) + rec.head.length ≤ r₂.fLength)
    (hsz₁ : (r₁.f.length : Int) < 9223372036854775808)
    (hsz₂ : (r₂.f.length : Int) < 9223372036854775808)
    (hless : ∀ x ∈ less, x.WF env ∧ strLess x.userKey key = true)
    (hk : IsUvarint rec.klEnc rec.eKey.length) (hv : IsUvarint rec.vlEnc vlen)
    (hmax : rec.eKey.length ≤ env.MaxKeySize)
    (hdec : env.Parse rec.eKey = .ok (rec.userKey, rec.ts))
    (hgt : strLess key rec.userKey = true)
    (hfuel : less.length < fuel) :
    (r₁.Find env key fuel).2 = some (.ret none 0 (some .ErrNotFound))
    ∧ (r₂.Find env key fuel).2 = some (.ret none 0 (some .ErrNotFound))
    ∧ (r₁.Find env key fuel).1 = (r₂.Find env key fuel).1
    ∧ ∀ op ∈ (r₁.Find env key fuel).1,
        8 ≤ op.off
        ∧ op.off + (op.len : Int) ≤ 8 + ((bodyBytes less).length : Int) + rec.head.length := by
  rw [find_greater env r₁ key hdr less rec vlen rest₁ fuel hhdr hfile₁ hlen₁ hsz₁ hless hk hv
      hmax hdec hgt hfuel,
    find_greater env r₂ key hdr less rec vlen rest₂ fuel hhdr hfile₂ hlen₂ hsz₂ hless hk hv
      hmax hdec hgt hfuel]
  refine ⟨rfl, rfl, rfl, ?_⟩
  intro op h
  simp only [List.mem_append] at h
  rcases h with h | h
  · have := skipOps_bound less 8 op h
    omega
  · have := headOps_bound rec (8 + ((bodyBytes less).length : Int)) op h
    have hb : (0 : Int) ≤ ((bodyBytes less).length : Int) := by omega
    omega

theorem exampleRecords_before_aa :
    ∀ x ∈ exampleRecords.take 2, x.WF sampleEnv ∧ strLess x.userKey [97, 97] = true := by
  intro rec h
  simp only [exampleRecords, List.take, List.mem_cons, List.mem_singleton, List.not_mem_nil,
    or_false] at h
  rcases h with rfl | rfl <;> exact ⟨⟨rfl, rfl, by decide, rfl⟩, by decide⟩

/-- C5, witness: in the example scenario `Find("aa")` stops at the `"b"` record, whose
encoded key ends at offset 32; the file cut there and continued with other bytes gives
the same reads and the same `ErrNotFound`. -/
theorem C5_early_termination_witness :
    (exampleReader.Find sampleEnv [97, 97] 3).2 = some (.ret none 0 (some .ErrNotFound))
    ∧ (garbledReader.Find sampleEnv [97, 97] 3).2 = some (.ret none 0 (some .ErrNotFound))
    ∧ (exampleReader.Find sampleEnv [97, 97] 3).1 = (garbledReader.Find sampleEnv [97, 97] 3).1
    ∧ ∀ op ∈ (exampleReader.Find sampleEnv [97, 97] 3).1,
        8 ≤ op.off ∧ op.off + (op.len : Int) ≤ 8 + (18 : Nat) + (6 : Nat) :=
  C5_early_termination sampleEnv exampleReader garbledReader [97, 97] sampleMagic
    (exampleRecords.take 2) (exampleRecords.get ⟨2, by decide⟩) 1 [0] [200, 200, 200] 3
    (by decide) (by decide) (by decide) (by decide) (by decide) (by decide) (by decide)
    exampleRecords_before_aa rfl rfl (by decide) rfl (by decide) (by decide)

end sst

namespace sst

/-- The scan over a body whose user keys are all smaller than the query, in closed form. -/
theorem find_all_less (env : Env) (r : Reader) (key hdr : List Nat) (recs : List Record)
    (tail : List Nat) (fuel : Nat)
    (hhdr : hdr.length = 8)
    (hfile : r.f = hdr ++ bodyBytes recs ++ tail)
    (hlen : r.fLength = 8 + ((bodyBytes recs).length : Int))
    (hsz : (r.f.length : Int) < 9223372036854775808)
    (hless : ∀ x ∈ recs, x.WF env ∧ strLess x.userKey key = true)
    (hfuel : recs.length < fuel) :
    r.Find env key fuel = (skipOps recs 8, some notFound) := by
  obtain ⟨n, rfl⟩ : ∃ n, fuel = recs.length + (n + 1) := ⟨fuel - recs.length - 1, by omega⟩
  have hd : r.f.drop (8 : Int).toNat = bodyBytes recs ++ tail := by
    rw [hfile, List.append_assoc]
    have e : (8 : Int).toNat = hdr.length := by rw [hhdr]; rfl
    rw [e, List.drop_left]
  unfold Reader.Find
  rw [findLoop_skip env r key hsz recs 8 tail (n + 1) (by omega) (fun x hx => (hless x hx).1)
    (fun x hx => (hless x hx).2) hd (by omega),
    findLoop_succ_ge env r key n _ (by omega)]
  simp

/-- C6: in a file whose body is a sequence of records of the data model that ends
exactly at the file length, `Find` of a key greater than every stored user key returns
`ErrNotFound`, and every read it issues covers a byte range inside `[8, fLength)`:
none extends past the end of the file and none that requests a byte starts at it. -/
theorem C6_greater_than_all_keys (env : Env) (r : Reader) (key hdr : List Nat)
    (recs : List Record) (fuel : Nat)
    (hhdr : hdr.length = 8)
    (hfile : r.f = hdr ++ bodyBytes recs)
    (hlen : r.fLength = (r.f.length : Int))
    (hsz : (r.f.length : Int) < 9223372036854775808)
    (hwf : ∀ x ∈ recs, x.WF env ∧ x.Tagged)
    (hless : ∀ x ∈ recs, strLess x.userKey key = true)
    (hfuel : recs.length < fuel) :
    (r.Find env key fuel).2 = some (.ret none 0 (some .ErrNotFound))
    ∧ ∀ op ∈ (r.Find env key fuel).1,
        8 ≤ op.off ∧ op.off + (op.len : Int) ≤ r.fLength ∧ op.satisfied r.f.length
        ∧ (0 < op.len → op.off < r.fLength) := by
  have hl : r.fLength = 8 + ((bodyBytes recs).length : Int) := by
    rw [hlen, hfile]; simp [hhdr]
  rw [find_all_less env r key hdr recs [] fuel hhdr (by rw [hfile]; simp) hl hsz
    (fun x hx => ⟨(hwf x hx).1, hless x hx⟩) hfuel]
  refine ⟨rfl, ?_⟩
  intro op h
  have := skipOps_bound recs 8 op h
  unfold ReadOp.satisfied
  omega

/-- C6, witness: in the example scenario `"c"` is greater than `"a"` and `"b"`;
`Find("c")` is `ErrNotFound` and all its reads lie inside `[8, 33)`. -/
theorem C6_greater_than_all_keys_witness :
    (exampleReader.Find sampleEnv [99] 4).2 = some (.ret none 0 (some .ErrNotFound))
    ∧ ∀ op ∈ (exampleReader.Find sampleEnv [99] 4).1,
        8 ≤ op.off ∧ op.off + (op.len : Int) ≤ 33 ∧ op.satisfied 33
        ∧ (0 < op.len → op.off < 33) :=
  C6_greater_than_all_keys sampleEnv exampleReader [99] sampleMagic exampleRecords 4
    (by decide) (by decide) (by decide) (by decide) exampleRecords_wf
    (by decide) (by decide)

end sst

/-! ## Construction -/

namespace sst

theorem verifyMagic_iff (env : Env) (r : Reader) :
    r.verifyMagic env 0 = true ↔ 8 ≤ r.f.length ∧ leUint64 (r.f.take 8) = env.SstMagic := by
  unfold Reader.verifyMagic ReadAt
  simp only [lt_self_iff_false, if_false, Int.toNat_zero, List.drop_zero, List.length_take]
  by_cases h : 8 ≤ r.f.length
  · simp [h]
  · have : ¬ min 8 r.f.length = 8 := by omega
    simp [h, this]

/-- C7: when the file opens and its size can be read, `NewReader` succeeds exactly when
the file holds at least 8 bytes and the first 8 bytes, as a little-endian unsigned
64-bit integer, equal `SstMagic`; otherwise it returns an error and no reader.  On
success the reader holds the file, the size and the name.  Two files with the same
first 8 bytes are both accepted or both rejected, whatever follows. -/
theorem C7_newReader_iff_magic (env : Env) (os : OS) (filename : String) (f : List Nat)
    (size : Int) (hopen : os.Open filename = .ok f) (hstat : os.Stat f = .ok size) :
    ((∃ r, NewReader env os filename = .ok r)
      ↔ 8 ≤ f.length ∧ leUint64 (f.take 8) = env.SstMagic)
    ∧ (∀ r, NewReader env os filename = .ok r
        → r = { f := f, fLength := size, filename := filename })
    ∧ (¬ (8 ≤ f.length ∧ leUint64 (f.take 8) = env.SstMagic)
        → ∃ e, NewReader env os filename = .error e)
    ∧ (∀ (os' : OS) (filename' : String) (f' : List Nat) (size' : Int),
        os'.Open filename' = .ok f' → os'.Stat f' = .ok size' → f'.take 8 = f.take 8 →
        ((∃ r, NewReader env os filename = .ok r)
          ↔ ∃ r', NewReader env os' filename' = .ok r')) := by
  have key : ∀ (os : OS) (filename : String) (f : List Nat) (size : Int),
      os.Open filename = .ok f → os.Stat f = .ok size →
      NewReader env os filename =
        if 8 ≤ f.length ∧ leUint64 (f.take 8) = env.SstMagic then
          .ok { f := f, fLength := size, filename := filename }
        else .error ("invalid magic at start of file " ++ filename) := by
    intro os filename f size ho hs
    unfold NewReader
    simp only [ho, hs]
    by_cases h : 8 ≤ f.length ∧ leUint64 (f.take 8) = env.SstMagic
    · rw [if_pos h, if_pos ((verifyMagic_iff env _).mpr h)]
    · rw [if_neg h, if_neg (fun hv => h ((verifyMagic_iff env _).mp hv))]
  have hiff : ∀ (os : OS) (filename : String) (f : List Nat) (size : Int),
      os.Open filename = .ok f → os.Stat f = .ok size →
      ((∃ r, NewReader env os filename = .ok r)
        ↔ 8 ≤ f.length ∧ leUint64 (f.take 8) = env.SstMagic) := by
    intro os filename f size ho hs
    rw [key os filename f size ho hs]
    by_cases h : 8 ≤ f.length ∧ leUint64 (f.take 8) = env.SstMagic
    · simp [h]
    · simp [h]
  refine ⟨hiff os filename f size hopen hstat, ?_, ?_, ?_⟩
  · intro r hr
    rw [key os filename f size hopen hstat] at hr
    by_cases h : 8 ≤ f.length ∧ leUint64 (f.take 8) = env.SstMagic
    · rw [if_pos h] at hr
      exact (Except.ok.inj hr).symm
    · rw [if_neg h] at hr
      cases hr
  · intro h
    rw [key os filename f size hopen hstat, if_neg h]
    exact ⟨_, rfl⟩
  · intro os' filename' f' size' ho hs ht
    rw [hiff os filename f size hopen hstat, hiff os' filename' f' size' ho hs, ht]
    have hl := congrArg List.length ht
    simp only [List.length_take] at hl
    constructor
    · rintro ⟨h1, h2⟩; exact ⟨by omega, h2⟩
    · rintro ⟨h1, h2⟩; exact ⟨by omega, h2⟩

/-- C7, witness: the example file opens; a file of the 7 first bytes of the magic and
the empty file do not. -/
theorem C7_newReader_iff_magic_witness :
    (∃ r, NewReader sampleEnv (singleFileOS exampleFile) "example.sst" = .ok r)
    ∧ (∃ e, NewReader sampleEnv (singleFileOS (sampleMagic.take 7)) "short.sst" = .error e)
    ∧ (∃ e, NewReader sampleEnv (singleFileOS []) "empty.sst" = .error e) :=
  ⟨(C7_newReader_iff_magic sampleEnv (singleFileOS exampleFile) "example.sst" exampleFile 33
      rfl rfl).1.mpr (by decide),
   (C7_newReader_iff_magic sampleEnv (singleFileOS (sampleMagic.take 7)) "short.sst"
      (sampleMagic.take 7) 7 rfl rfl).2.2.1 (by decide),
   (C7_newReader_iff_magic sampleEnv (singleFileOS []) "empty.sst" [] 0
      rfl rfl).2.2.1 (by decide)⟩

end sst

/-! ## Arbitrary file contents -/

namespace sst

theorem uvarintLoop_consumed (bs : List Nat) (i x s v : Nat) (n : Int)
    (h : (uvarintLoop bs i x s).1 = .ok (v, n)) : n - (i : Int) ≤ (bs.length : Int) := by
  induction bs generalizing i x s with
  | nil => unfold uvarintLoop at h; split at h <;> simp at h
  | cons b bs ih =>
    unfold uvarintLoop at h
    by_cases h10 : 10 ≤ i
    · simp [h10] at h
    · simp only [h10, if_false] at h
      by_cases hb : b < 128
      · simp only [hb, if_true] at h
        by_cases h9 : i = 9 ∧ 1 < b
        · simp [h9] at h
        · simp only [h9, if_false, Except.ok.injEq, Prod.mk.injEq] at h
          simp only [List.length_cons]
          omega
      · simp only [hb, if_false] at h
        have := ih (i + 1) _ _ h
        simp only [List.length_cons]
        push_cast at this ⊢
        omega

theorem readAtUvarInt64_ok {f : List Nat} {off : Int} {v : Nat} {n : Int}
    (h : (readAtUvarInt64 f off).1 = .ok (v, n)) :
    0 ≤ off ∧ 1 ≤ n ∧ n ≤ 10 ∧ off + n ≤ (f.length : Int) := by
  unfold readAtUvarInt64 at h
  by_cases hneg : off < 0
  · simp [hneg] at h
  · simp only [hneg, if_false] at h
    have h1 := uvarintLoop_asked _ 0 0 0 v n h
    have h2 := uvarintLoop_consumed _ 0 0 0 v n h
    simp only [List.length_drop] at h2
    omega

theorem ReadAt_ok {f : List Nat} {n : Nat} {off : Int} {bs : List Nat}
    (h : ReadAt f n off = .ok bs) :
    0 ≤ off ∧ (n = 0 ∨ off + (n : Int) ≤ (f.length : Int)) := by
  unfold ReadAt at h
  by_cases hneg : off < 0
  · simp [hneg] at h
  · simp only [hneg, if_false] at h
    by_cases hl : ((f.drop off.toNat).take n).length = n
    · simp only [List.length_take, List.length_drop] at hl
      omega
    · rw [if_neg hl] at h
      cases h

end sst

namespace sst

theorem ReadAt_length {f : List Nat} {n : Nat} {off : Int} {bs : List Nat}
    (h : ReadAt f n off = .ok bs) : bs.length = n := by
  unfold ReadAt at h
  by_cases hneg : off < 0
  · simp [hneg] at h
  · simp only [hneg, if_false] at h
    by_cases hl : ((f.drop off.toNat).take n).length = n
    · rw [if_pos hl] at h
      cases h
      exact hl
    · rw [if_neg hl] at h
      cases h

/-- One iteration at an offset whose length fields are safe: it returns (with a nil
error, or with a nil value and timestamp 0), or it moves the offset forward by at least
two bytes, or the skip wraps around to a negative offset. -/
theorem iter_safe (env : Env) (r : Reader) (key : List Nat) (off : Int)
    (hsz : (r.f.length : Int) < 9223372036854775808)
    (hsafe : SafeRecordAt env r key off) :
    (∃ ops v ts e, iter env r key off = (ops, .done (.ret v ts e))
        ∧ (e = none ∨ (v = none ∧ ts = 0)))
    ∨ (∃ ops off', iter env r key off = (ops, .continue off')
        ∧ 0 ≤ off ∧ (off + 2 ≤ off' ∨ off' < 0)) := by
  rcases h1 : readAtUvarInt64 r.f off with ⟨res1, op1⟩
  cases res1 with
  | error e =>
    left
    exact ⟨[op1], none, 0, some e, by unfold iter; simp only [h1], Or.inr ⟨rfl, rfl⟩⟩
  | ok p =>
    obtain ⟨kl, n1⟩ := p
    have f1 := @readAtUvarInt64_ok r.f off kl n1 (by rw [h1])
    have w1 : wrapInt64 (off + n1) = off + n1 := wrapInt64_of_range (by omega) (by omega)
    rcases h2 : readAtUvarInt64 r.f (off + n1) with ⟨res2, op2⟩
    cases res2 with
    | error e =>
      left
      exact ⟨[op1, op2], none, 0, some e, by unfold iter; simp only [h1, w1, h2],
        Or.inr ⟨rfl, rfl⟩⟩
    | ok q =>
      obtain ⟨vl, n2⟩ := q
      have f2 := @readAtUvarInt64_ok r.f (off + n1) vl n2 (by rw [h2])
      have w2 : wrapInt64 (off + n1 + n2) = off + n1 + n2 :=
        wrapInt64_of_range (by omega) (by omega)
      have hla : r.lengthsAt off = some (kl, vl, off + n1 + n2) := by
        unfold Reader.lengthsAt
        simp only [h1, w1, h2, w2]
      obtain ⟨hkl, hvl, hmatch⟩ := hsafe _ _ _ hla
      have hmax : ¬ env.MaxKeySize < kl := by omega
      cases h3 : ReadAt r.f kl (off + n1 + n2) with
      | error e =>
        left
        exact ⟨_, none, 0, some e, by unfold iter; simp only [h1, w1, h2, w2, hmax, if_false, h3]; rfl,
          Or.inr ⟨rfl, rfl⟩⟩
      | ok kb =>
        have f3 := ReadAt_ok h3
        have hkl63 : (kl : Int) < 9223372036854775808 := by
          rcases f3.2 with h | h
          · rw [h]; decide
          · omega
        have w3 : wrapInt64 (off + n1 + n2 + toInt64 kl) = off + n1 + n2 + (kl : Int) := by
          rw [toInt64_of_lt hkl63]
          rcases f3.2 with h | h
          · rw [h]; simp; exact wrapInt64_of_range (by omega) (by omega)
          · exact wrapInt64_of_range (by omega) (by omega)
        have hend : off + n1 + n2 + (kl : Int) ≤ (r.f.length : Int) := by
          rcases f3.2 with h | h
          · rw [h]; simp; omega
          · exact h
        cases h4 : env.Parse kb with
        | error e =>
          left
          exact ⟨_, none, 0, some (.codec e),
            by unfold iter; simp only [h1, w1, h2, w2, hmax, if_false, h3, h4]; rfl,
            Or.inr ⟨rfl, rfl⟩⟩
        | ok pr =>
          obtain ⟨readKey, ts⟩ := pr
          by_cases hkey : readKey = key
          · left
            have hvl1 := (hmatch kb ts h3 (by rw [h4, hkey])).1
            have hbig : ¬ (maxAlloc < vl) :=
              Nat.not_lt.mpr (hmatch kb ts h3 (by rw [h4, hkey])).2
            cases h5 : ReadAt r.f vl (off + n1 + n2 + (kl : Int)) with
            | error e =>
              exact ⟨_, none, 0, some e,
                by unfold iter; simp only [h1, w1, h2, w2, hmax, if_false, h3, h4, w3, hkey,
                  if_true, hbig, h5]; rfl,
                Or.inr ⟨rfl, rfl⟩⟩
            | ok value =>
              have hlv := ReadAt_length h5
              cases value with
              | nil => simp at hlv; omega
              | cons tag rest =>
                by_cases ht : tag = env.typeNil
                · exact ⟨_, none, ts, none,
                    by unfold iter; simp only [h1, w1, h2, w2, hmax, if_false, h3, h4, w3, hkey,
                      if_true, hbig, h5, ht]; rfl,
                    Or.inl rfl⟩
                · exact ⟨_, some rest, ts, none,
                    by unfold iter; simp only [h1, w1, h2, w2, hmax, if_false, h3, h4, w3, hkey,
                      if_true, hbig, h5, ht]; rfl,
                    Or.inl rfl⟩
          · by_cases hgt : strLess key readKey = true
            · left
              exact ⟨_, none, 0, some .ErrNotFound,
                by unfold iter; simp only [h1, w1, h2, w2, hmax, if_false, h3, h4, w3, hkey,
                  hgt, if_true]; rfl,
                Or.inr ⟨rfl, rfl⟩⟩
            · right
              have hgt : strLess key readKey = false := by simpa using hgt
              refine ⟨_, wrapInt64 (off + n1 + n2 + (kl : Int) + toInt64 vl),
                by unfold iter; simp only [h1, w1, h2, w2, hmax, if_false, h3, h4, w3, hkey,
                  hgt, Bool.false_eq_true]; rfl, f1.1, ?_⟩
              rw [toInt64_of_lt (by omega)]
              unfold wrapInt64
              omega

end sst

namespace sst

/-- A scan whose visited length fields are safe returns within the iteration budget
`m + 1`, where `m` bounds the distance of the offset to the cached file length. -/
theorem findLoop_safe (env : Env) (r : Reader) (key : List Nat)
    (hsz : (r.f.length : Int) < 9223372036854775808)
    (hsafe : ∀ off, Visits env r key off → off < r.fLength → SafeRecordAt env r key off)
    (m : Nat) :
    ∀ (off : Int) (fuel : Nat), Visits env r key off →
      (off < 0 ∨ (r.fLength - off).toNat ≤ m) → m + 1 ≤ fuel →
      ∃ v ts e, (findLoop env r key fuel off).2 = some (.ret v ts e)
        ∧ (e = none ∨ (v = none ∧ ts = 0)) := by
  induction m with
  | zero =>
    intro off fuel hv hm hfuel
    obtain ⟨n, rfl⟩ : ∃ n, fuel = n + 1 := ⟨fuel - 1, by omega⟩
    by_cases hlt : off < r.fLength
    · rw [findLoop_succ_lt env r key n off hlt]
      rcases iter_safe env r key off hsz (hsafe off hv hlt) with
        ⟨ops, v, ts, e, hit, hshape⟩ | ⟨ops, off', hit, h0, _⟩
      · rw [hit]; exact ⟨v, ts, e, rfl, hshape⟩
      · omega
    · rw [findLoop_succ_ge env r key n off (by omega)]
      exact ⟨none, 0, some .ErrNotFound, rfl, Or.inr ⟨rfl, rfl⟩⟩
  | succ m ih =>
    intro off fuel hv hm hfuel
    obtain ⟨n, rfl⟩ : ∃ n, fuel = n + 1 := ⟨fuel - 1, by omega⟩
    by_cases hlt : off < r.fLength
    · rw [findLoop_succ_lt env r key n off hlt]
      rcases iter_safe env r key off hsz (hsafe off hv hlt) with
        ⟨ops, v, ts, e, hit, hshape⟩ | ⟨ops, off', hit, h0, hprog⟩
      · rw [hit]; exact ⟨v, ts, e, rfl, hshape⟩
      · rw [hit]
        have hv' : Visits env r key off' := Visits.next hv hlt (by rw [hit])
        exact ih off' n hv' (by omega) (by omega)
    · rw [findLoop_succ_ge env r key n off (by omega)]
      exact ⟨none, 0, some .ErrNotFound, rfl, Or.inr ⟨rfl, rfl⟩⟩

theorem backwardSkip_iter :
    iter sampleEnv backwardSkipReader [98] 8
      = ([⟨8, 1⟩, ⟨9, 10⟩, ⟨19, 4⟩], .continue 8) := by
  decide

/-- A skipped record whose value length converts to a negative `int64` can lead the
scan back to where it was: this call of `Find` never returns. -/
theorem backwardSkip_never_returns (fuel : Nat) :
    (backwardSkipReader.Find sampleEnv [98] fuel).2 = none := by
  unfold Reader.Find
  induction fuel with
  | zero => rfl
  | succ n ih =>
    rw [findLoop_succ_lt sampleEnv backwardSkipReader [98] n 8 (by decide), backwardSkip_iter]
    exact ih

end sst

namespace sst

theorem garbled_visits (off : Int) (h : Visits sampleEnv garbledReader [99] off) :
    off = 8 ∨ off = 17 ∨ off = 26 ∨ off = 33 := by
  induction h with
  | start => exact Or.inl rfl
  | next _ _ hstep ih =>
    rcases ih with rfl | rfl | rfl | rfl
    · have e : (iter sampleEnv garbledReader [99] 8).2 = .continue 17 := by decide
      rw [e] at hstep; injection hstep with hstep; omega
    · have e : (iter sampleEnv garbledReader [99] 17).2 = .continue 26 := by decide
      rw [e] at hstep; injection hstep with hstep; omega
    · have e : (iter sampleEnv garbledReader [99] 26).2 = .continue 33 := by decide
      rw [e] at hstep; injection hstep with hstep; omega
    · have e : (iter sampleEnv garbledReader [99] 33).2
          = .done (.ret none 0 (some .eof)) := by decide
      rw [e] at hstep; cases hstep

theorem garbled_safe (off : Int) (h : Visits sampleEnv garbledReader [99] off)
    (_hlt : off < garbledReader.fLength) : SafeRecordAt sampleEnv garbledReader [99] off := by
  intro kl vl koff hl
  rcases garbled_visits off h with rfl | rfl | rfl | rfl
  · have e : garbledReader.lengthsAt 8 = some (4, 3, 10) := by decide
    rw [e] at hl; cases hl
    exact ⟨by decide, by decide, fun _ _ _ _ => by decide⟩
  · have e : garbledReader.lengthsAt 17 = some (4, 3, 19) := by decide
    rw [e] at hl; cases hl
    exact ⟨by decide, by decide, fun _ _ _ _ => by decide⟩
  · have e : garbledReader.lengthsAt 26 = some (4, 1, 28) := by decide
    rw [e] at hl; cases hl
    exact ⟨by decide, by decide, fun _ _ _ _ => by decide⟩
  · have e : garbledReader.lengthsAt 33 = none := by decide
    rw [e] at hl; cases hl

theorem example_visits_b (off : Int) (h : Visits sampleEnv exampleReader [98] off) :
    off = 8 ∨ off = 17 ∨ off = 26 := by
  induction h with
  | start => exact Or.inl rfl
  | next _ _ hstep ih =>
    rcases ih with rfl | rfl | rfl
    · have e : (iter sampleEnv exampleReader [98] 8).2 = .continue 17 := by decide
      rw [e] at hstep; injection hstep with hstep; omega
    · have e : (iter sampleEnv exampleReader [98] 17).2 = .continue 26 := by decide
      rw [e] at hstep; injection hstep with hstep; omega
    · have e : (iter sampleEnv exampleReader [98] 26).2 = .done (.ret none 9 none) := by decide
      rw [e] at hstep; cases hstep

theorem example_safe_b (off : Int) (h : Visits sampleEnv exampleReader [98] off)
    (_hlt : off < exampleReader.fLength) : SafeRecordAt sampleEnv exampleReader [98] off := by
  intro kl vl koff hl
  rcases example_visits_b off h with rfl | rfl | rfl
  · have e : exampleReader.lengthsAt 8 = some (4, 3, 10) := by decide
    rw [e] at hl; cases hl
    exact ⟨by decide, by decide, fun _ _ _ _ => by decide⟩
  · have e : exampleReader.lengthsAt 17 = some (4, 3, 19) := by decide
    rw [e] at hl; cases hl
    exact ⟨by decide, by decide, fun _ _ _ _ => by decide⟩
  · have e : exampleReader.lengthsAt 26 = some (4, 1, 28) := by decide
    rw [e] at hl; cases hl
    exact ⟨by decide, by decide, fun _ _ _ _ => by decide⟩

theorem example_visits_a (off : Int) (h : Visits sampleEnv exampleReader [97] off) :
    off = 8 := by
  induction h with
  | start => rfl
  | next _ _ hstep ih =>
    subst ih
    have e : (iter sampleEnv exampleReader [97] 8).2
        = .done (.ret (some [118, 49]) 5 none) := by decide
    rw [e] at hstep; cases hstep

theorem example_safe_a (off : Int) (h : Visits sampleEnv exampleReader [97] off)
    (_hlt : off < exampleReader.fLength) : SafeRecordAt sampleEnv exampleReader [97] off := by
  intro kl vl koff hl
  have h8 := example_visits_a off h
  subst h8
  have e : exampleReader.lengthsAt 8 = some (4, 3, 10) := by decide
  rw [e] at hl; cases hl
  exact ⟨by decide, by decide, fun _ _ _ _ => by decide⟩

theorem emptyValue_safe (off : Int) (h : Visits sampleEnv emptyValueReader [97] off)
    (_hlt : off < emptyValueReader.fLength) :
    SafeRecordAt sampleEnv emptyValueReader [97] off := by
  clear _hlt
  have h8 : off = 8 := by
    induction h with
    | start => rfl
    | next _ _ hstep ih =>
      subst ih
      have e : (iter sampleEnv emptyValueReader [97] 8).2
          = .done (.ret (some []) 5 none) := by decide
      rw [e] at hstep; cases hstep
  subst h8
  intro kl vl koff hl
  have e : emptyValueReader.lengthsAt 8 = some (4, 1, 10) := by decide
  rw [e] at hl; cases hl
  exact ⟨by decide, by decide, fun _ _ _ _ => by decide⟩

/-- C8, as amended: for every file content and query key such that every record the
scan visits declares a `keyLength` of at most `MaxKeySize` and a `valueLength` in the
`int64` range, and a visited record whose user key equals the query declares a
`valueLength` of at least 1 and of at most `maxAlloc` (the longest slice that
`make([]byte, valueLen)` allocates), `Find` returns normally, within `fLength - 8 + 1`
iterations, with a nil error, or with an error, a nil value and timestamp 0; it does
not panic. -/
theorem C8_returns_when_lengths_safe (env : Env) (r : Reader) (key : List Nat) (fuel : Nat)
    (hsz : (r.f.length : Int) < 9223372036854775808)
    (hsafe : ∀ off, Visits env r key off → off < r.fLength → SafeRecordAt env r key off)
    (hfuel : (r.fLength - 8).toNat + 1 ≤ fuel) :
    ∃ v ts e, (r.Find env key fuel).2 = some (.ret v ts e)
      ∧ (e = none ∨ (v = none ∧ ts = 0)) :=
  findLoop_safe env r key hsz hsafe (r.fLength - 8).toNat 8 fuel Visits.start
    (Or.inr (le_refl _)) hfuel

/-- C8, witness: in the example scenario the scan for `"a"` meets the queried key in the
first record, allocates the payload of 3 bytes and returns `("v1", 5)`, and the scan for
`"b"` skips two records and returns the tombstone of `"b"`; on the garbled example file
the scan for `"c"` visits three records with safe length fields and then bytes that are
no varint, and `Find` returns a read error. -/
theorem C8_returns_when_lengths_safe_witness :
    ((∃ v ts e, (exampleReader.Find sampleEnv [97] 26).2 = some (.ret v ts e)
        ∧ (e = none ∨ (v = none ∧ ts = 0)))
      ∧ (exampleReader.Find sampleEnv [97] 26).2 = some (.ret (some [118, 49]) 5 none))
    ∧ ((∃ v ts e, (exampleReader.Find sampleEnv [98] 26).2 = some (.ret v ts e)
        ∧ (e = none ∨ (v = none ∧ ts = 0)))
      ∧ (exampleReader.Find sampleEnv [98] 26).2 = some (.ret none 9 none))
    ∧ ((∃ v ts e, (garbledReader.Find sampleEnv [99] 28).2 = some (.ret v ts e)
        ∧ (e = none ∨ (v = none ∧ ts = 0)))
      ∧ (garbledReader.Find sampleEnv [99] 28).2 = some (.ret none 0 (some .eof))) :=
  ⟨⟨C8_returns_when_lengths_safe sampleEnv exampleReader [97] 26 (by decide) example_safe_a
      (by decide), by decide⟩,
   ⟨C8_returns_when_lengths_safe sampleEnv exampleReader [98] 26 (by decide) example_safe_b
      (by decide), by decide⟩,
   ⟨C8_returns_when_lengths_safe sampleEnv garbledReader [99] 28 (by decide) garbled_safe
      (by decide), by decide⟩⟩

theorem hugeKey_faults (env : Env) (key : List Nat)
    (hM : env.MaxKeySize < 9223372036854775808) :
    (hugeKeyReader.Find env key 1).2 = some (.fault .sliceBounds) := by
  have h1 : readAtUvarInt64 hugeKeyReader.f 8
      = (.ok (18446744073709551615, 10), ⟨8, 10⟩) := by rfl
  have h2 : readAtUvarInt64 hugeKeyReader.f (wrapInt64 (8 + 10)) = (.ok (1, 1), ⟨18, 1⟩) := by
    rfl
  have hlt : env.MaxKeySize < 18446744073709551615 := by omega
  have hit : iter env hugeKeyReader key 8 = ([⟨8, 10⟩, ⟨18, 1⟩], .done (.fault .sliceBounds)) := by
    unfold iter
    simp only [h1, h2, hlt, if_true]
  unfold Reader.Find
  rw [findLoop_succ_lt env hugeKeyReader key 0 8 (by decide), hit]

/-- C8, counterexample: `Find` does not return normally on every file content.  A
record of the queried key with `valueLength` 0 makes it panic at `value[0]`; a
`keyLength` of `2 ^ 64 - 1` makes it panic at `kb[0:keyLen]` whatever the maximum key
size is; a record of the queried key with `valueLength` `2 ^ 62` makes it panic at
`make([]byte, valueLen)`; and a skipped record with `valueLength` `2 ^ 64 - 15` sends
the scan back to offset 8, so that no iteration budget suffices. -/
theorem C8_counterexample :
    (zeroValueReader.Find sampleEnv [97] 1).2 = some (.fault .indexRange)
    ∧ (∀ env : Env, env.MaxKeySize < 9223372036854775808 →
        (hugeKeyReader.Find env [97] 1).2 = some (.fault .sliceBounds))
    ∧ (largeValueReader.Find sampleEnv [97] 1).2 = some (.fault .makeLen)
    ∧ (∀ fuel, (backwardSkipReader.Find sampleEnv [98] fuel).2 = none) :=
  ⟨by decide, fun env hM => hugeKey_faults env [97] hM, by decide,
    backwardSkip_never_returns⟩

end sst

/-! ## Reads that cannot be satisfied -/

namespace sst

theorem uvarintLoop_asked_le (bs : List Nat) (i x s : Nat)
    (h : (uvarintLoop bs i x s).1 ≠ .error .eof) :
    (uvarintLoop bs i x s).2 ≤ i + bs.length := by
  induction bs generalizing i x s with
  | nil =>
    unfold uvarintLoop at h ⊢
    by_cases h10 : 10 ≤ i
    · simp [h10]
    · simp [h10] at h
  | cons b bs ih =>
    unfold uvarintLoop at h ⊢
    by_cases h10 : 10 ≤ i
    · simp [h10]
    · simp only [h10, if_false] at h ⊢
      by_cases hb : b < 128
      · simp only [hb, if_true]
        by_cases h9 : i = 9 ∧ 1 < b
        · simp only [h9, and_self, if_true, List.length_cons]; omega
        · simp only [h9, if_false, List.length_cons]; omega
      · simp only [hb, if_false] at h ⊢
        have := ih (i + 1) _ _ h
        simp only [List.length_cons]
        omega

theorem readAtUvarInt64_reads (f : List Nat) (off : Int) :
    (readAtUvarInt64 f off).2.satisfied f.length
      ∨ (readAtUvarInt64 f off).1 = .error .eof
      ∨ (readAtUvarInt64 f off).1 = .error .negativeOffset := by
  unfold readAtUvarInt64
  by_cases hneg : off < 0
  · simp [hneg]
  · simp only [hneg, if_false]
    by_cases he : (uvarintLoop (f.drop off.toNat) 0 0 0).1 = .error .eof
    · exact Or.inr (Or.inl he)
    · left
      have := uvarintLoop_asked_le _ 0 0 0 he
      simp only [List.length_drop] at this
      unfold ReadOp.satisfied
      simp only []
      omega

theorem ReadAt_error {f : List Nat} {n : Nat} {off : Int} {e : Err}
    (h : ReadAt f n off = .error e) : e = .eof ∨ e = .negativeOffset := by
  unfold ReadAt at h
  by_cases hneg : off < 0
  · simp only [hneg, if_true] at h
    cases h; exact Or.inr rfl
  · simp only [hneg, if_false] at h
    by_cases hl : ((f.drop off.toNat).take n).length = n
    · rw [if_pos hl] at h; cases h
    · rw [if_neg hl] at h; cases h; exact Or.inl rfl

theorem ReadAt_satisfied {f : List Nat} {n : Nat} {off : Int} {bs : List Nat}
    (h : ReadAt f n off = .ok bs) : (⟨off, n⟩ : ReadOp).satisfied f.length := by
  have := ReadAt_ok h
  unfold ReadOp.satisfied
  exact this

/-- In one iteration either every read is satisfied in full, or the iteration ends the
call with the read error, a nil value and timestamp 0. -/
theorem iter_reads (env : Env) (r : Reader) (key : List Nat) (off : Int) :
    (∀ op ∈ (iter env r key off).1, op.satisfied r.f.length)
    ∨ (∃ e, (iter env r key off).2 = .done (.ret none 0 (some e))
        ∧ (e = .eof ∨ e = .negativeOffset)) := by
  have s1 := readAtUvarInt64_reads r.f off
  rcases h1 : readAtUvarInt64 r.f off with ⟨res1, op1⟩
  rw [h1] at s1
  simp only [] at s1
  cases res1 with
  | error e =>
    have hit : iter env r key off = ([op1], .done (.ret none 0 (some e))) := by
      unfold iter; simp only [h1]
    rw [hit]
    rcases s1 with s1 | s1 | s1
    · left; intro op hop; simp only [List.mem_singleton] at hop; rw [hop]; exact s1
    · right; cases s1; exact ⟨_, rfl, Or.inl rfl⟩
    · right; cases s1; exact ⟨_, rfl, Or.inr rfl⟩
  | ok p =>
    obtain ⟨kl, n1⟩ := p
    have s1 : op1.satisfied r.f.length := by
      rcases s1 with s1 | s1 | s1
      · exact s1
      · cases s1
      · cases s1
    have s2 := readAtUvarInt64_reads r.f (wrapInt64 (off + n1))
    rcases h2 : readAtUvarInt64 r.f (wrapInt64 (off + n1)) with ⟨res2, op2⟩
    rw [h2] at s2
    simp only [] at s2
    cases res2 with
    | error e =>
      have hit : iter env r key off = ([op1, op2], .done (.ret none 0 (some e))) := by
        unfold iter; simp only [h1, h2]
      rw [hit]
      rcases s2 with s2 | s2 | s2
      · left; intro op hop
        simp only [List.mem_cons, List.mem_singleton, List.not_mem_nil, or_false] at hop
        rcases hop with rfl | rfl <;> assumption
      · right; cases s2; exact ⟨_, rfl, Or.inl rfl⟩
      · right; cases s2; exact ⟨_, rfl, Or.inr rfl⟩
    | ok q =>
      obtain ⟨vl, n2⟩ := q
      have s2 : op2.satisfied r.f.length := by
        rcases s2 with s2 | s2 | s2
        · exact s2
        · cases s2
        · cases s2
      by_cases hmax : env.MaxKeySize < kl
      · left
        have hit : iter env r key off = ([op1, op2], .done (.fault .sliceBounds)) := by
          unfold iter; simp only [h1, h2, hmax, if_true]
        rw [hit]
        intro op hop
        simp only [List.mem_cons, List.mem_singleton, List.not_mem_nil, or_false] at hop
        rcases hop with rfl | rfl <;> assumption
      · cases h3 : ReadAt r.f kl (wrapInt64 (wrapInt64 (off + n1) + n2)) with
        | error e =>
          right
          exact ⟨e, by unfold iter; simp only [h1, h2, hmax, if_false, h3], ReadAt_error h3⟩
        | ok kb =>
          have s3 := ReadAt_satisfied h3
          have three : ∀ op ∈ [op1, op2,
              (⟨wrapInt64 (wrapInt64 (off + n1) + n2), kl⟩ : ReadOp)],
              op.satisfied r.f.length := by
            intro op hop
            simp only [List.mem_cons, List.mem_singleton, List.not_mem_nil, or_false] at hop
            rcases hop with rfl | rfl | rfl <;> assumption
          cases h4 : env.Parse kb with
          | error e =>
            left
            have hit : (iter env r key off).1 = [op1, op2,
                (⟨wrapInt64 (wrapInt64 (off + n1) + n2), kl⟩ : ReadOp)] := by
              unfold iter; simp only [h1, h2, hmax, if_false, h3, h4]
            rw [hit]; exact three
          | ok pr =>
            obtain ⟨readKey, ts⟩ := pr
            by_cases hkey : readKey = key
            · by_cases hbig : maxAlloc < vl
              · left
                have hit : (iter env r key off).1 = [op1, op2,
                    (⟨wrapInt64 (wrapInt64 (off + n1) + n2), kl⟩ : ReadOp)] := by
                  unfold iter; simp only [h1, h2, hmax, if_false, h3, h4, hkey, if_true, hbig]
                rw [hit]; exact three
              · cases h5 : ReadAt r.f vl
                    (wrapInt64 (wrapInt64 (wrapInt64 (off + n1) + n2) + toInt64 kl)) with
                | error e =>
                  right
                  exact ⟨e, by unfold iter; simp only [h1, h2, hmax, if_false, h3, h4, hkey,
                    if_true, hbig, h5], ReadAt_error h5⟩
                | ok value =>
                  left
                  have s4 := ReadAt_satisfied h5
                  have hit : (iter env r key off).1 = [op1, op2,
                      (⟨wrapInt64 (wrapInt64 (off + n1) + n2), kl⟩ : ReadOp),
                      ⟨wrapInt64 (wrapInt64 (wrapInt64 (off + n1) + n2) + toInt64 kl), vl⟩] := by
                    unfold iter
                    simp only [h1, h2, hmax, if_false, h3, h4, hkey, if_true, hbig, h5]
                    cases value with
                    | nil => rfl
                    | cons tag rest => by_cases ht : tag = env.typeNil <;> simp only [ht, if_true, if_false]
                  rw [hit]
                  intro op hop
                  simp only [List.mem_cons, List.mem_singleton, List.not_mem_nil,
                    or_false] at hop
                  rcases hop with rfl | rfl | rfl | rfl <;> assumption
            · left
              have hit : (iter env r key off).1 = [op1, op2,
                  (⟨wrapInt64 (wrapInt64 (off + n1) + n2), kl⟩ : ReadOp)] := by
                unfold iter; simp only [h1, h2, hmax, if_false, h3, h4, hkey]
                by_cases hgt : strLess key readKey = true
                · simp only [hgt, if_true]
                · have hgt : strLess key readKey = false := by simpa using hgt
                  simp only [hgt, Bool.false_eq_true, if_false]
              rw [hit]; exact three

end sst

namespace sst

/-- In a scan either every read is satisfied in full, or the call returns the read
error with a nil value and timestamp 0. -/
theorem findLoop_reads (env : Env) (r : Reader) (key : List Nat) (fuel : Nat) :
    ∀ off : Int, (∀ op ∈ (findLoop env r key fuel off).1, op.satisfied r.f.length)
      ∨ (∃ e, (findLoop env r key fuel off).2 = some (.ret none 0 (some e))
          ∧ (e = .eof ∨ e = .negativeOffset)) := by
  induction fuel with
  | zero => intro off; left; intro op hop; simp [findLoop] at hop
  | succ n ih =>
    intro off
    by_cases hlt : off < r.fLength
    · rw [findLoop_succ_lt env r key n off hlt]
      have hr := iter_reads env r key off
      rcases hit : iter env r key off with ⟨ops, nx⟩
      rw [hit] at hr
      cases nx with
      | done run =>
        rcases hr with hr | ⟨e, he, hk⟩
        · exact Or.inl hr
        · right
          simp only [Next.done.injEq] at he
          exact ⟨e, by rw [he], hk⟩
      | «continue» off' =>
        rcases hr with hr | ⟨e, he, _⟩
        · rcases ih off' with h | h
          · left
            intro op hop
            simp only [List.mem_append] at hop
            rcases hop with hop | hop
            · exact hr op hop
            · exact h op hop
          · exact Or.inr h
        · simp at he
    · rw [findLoop_succ_ge env r key n off (by omega)]
      left; intro op hop; simp at hop

/-- C9: when a positional read that `Find` issues cannot be satisfied in full by the
file (a length varint cut off by the end of the file, an encoded key or the payload of
the matching record that extends past it), `Find` returns a nil value, timestamp 0
and the read error, which is not `ErrNotFound`. -/
theorem C9_short_read_is_error (env : Env) (r : Reader) (key : List Nat) (fuel : Nat)
    (op : ReadOp) (hop : op ∈ (r.Find env key fuel).1) (hshort : ¬ op.satisfied r.f.length) :
    ∃ e, (r.Find env key fuel).2 = some (.ret none 0 (some e))
      ∧ e ≠ .ErrNotFound ∧ (e = .eof ∨ e = .negativeOffset) := by
  rcases findLoop_reads env r key fuel 8 with h | ⟨e, he, hk⟩
  · exact absurd (h op hop) hshort
  · refine ⟨e, he, ?_, hk⟩
    rcases hk with rfl | rfl <;> decide

/-- C9, witness: a length varint cut off by the end of the file (the garbled example
file, at offset 33), an encoded key that extends past it (the example file cut at 30)
and the payload of the matching record that extends past it (the example file cut at
15) each make `Find` return the read error. -/
theorem C9_short_read_is_error_witness :
    (∃ e, (garbledReader.Find sampleEnv [99] 5).2 = some (.ret none 0 (some e))
      ∧ e ≠ .ErrNotFound ∧ (e = .eof ∨ e = .negativeOffset))
    ∧ (∃ e, (cutKeyReader.Find sampleEnv [99] 5).2 = some (.ret none 0 (some e))
      ∧ e ≠ .ErrNotFound ∧ (e = .eof ∨ e = .negativeOffset))
    ∧ (∃ e, (cutValueReader.Find sampleEnv [97] 5).2 = some (.ret none 0 (some e))
      ∧ e ≠ .ErrNotFound ∧ (e = .eof ∨ e = .negativeOffset)) :=
  ⟨C9_short_read_is_error sampleEnv garbledReader [99] 5 ⟨33, 3⟩ (by decide) (by decide),
   C9_short_read_is_error sampleEnv cutKeyReader [99] 5 ⟨28, 4⟩ (by decide) (by decide),
   C9_short_read_is_error sampleEnv cutValueReader [97] 5 ⟨14, 3⟩ (by decide) (by decide)⟩

end sst

/-! ## Encoded keys that do not decode -/

namespace sst

/-- C10: when the scan reaches, behind records with smaller user keys only, a record
whose encoded key the codec does not decode, `Find` returns a nil value, timestamp 0
and the codec's error, whatever follows in the file, a record of the queried key
included. -/
theorem C10_codec_error_aborts (env : Env) (r : Reader) (key hdr : List Nat)
    (less : List Record) (rec : Record) (vlen : Nat) (rest : List Nat) (e : CodecError)
    (fuel : Nat)
    (hhdr : hdr.length = 8)
    (hfile : r.f = hdr ++ bodyBytes less ++ (rec.head ++ rest))
    (hlen : 8 + ((bodyBytes less).length : Int) < r.fLength)
    (hsz : (r.f.length : Int) < 9223372036854775808)
    (hless : ∀ x ∈ less, x.WF env ∧ strLess x.userKey key = true)
    (hk : IsUvarint rec.klEnc rec.eKey.length) (hv : IsUvarint rec.vlEnc vlen)
    (hmax : rec.eKey.length ≤ env.MaxKeySize)
    (hdec : env.Parse rec.eKey = .error e)
    (hfuel : less.length < fuel) :
    (r.Find env key fuel).2 = some (.ret none 0 (some (.codec e))) := by
  rw [find_after_skip env r key hdr less _ fuel _ _ hhdr hfile hlen hsz hless
    (iter_corrupt env r key _ rec rest vlen e (by omega) hsz hk hv hmax hdec
      (drop_after_skip less hhdr hfile)) hfuel]

theorem corruptFile_before :
    ∀ x ∈ exampleRecords.take 1, x.WF sampleEnv ∧ strLess x.userKey [98] = true := by
  intro rec h
  simp only [exampleRecords, List.take, List.mem_singleton] at h
  subst h
  exact ⟨⟨rfl, rfl, by decide, rfl⟩, by decide⟩

/-- C10, witness: in `corruptReader` the second record's encoded key has no string
terminator; `Find("b")` returns the codec's error although the record of `"b"` follows. -/
theorem C10_codec_error_aborts_witness :
    (corruptReader.Find sampleEnv [98] 2).2 = some (.ret none 0 (some (.codec .corrupt)))
    ∧ (∃ rec ∈ exampleRecords, rec.userKey = [98]
        ∧ corruptReader.f.drop 26 = rec.bytes) :=
  ⟨C10_codec_error_aborts sampleEnv corruptReader [98] sampleMagic (exampleRecords.take 1)
     corruptRecord 3 ([1, 118, 48] ++ [4, 1, 98, 0, 1, 118, 0]) .corrupt 2
     (by decide) (by decide) (by decide) (by decide) corruptFile_before rfl rfl (by decide)
     rfl (by decide),
   ⟨exampleRecords.get ⟨2, by decide⟩, List.get_mem _ _ _, rfl, by decide⟩⟩

end sst

/-! ## The paths through one iteration -/

namespace sst

/-- Every iteration follows one of the paths of `IterCase`. -/
theorem iter_case (env : Env) (r : Reader) (key : List Nat) (off : Int) :
    IterCase env r key off (iter env r key off) := by
  rcases h1 : readAtUvarInt64 r.f off with ⟨res1, op1⟩
  cases res1 with
  | error e =>
    have hit : iter env r key off = ([op1], .done (.ret none 0 (some e))) := by
      unfold iter; simp only [h1]
    rw [hit]; exact .keyLenErr h1
  | ok p =>
    obtain ⟨kl, n1⟩ := p
    rcases h2 : readAtUvarInt64 r.f (wrapInt64 (off + n1)) with ⟨res2, op2⟩
    cases res2 with
    | error e =>
      have hit : iter env r key off = ([op1, op2], .done (.ret none 0 (some e))) := by
        unfold iter; simp only [h1, h2]
      rw [hit]; exact .valueLenErr h1 h2
    | ok q =>
      obtain ⟨vl, n2⟩ := q
      by_cases hmax : env.MaxKeySize < kl
      · have hit : iter env r key off = ([op1, op2], .done (.fault .sliceBounds)) := by
          unfold iter; simp only [h1, h2, hmax, if_true]
        rw [hit]; exact .keyTooLong h1 h2 hmax
      · have hle : kl ≤ env.MaxKeySize := by omega
        cases h3 : ReadAt r.f kl (wrapInt64 (wrapInt64 (off + n1) + n2)) with
        | error e =>
          have hit : iter env r key off
              = ([op1, op2, ⟨wrapInt64 (wrapInt64 (off + n1) + n2), kl⟩],
                  .done (.ret none 0 (some e))) := by
            unfold iter; simp only [h1, h2, hmax, if_false, h3]
          rw [hit]; exact .keyReadErr h1 h2 hle h3
        | ok kb =>
          cases h4 : env.Parse kb with
          | error e =>
            have hit : iter env r key off
                = ([op1, op2, ⟨wrapInt64 (wrapInt64 (off + n1) + n2), kl⟩],
                    .done (.ret none 0 (some (.codec e)))) := by
              unfold iter; simp only [h1, h2, hmax, if_false, h3, h4]
            rw [hit]; exact .codecErr h1 h2 hle h3 h4
          | ok pr =>
            obtain ⟨readKey, ts⟩ := pr
            by_cases hkey : readKey = key
            · subst hkey
              by_cases hbig : maxAlloc < vl
              · have hit : iter env r readKey off
                    = ([op1, op2, ⟨wrapInt64 (wrapInt64 (off + n1) + n2), kl⟩],
                        .done (.fault .makeLen)) := by
                  unfold iter; simp only [h1, h2, hmax, if_false, h3, h4, if_true, hbig]
                rw [hit]; exact .valueTooLong h1 h2 hle h3 h4 hbig
              · have hsmall : vl ≤ maxAlloc := Nat.not_lt.mp hbig
                cases h5 : ReadAt r.f vl
                    (wrapInt64 (wrapInt64 (wrapInt64 (off + n1) + n2) + toInt64 kl)) with
                | error e =>
                  have hit : iter env r readKey off
                      = ([op1, op2, ⟨wrapInt64 (wrapInt64 (off + n1) + n2), kl⟩,
                          ⟨wrapInt64 (wrapInt64 (wrapInt64 (off + n1) + n2) + toInt64 kl), vl⟩],
                          .done (.ret none 0 (some e))) := by
                    unfold iter
                    simp only [h1, h2, hmax, if_false, h3, h4, if_true, hbig, h5]
                  rw [hit]; exact .valueReadErr h1 h2 hle h3 h4 hsmall h5
                | ok value =>
                  cases value with
                  | nil =>
                    have hit : iter env r readKey off
                        = ([op1, op2, ⟨wrapInt64 (wrapInt64 (off + n1) + n2), kl⟩,
                            ⟨wrapInt64 (wrapInt64 (wrapInt64 (off + n1) + n2) + toInt64 kl),
                              vl⟩],
                            .done (.fault .indexRange)) := by
                      unfold iter
                      simp only [h1, h2, hmax, if_false, h3, h4, if_true, hbig, h5]
                    rw [hit]; exact .emptyValue h1 h2 hle h3 h4 hsmall h5
                  | cons tag raw =>
                    have hit : iter env r readKey off
                        = ([op1, op2, ⟨wrapInt64 (wrapInt64 (off + n1) + n2), kl⟩,
                            ⟨wrapInt64 (wrapInt64 (wrapInt64 (off + n1) + n2) + toInt64 kl),
                              vl⟩],
                            .done (if tag = env.typeNil then .ret none ts none
                              else .ret (some raw) ts none)) := by
                      unfold iter
                      simp only [h1, h2, hmax, if_false, h3, h4, if_true, hbig, h5]
                      by_cases ht : tag = env.typeNil
                      · simp only [ht, if_true]
                      · simp only [ht, if_false]
                    rw [hit]; exact .found h1 h2 hle h3 h4 hsmall h5
            · by_cases hgt : strLess key readKey = true
              · have hit : iter env r key off
                    = ([op1, op2, ⟨wrapInt64 (wrapInt64 (off + n1) + n2), kl⟩],
                        .done (.ret none 0 (some .ErrNotFound))) := by
                  unfold iter; simp only [h1, h2, hmax, if_false, h3, h4, hkey, hgt, if_true]
                rw [hit]; exact .greater h1 h2 hle h3 h4 hkey hgt
              · have hgt : strLess key readKey = false := by simpa using hgt
                have hit : iter env r key off
                    = ([op1, op2, ⟨wrapInt64 (wrapInt64 (off + n1) + n2), kl⟩],
                        .continue (wrapInt64
                          (wrapInt64 (wrapInt64 (wrapInt64 (off + n1) + n2) + toInt64 kl)
                            + toInt64 vl))) := by
                  unfold iter
                  simp only [h1, h2, hmax, if_false, h3, h4, hkey, hgt, Bool.false_eq_true]
                rw [hit]; exact .less h1 h2 hle h3 h4 hkey hgt

end sst

/-! ## Failing results carry no value and no timestamp -/

namespace sst

theorem iter_error_shape (env : Env) (r : Reader) (key : List Nat) (off : Int)
    (v : Option (List Nat)) (ts : Int) (e : Err)
    (h : (iter env r key off).2 = .done (.ret v ts (some e))) : v = none ∧ ts = 0 := by
  have hc := iter_case env r key off
  generalize iter env r key off = res at hc h
  cases hc with
  | found _ _ _ _ _ _ _ =>
    simp only [Next.done.injEq] at h
    split at h <;> simp at h
  | _ => simp_all

theorem findLoop_error_shape (env : Env) (r : Reader) (key : List Nat) (fuel : Nat) :
    ∀ (off : Int) (v : Option (List Nat)) (ts : Int) (e : Err),
      (findLoop env r key fuel off).2 = some (.ret v ts (some e)) → v = none ∧ ts = 0 := by
  induction fuel with
  | zero => intro off v ts e h; simp [findLoop] at h
  | succ n ih =>
    intro off v ts e h
    by_cases hlt : off < r.fLength
    · rw [findLoop_succ_lt env r key n off hlt] at h
      have hs := iter_error_shape env r key off v ts e
      rcases hit : iter env r key off with ⟨ops, nx⟩
      rw [hit] at h hs
      cases nx with
      | done run =>
        simp only [Option.some.injEq] at h
        exact hs (by rw [h])
      | «continue» off' => exact ih off' v ts e h
    · rw [findLoop_succ_ge env r key n off (by omega)] at h
      simp only [notFound, Option.some.injEq, Run.ret.injEq] at h
      exact ⟨h.1.symm, h.2.1.symm⟩

/-- C17: whenever `Find` returns a non-nil error (`ErrNotFound`, a read error or a
codec error), the returned value is nil and the returned timestamp is 0; no timestamp
decoded from a skipped record reaches a failing result. -/
theorem C17_error_has_nil_value_zero_ts (env : Env) (r : Reader) (key : List Nat) (fuel : Nat)
    (v : Option (List Nat)) (ts : Int) (e : Err)
    (h : (r.Find env key fuel).2 = some (.ret v ts (some e))) : v = none ∧ ts = 0 :=
  findLoop_error_shape env r key fuel 8 v ts e h

/-- C17, witness: in the example scenario the scan for `"aa"` decodes the timestamps 5,
3 and 9 and returns `ErrNotFound` with timestamp 0; the scan of the garbled file for
`"c"` returns a read error with timestamp 0. -/
theorem C17_error_has_nil_value_zero_ts_witness :
    (exampleReader.Find sampleEnv [97, 97] 4).2 = some (.ret none 0 (some .ErrNotFound))
    ∧ ((none : Option (List Nat)) = none ∧ (0 : Int) = 0)
    ∧ (garbledReader.Find sampleEnv [99] 5).2 = some (.ret none 0 (some .eof))
    ∧ (∀ v ts, (garbledReader.Find sampleEnv [99] 5).2 = some (.ret v ts (some .eof))
        → v = none ∧ ts = 0) :=
  ⟨by decide,
   C17_error_has_nil_value_zero_ts sampleEnv exampleReader [97, 97] 4 none 0 .ErrNotFound
     (by decide),
   by decide,
   fun v ts h => C17_error_has_nil_value_zero_ts sampleEnv garbledReader [99] 5 v ts _ h⟩

end sst

/-! ## Slice operations in bounds -/

namespace sst

theorem lengthsAt_of_reads {r : Reader} {off : Int} {kl vl : Nat} {n1 n2 : Int}
    {op1 op2 : ReadOp} (h1 : readAtUvarInt64 r.f off = (.ok (kl, n1), op1))
    (h2 : readAtUvarInt64 r.f (wrapInt64 (off + n1)) = (.ok (vl, n2), op2)) :
    r.lengthsAt off = some (kl, vl, wrapInt64 (wrapInt64 (off + n1) + n2)) := by
  unfold Reader.lengthsAt
  simp only [h1, h2]

theorem iter_no_fault (env : Env) (r : Reader) (key : List Nat) (off : Int)
    (hslice : SliceInBoundsAt env r key off) (halloc : AllocInRangeAt env r key off)
    (p : Fault) : (iter env r key off).2 ≠ .done (.fault p) := by
  have hc := iter_case env r key off
  generalize iter env r key off = res at hc
  intro h
  cases hc with
  | keyTooLong h1 h2 hmax =>
    have := (hslice _ _ _ (lengthsAt_of_reads h1 h2)).1
    omega
  | valueTooLong h1 h2 _ h3 h4 hbig =>
    have := halloc _ _ _ (lengthsAt_of_reads h1 h2) _ _ h3 h4
    omega
  | emptyValue h1 h2 _ h3 h4 _ h5 =>
    have h1le := (hslice _ _ _ (lengthsAt_of_reads h1 h2)).2 _ _ h3 h4
    have := ReadAt_length h5
    simp at this
    omega
  | found _ _ _ _ _ _ _ =>
    simp only [Next.done.injEq] at h
    split at h <;> simp at h
  | _ => simp at h

/-- A scan whose visited records keep the slice operations and the allocation in
bounds does not panic, whatever the iteration budget. -/
theorem findLoop_no_fault (env : Env) (r : Reader) (key : List Nat)
    (hslice : ∀ off, Visits env r key off → off < r.fLength → SliceInBoundsAt env r key off)
    (halloc : ∀ off, Visits env r key off → off < r.fLength → AllocInRangeAt env r key off)
    (fuel : Nat) :
    ∀ (off : Int), Visits env r key off → ∀ p, (findLoop env r key fuel off).2 ≠ some (.fault p) := by
  induction fuel with
  | zero => intro off _ p h; simp [findLoop] at h
  | succ n ih =>
    intro off hv p h
    by_cases hlt : off < r.fLength
    · rw [findLoop_succ_lt env r key n off hlt] at h
      have hnf := iter_no_fault env r key off (hslice off hv hlt) (halloc off hv hlt) p
      rcases hit : iter env r key off with ⟨ops, nx⟩
      rw [hit] at h hnf
      cases nx with
      | done run =>
        simp only [Option.some.injEq] at h
        exact hnf (by rw [h])
      | «continue» off' =>
        exact ih off' (Visits.next hv hlt (by rw [hit])) p h
    · rw [findLoop_succ_ge env r key n off (by omega)] at h
      simp [notFound] at h

theorem SafeRecordAt.sliceInBounds {env : Env} {r : Reader} {key : List Nat} {off : Int}
    (h : SafeRecordAt env r key off) : SliceInBoundsAt env r key off :=
  fun kl vl koff hl =>
    ⟨(h kl vl koff hl).1, fun kb ts h3 h4 => ((h kl vl koff hl).2.2 kb ts h3 h4).1⟩

theorem SafeRecordAt.allocInRange {env : Env} {r : Reader} {key : List Nat} {off : Int}
    (h : SafeRecordAt env r key off) : AllocInRangeAt env r key off :=
  fun kl vl koff hl kb ts h3 h4 => ((h kl vl koff hl).2.2 kb ts h3 h4).2

/-- C14, as amended: under the data-model preconditions that every record reached by the
scan has `keyLength <= MaxKeySize` and that a record whose user key equals the query
has `valueLength >= 1`, and when in addition that record's `valueLength` is at most
`maxAlloc` (so that `make([]byte, valueLen)` is given a length that the runtime
accepts), `Find` does not panic: `kb[0:keyLen]`, the length given to `make`, `value[0]`
and `value[1:]` are in bounds, and a call that ends returns a found result,
`ErrNotFound` or an error. -/
theorem C14_no_panic_when_in_bounds (env : Env) (r : Reader) (key : List Nat) (fuel : Nat)
    (hslice : ∀ off, Visits env r key off → off < r.fLength → SliceInBoundsAt env r key off)
    (halloc : ∀ off, Visits env r key off → off < r.fLength → AllocInRangeAt env r key off) :
    (∀ p, (r.Find env key fuel).2 ≠ some (.fault p))
    ∧ (∀ run, (r.Find env key fuel).2 = some run →
        ∃ v ts e, run = .ret v ts e ∧ (e = none ∨ (v = none ∧ ts = 0))) := by
  have hnf := findLoop_no_fault env r key hslice halloc fuel 8 Visits.start
  refine ⟨hnf, ?_⟩
  intro run hrun
  cases run with
  | fault p => exact absurd hrun (hnf p)
  | ret v ts e =>
    refine ⟨v, ts, e, rfl, ?_⟩
    cases e with
    | none => exact Or.inl rfl
    | some e => exact Or.inr (findLoop_error_shape env r key fuel 8 v ts e hrun)

/-- C14, witness: in the file of `emptyValueRecord` the scan for `"a"` reslices the key
buffer to 4 bytes, allocates the payload of 1 byte, reads the tag `value[0]` and returns
`value[1:]`, the empty value; in the example scenario the scan for `"b"` does the same
behind two skipped records and returns the tombstone; on the garbled example file the
scan for `"c"` ends with a returned error. -/
theorem C14_no_panic_when_in_bounds_witness :
    (((∀ p, (emptyValueReader.Find sampleEnv [97] 1).2 ≠ some (.fault p))
        ∧ (∀ run, (emptyValueReader.Find sampleEnv [97] 1).2 = some run →
            ∃ v ts e, run = .ret v ts e ∧ (e = none ∨ (v = none ∧ ts = 0))))
      ∧ emptyValueReader.Find sampleEnv [97] 1
          = ([⟨8, 1⟩, ⟨9, 1⟩, ⟨10, 4⟩, ⟨14, 1⟩], some (.ret (some []) 5 none)))
    ∧ (((∀ p, (exampleReader.Find sampleEnv [98] 3).2 ≠ some (.fault p))
        ∧ (∀ run, (exampleReader.Find sampleEnv [98] 3).2 = some run →
            ∃ v ts e, run = .ret v ts e ∧ (e = none ∨ (v = none ∧ ts = 0))))
      ∧ (exampleReader.Find sampleEnv [98] 3).2 = some (.ret none 9 none))
    ∧ ((∀ p, (garbledReader.Find sampleEnv [99] 5).2 ≠ some (.fault p))
        ∧ (∀ run, (garbledReader.Find sampleEnv [99] 5).2 = some run →
            ∃ v ts e, run = .ret v ts e ∧ (e = none ∨ (v = none ∧ ts = 0)))) :=
  ⟨⟨C14_no_panic_when_in_bounds sampleEnv emptyValueReader [97] 1
      (fun off hv hlt => (emptyValue_safe off hv hlt).sliceInBounds)
      (fun off hv hlt => (emptyValue_safe off hv hlt).allocInRange), by decide⟩,
   ⟨C14_no_panic_when_in_bounds sampleEnv exampleReader [98] 3
      (fun off hv hlt => (example_safe_b off hv hlt).sliceInBounds)
      (fun off hv hlt => (example_safe_b off hv hlt).allocInRange), by decide⟩,
   C14_no_panic_when_in_bounds sampleEnv garbledReader [99] 5
     (fun off hv hlt => (garbled_safe off hv hlt).sliceInBounds)
     (fun off hv hlt => (garbled_safe off hv hlt).allocInRange)⟩

theorem hugeValue_iter (env : Env) (hparse : env.Parse = orderedcodeParse)
    (hM : 4 ≤ env.MaxKeySize) :
    iter env hugeValueReader [97] 8
      = ([⟨8, 1⟩, ⟨9, 10⟩, ⟨19, 4⟩], .done (.fault .makeLen)) := by
  have h1 : readAtUvarInt64 hugeValueReader.f 8 = (.ok (4, 1), ⟨8, 1⟩) := by rfl
  have h2 : readAtUvarInt64 hugeValueReader.f (wrapInt64 (8 + 1))
      = (.ok (18446744073709551615, 10), ⟨9, 10⟩) := by rfl
  have h3 : ReadAt hugeValueReader.f 4 (wrapInt64 (wrapInt64 (8 + 1) + 10))
      = .ok [97, 0, 1, 122] := by rfl
  have h4 : env.Parse [97, 0, 1, 122] = .ok ([97], 5) := by rw [hparse]; rfl
  have hmax : ¬ env.MaxKeySize < 4 := by omega
  have hw : wrapInt64 (wrapInt64 (8 + 1) + 10) = 19 := by rfl
  unfold iter
  simp only [h1, h2, hmax, if_false, h3, h4, if_true]
  simp only [hw]
  rfl

theorem hugeValue_sliceInBounds (env : Env) (hparse : env.Parse = orderedcodeParse)
    (hM : 4 ≤ env.MaxKeySize) (off : Int) (hv : Visits env hugeValueReader [97] off) :
    SliceInBoundsAt env hugeValueReader [97] off := by
  have h8 : off = 8 := by
    induction hv with
    | start => rfl
    | next _ _ hstep ih =>
      subst ih
      rw [hugeValue_iter env hparse hM] at hstep
      cases hstep
  subst h8
  intro kl vl koff hl
  have e : hugeValueReader.lengthsAt 8 = some (4, 18446744073709551615, 19) := by rfl
  rw [e] at hl
  cases hl
  exact ⟨hM, fun _ _ _ _ => by decide⟩

theorem largeValue_sliceInBounds (off : Int)
    (hv : Visits sampleEnv largeValueReader [97] off) :
    SliceInBoundsAt sampleEnv largeValueReader [97] off := by
  have h8 : off = 8 := by
    induction hv with
    | start => rfl
    | next _ _ hstep ih =>
      subst ih
      have e : (iter sampleEnv largeValueReader [97] 8).2 = .done (.fault .makeLen) := by
        decide
      rw [e] at hstep; cases hstep
  subst h8
  intro kl vl koff hl
  have e : largeValueReader.lengthsAt 8 = some (4, 4611686018427387904, 18) := by decide
  rw [e] at hl
  cases hl
  exact ⟨by decide, fun _ _ _ _ => by decide⟩

/-- C14, counterexample: in `hugeValueReader` the only record has a `keyLength` of 4 and,
for the queried key `"a"`, a `valueLength` of `2 ^ 64 - 1 >= 1`, so both preconditions
of the claim hold for every environment with the ordered key codec and a maximum key
size of at least 4; yet `Find` panics, in `make([]byte, valueLen)`.  The same happens
in `largeValueReader`, whose record declares a `valueLength` of `2 ^ 62`. -/
theorem C14_counterexample :
    ((∀ off, Visits sampleEnv hugeValueReader [97] off → off < hugeValueReader.fLength →
        SliceInBoundsAt sampleEnv hugeValueReader [97] off)
      ∧ (hugeValueReader.Find sampleEnv [97] 1).2 = some (.fault .makeLen))
    ∧ ((∀ off, Visits sampleEnv largeValueReader [97] off → off < largeValueReader.fLength →
        SliceInBoundsAt sampleEnv largeValueReader [97] off)
      ∧ largeValueReader.Find sampleEnv [97] 1
          = ([⟨8, 1⟩, ⟨9, 9⟩, ⟨18, 4⟩], some (.fault .makeLen)))
    ∧ (∀ env : Env, env.Parse = orderedcodeParse → 4 ≤ env.MaxKeySize →
        (∀ off, Visits env hugeValueReader [97] off → off < hugeValueReader.fLength →
          SliceInBoundsAt env hugeValueReader [97] off)
        ∧ (hugeValueReader.Find env [97] 1).2 = some (.fault .makeLen)) := by
  have gen : ∀ env : Env, env.Parse = orderedcodeParse → 4 ≤ env.MaxKeySize →
      (∀ off, Visits env hugeValueReader [97] off → off < hugeValueReader.fLength →
        SliceInBoundsAt env hugeValueReader [97] off)
      ∧ (hugeValueReader.Find env [97] 1).2 = some (.fault .makeLen) := by
    intro env hparse hM
    refine ⟨fun off hv _ => hugeValue_sliceInBounds env hparse hM off hv, ?_⟩
    unfold Reader.Find
    rw [findLoop_succ_lt env hugeValueReader [97] 0 8 (by decide), hugeValue_iter env hparse hM]
  exact ⟨gen sampleEnv rfl (by decide),
    ⟨fun off hv _ => largeValue_sliceInBounds off hv, by decide⟩, gen⟩

end sst

/-! ## `Find` leaves the reader alone and is deterministic -/

namespace sst

/-- A call that ends within a budget ends in the same way within every larger budget. -/
theorem findLoop_mono (env : Env) (r : Reader) (key : List Nat) (fuel : Nat) :
    ∀ (off : Int) (run : Run), (findLoop env r key fuel off).2 = some run →
      ∀ k, findLoop env r key (fuel + k) off = findLoop env r key fuel off := by
  induction fuel with
  | zero => intro off run h; simp [findLoop] at h
  | succ n ih =>
    intro off run h k
    have e : n + 1 + k = (n + k) + 1 := by omega
    rw [e]
    by_cases hlt : off < r.fLength
    · rw [findLoop_succ_lt env r key n off hlt] at h ⊢
      rw [findLoop_succ_lt env r key (n + k) off hlt]
      rcases hit : iter env r key off with ⟨ops, nx⟩
      rw [hit] at h
      cases nx with
      | done run' => rfl
      | «continue» off' =>
        simp only [] at h ⊢
        rw [ih off' run h k]
    · rw [findLoop_succ_ge env r key n off (by omega),
        findLoop_succ_ge env r key (n + k) off (by omega)]

theorem findLoop_result_unique (env : Env) (r : Reader) (key : List Nat) (off : Int)
    (fuel₁ fuel₂ : Nat) (run₁ run₂ : Run)
    (h₁ : (findLoop env r key fuel₁ off).2 = some run₁)
    (h₂ : (findLoop env r key fuel₂ off).2 = some run₂) : run₁ = run₂ := by
  rcases Nat.le_total fuel₁ fuel₂ with hle | hle
  · obtain ⟨k, rfl⟩ := Nat.exists_eq_add_of_le hle
    rw [findLoop_mono env r key fuel₁ off run₁ h₁ k, h₁] at h₂
    exact Option.some.inj h₂
  · obtain ⟨k, rfl⟩ := Nat.exists_eq_add_of_le hle
    rw [findLoop_mono env r key fuel₂ off run₂ h₂ k, h₂] at h₁
    exact (Option.some.inj h₁).symm

/-- One run of the loop body on the memory: it leaves the reader object as it was, it
adds the reads of the iteration to the log, and it ends or goes on as `iter` does. -/
theorem Frame.body_spec (env : Env) (key : List Nat) (s : Frame) :
    (Frame.body env key s).1.self = s.self
    ∧ (Frame.body env key s).1.log = s.log ++ (iter env s.self key s.offset).1
    ∧ (iter env s.self key s.offset).2
        = (match (Frame.body env key s).2 with
           | some run => .done run
           | none => .continue (Frame.body env key s).1.offset) := by
  have hc := iter_case env s.self key s.offset
  generalize iter env s.self key s.offset = res at hc
  cases hc with
  | keyLenErr h1 => simp [Frame.body, h1]
  | valueLenErr h1 h2 => simp [Frame.body, h1, h2]
  | keyTooLong h1 h2 hmax => simp [Frame.body, h1, h2, hmax]
  | keyReadErr h1 h2 hle h3 => simp [Frame.body, h1, h2, Nat.not_lt.mpr hle, h3]
  | codecErr h1 h2 hle h3 h4 =>
    simp [Frame.body, h1, h2, Nat.not_lt.mpr hle, h3, List.take_left' (ReadAt_length h3), h4]
  | valueTooLong h1 h2 hle h3 h4 hbig =>
    simp [Frame.body, h1, h2, Nat.not_lt.mpr hle, h3, List.take_left' (ReadAt_length h3), h4,
      hbig]
  | valueReadErr h1 h2 hle h3 h4 hsmall h5 =>
    simp [Frame.body, h1, h2, Nat.not_lt.mpr hle, h3, List.take_left' (ReadAt_length h3), h4,
      Nat.not_lt.mpr hsmall, h5]
  | emptyValue h1 h2 hle h3 h4 hsmall h5 =>
    simp [Frame.body, h1, h2, Nat.not_lt.mpr hle, h3, List.take_left' (ReadAt_length h3), h4,
      Nat.not_lt.mpr hsmall, h5]
  | found h1 h2 hle h3 h4 hsmall h5 =>
    rename_i kl vl n1 n2 op1 op2 kb ts tag raw
    by_cases ht : tag = env.typeNil <;>
      simp [Frame.body, h1, h2, Nat.not_lt.mpr hle, h3, List.take_left' (ReadAt_length h3), h4,
        Nat.not_lt.mpr hsmall, h5, ht]
  | greater h1 h2 hle h3 h4 hne hgt =>
    simp [Frame.body, h1, h2, Nat.not_lt.mpr hle, h3, List.take_left' (ReadAt_length h3), h4,
      hne, hgt]
  | less h1 h2 hle h3 h4 hne hgt =>
    simp [Frame.body, h1, h2, Nat.not_lt.mpr hle, h3, List.take_left' (ReadAt_length h3), h4,
      hne, hgt]

/-- The loop on the memory leaves the reader object as it was, and its reads and outcome
are those of `findLoop` on that reader. -/
theorem Frame.loop_spec (env : Env) (key : List Nat) (fuel : Nat) :
    ∀ s : Frame, (Frame.loop env key fuel s).1.self = s.self
      ∧ (Frame.loop env key fuel s).1.log = s.log ++ (findLoop env s.self key fuel s.offset).1
      ∧ (Frame.loop env key fuel s).2 = (findLoop env s.self key fuel s.offset).2 := by
  induction fuel with
  | zero => intro s; simp [Frame.loop, findLoop]
  | succ n ih =>
    intro s
    by_cases hlt : s.offset < s.self.fLength
    · obtain ⟨hself, hlog, hnext⟩ := Frame.body_spec env key s
      rw [findLoop_succ_lt env s.self key n s.offset hlt]
      rw [Frame.loop, if_pos hlt]
      rcases hb : Frame.body env key s with ⟨s', out⟩
      rw [hb] at hself hlog hnext
      rcases hit : iter env s.self key s.offset with ⟨ops, nx⟩
      rw [hit] at hlog hnext
      simp only at hself hlog hnext
      cases out with
      | some run =>
        simp only at hnext
        subst hnext
        exact ⟨hself, hlog, rfl⟩
      | none =>
        simp only at hnext
        subst hnext
        obtain ⟨h1, h2, h3⟩ := ih s'
        simp only
        rw [← hself]
        exact ⟨h1, by rw [h2, hlog, List.append_assoc], h3⟩
    · rw [findLoop_succ_ge env s.self key n s.offset (by omega), Frame.loop, if_neg hlt]
      simp [notFound]

/-- A call of `Find` leaves the reader object as it was, and its reads and outcome are
those of `Reader.Find`. -/
theorem FindSt_spec (env : Env) (r : Reader) (key : List Nat) (fuel : Nat) :
    (r.FindSt env key fuel).1 = r ∧ (r.FindSt env key fuel).2 = r.Find env key fuel := by
  obtain ⟨h1, h2, h3⟩ := Frame.loop_spec env key fuel
    { self := r, buf := List.replicate env.MaxKeySize 0, kbLen := 0, offset := 8, log := [] }
  unfold Reader.FindSt Reader.Find
  simp only at h1 h2 h3 ⊢
  refine ⟨h1, ?_⟩
  rw [h2, h3]
  simp

theorem afterCalls_eq (env : Env) (r : Reader) (calls : List (List Nat × Nat)) :
    r.afterCalls env calls = r := by
  induction calls generalizing r with
  | nil => rfl
  | cons c cs ih =>
    obtain ⟨key, fuel⟩ := c
    simp only [Reader.afterCalls]
    rw [(FindSt_spec env r key fuel).1]
    exact ih r

/-- The scan reads the file and the cached length of the reader and nothing else. -/
theorem findLoop_congr (env : Env) (r r' : Reader) (key : List Nat) (hf : r.f = r'.f)
    (hl : r.fLength = r'.fLength) (fuel : Nat) :
    ∀ off : Int, findLoop env r key fuel off = findLoop env r' key fuel off := by
  have hiter : ∀ off, iter env r key off = iter env r' key off := by
    intro off; unfold iter; rw [hf]
  induction fuel with
  | zero => intro off; rfl
  | succ n ih =>
    intro off
    by_cases hlt : off < r.fLength
    · rw [findLoop_succ_lt env r key n off hlt,
        findLoop_succ_lt env r' key n off (by rw [← hl]; exact hlt), hiter off]
      rcases iter env r' key off with ⟨ops, nx⟩
      cases nx with
      | done run => rfl
      | «continue» off' => simp only []; rw [ih off']
    · rw [findLoop_succ_ge env r key n off (by omega),
        findLoop_succ_ge env r' key n off (by rw [← hl]; omega)]

/-- C12: `Find` mutates no state of the reader and is deterministic.  Run statement by
statement on the memory that holds the reader object, a call leaves that object as it
was (file handle, `fLength`, `filename`), and so does any sequence of calls; its reads
and outcome are those of `Reader.Find`, which are a function of the file content, the
cached file length and the key; so two calls for one key that return, after whatever
other calls and in whatever order, return the same `(value, timestamp, error)`.  What
the key buffer holds when the loop starts has no influence on the outcome. -/
theorem C12_find_is_pure (env : Env) (r : Reader) (key : List Nat) :
    (∀ fuel, (r.FindSt env key fuel).1 = r)
    ∧ (∀ fuel, (r.FindSt env key fuel).2 = r.Find env key fuel)
    ∧ (∀ (fuel : Nat) (buf : List Nat) (kbLen : Nat),
        (Frame.loop env key fuel
          { self := r, buf := buf, kbLen := kbLen, offset := 8, log := [] }).1.self = r
        ∧ (Frame.loop env key fuel
          { self := r, buf := buf, kbLen := kbLen, offset := 8, log := [] }).2
            = (r.Find env key fuel).2)
    ∧ (∀ calls, r.afterCalls env calls = r)
    ∧ (∀ (r' : Reader) (fuel : Nat), r'.f = r.f → r'.fLength = r.fLength →
        r'.Find env key fuel = r.Find env key fuel)
    ∧ (∀ (calls₁ calls₂ : List (List Nat × Nat)) (fuel₁ fuel₂ : Nat) (run₁ run₂ : Run),
        ((r.afterCalls env calls₁).FindSt env key fuel₁).2.2 = some run₁ →
        ((r.afterCalls env calls₂).FindSt env key fuel₂).2.2 = some run₂ →
        run₁ = run₂) := by
  refine ⟨fun fuel => (FindSt_spec env r key fuel).1,
    fun fuel => (FindSt_spec env r key fuel).2, ?_, afterCalls_eq env r, ?_, ?_⟩
  · intro fuel buf kbLen
    obtain ⟨h1, _, h3⟩ := Frame.loop_spec env key fuel
      { self := r, buf := buf, kbLen := kbLen, offset := 8, log := [] }
    exact ⟨h1, h3⟩
  · intro r' fuel hf hl
    exact findLoop_congr env r' r key hf hl fuel 8
  · intro calls₁ calls₂ fuel₁ fuel₂ run₁ run₂ h₁ h₂
    rw [afterCalls_eq, (FindSt_spec env r key _).2] at h₁ h₂
    exact findLoop_result_unique env r key 8 fuel₁ fuel₂ run₁ run₂ h₁ h₂

/-- C12, witness: on the example reader the call for `"a"`, run on the memory, issues
four reads, returns `("v1", 5)` and leaves the reader object as it was; the reader
object is the same after calls for `"b"` and `"c"`, and a call for `"a"` that follows
them and returns, returns what the direct call with a budget of 9 returns. -/
theorem C12_find_is_pure_witness :
    (exampleReader.FindSt sampleEnv [97] 4).1 = exampleReader
    ∧ (exampleReader.FindSt sampleEnv [97] 4).2
        = ([⟨8, 1⟩, ⟨9, 1⟩, ⟨10, 4⟩, ⟨14, 3⟩], some (.ret (some [118, 49]) 5 none))
    ∧ exampleReader.afterCalls sampleEnv [([98], 4), ([99], 4)] = exampleReader
    ∧ (∀ run,
        ((exampleReader.afterCalls sampleEnv [([98], 4), ([99], 4)]).FindSt sampleEnv [97] 4).2.2
          = some run → run = .ret (some [118, 49]) 5 none) :=
  ⟨(C12_find_is_pure sampleEnv exampleReader [97]).1 4,
   by decide,
   (C12_find_is_pure sampleEnv exampleReader [97]).2.2.2.1 _,
   fun run h => (C12_find_is_pure sampleEnv exampleReader [97]).2.2.2.2.2
     [([98], 4), ([99], 4)] [] 4 9 run _ h (by decide)⟩

end sst

/-! ## Progress and termination of the scan -/

namespace sst

theorem readAtUvarInt64_off (f : List Nat) (off : Int) : (readAtUvarInt64 f off).2.off = off := by
  unfold readAtUvarInt64
  split <;> rfl

/-- What an iteration that goes on to the next record has done: both length fields and
the encoded key were read inside the file, the key decoded to a user key below the
query, and the next offset is the end of the key plus the value length. -/
theorem iter_continue_inv (env : Env) (r : Reader) (key : List Nat) (off off' : Int)
    (hsz : (r.f.length : Int) < 9223372036854775808)
    (h : (iter env r key off).2 = .continue off') :
    ∃ kl vl koff kb readKey ts, r.lengthsAt off = some (kl, vl, koff)
      ∧ 0 ≤ off ∧ off + 2 ≤ koff ∧ koff + (kl : Int) ≤ (r.f.length : Int)
      ∧ ReadAt r.f kl koff = .ok kb ∧ kb.length = kl
      ∧ env.Parse kb = .ok (readKey, ts) ∧ readKey ≠ key ∧ strLess key readKey = false
      ∧ off' = wrapInt64 (koff + (kl : Int) + toInt64 vl)
      ∧ (∀ op ∈ (iter env r key off).1, off ≤ op.off ∧ op.off ≤ koff) := by
  have hc := iter_case env r key off
  generalize iter env r key off = res at hc h
  cases hc with
  | less h1 h2 hmax h3 h4 hne hlt =>
    rename_i kl vl n1 n2 op1 op2 kb readKey ts
    have f1 := @readAtUvarInt64_ok r.f off kl n1 (by rw [h1])
    have w1 : wrapInt64 (off + n1) = off + n1 := wrapInt64_of_range (by omega) (by omega)
    rw [w1] at h2 h3 h
    have f2 := @readAtUvarInt64_ok r.f (off + n1) vl n2 (by rw [h2])
    have w2 : wrapInt64 (off + n1 + n2) = off + n1 + n2 :=
      wrapInt64_of_range (by omega) (by omega)
    rw [w2] at h3 h
    have f3 := ReadAt_ok h3
    have hend : off + n1 + n2 + (kl : Int) ≤ (r.f.length : Int) := by
      rcases f3.2 with hz | hz
      · rw [hz]; simp; omega
      · exact hz
    have w3 : wrapInt64 (off + n1 + n2 + toInt64 kl) = off + n1 + n2 + (kl : Int) := by
      rw [toInt64_of_lt (by omega)]
      exact wrapInt64_of_range (by omega) (by omega)
    rw [w3] at h
    have o1 : op1.off = off := by
      have := readAtUvarInt64_off r.f off; rw [h1] at this; exact this
    have o2 : op2.off = off + n1 := by
      have := readAtUvarInt64_off r.f (off + n1); rw [h2] at this; exact this
    have hla := lengthsAt_of_reads h1 (by rw [w1]; exact h2)
    rw [w1, w2] at hla
    refine ⟨kl, vl, off + n1 + n2, kb, readKey, ts, hla, f1.1, by omega, hend, h3,
      ReadAt_length h3, h4, hne, hlt, ?_, ?_⟩
    · simp only [Next.continue.injEq] at h
      exact h.symm
    · intro op hop
      rw [w1, w2] at hop
      simp only [List.mem_cons, List.mem_singleton, List.not_mem_nil, or_false] at hop
      rcases hop with rfl | rfl | rfl
      · omega
      · omega
      · simp only []; omega
  | found _ _ _ _ _ _ _ =>
    simp only at h
    split at h <;> simp at h
  | _ => simp at h

/-- With length fields of at most the maximum key size an iteration that goes on moves
the offset forward by at least two bytes. -/
theorem iter_progress (env : Env) (r : Reader) (key : List Nat) (off off' : Int)
    (hM : (r.f.length : Int) + (env.MaxKeySize : Int) < 9223372036854775808)
    (hb : LengthsBoundedAt env r off)
    (h : (iter env r key off).2 = .continue off') : 0 ≤ off ∧ off + 2 ≤ off' := by
  obtain ⟨kl, vl, koff, kb, readKey, ts, hla, h0, hk, hend, -, -, -, -, -, ho, -⟩ :=
    iter_continue_inv env r key off off' (by omega) h
  obtain ⟨-, hvl⟩ := hb kl vl koff hla
  rw [ho, toInt64_of_lt (by omega), wrapInt64_of_range (by omega) (by omega)]
  omega

theorem loopIterations_le (env : Env) (r : Reader) (key : List Nat)
    (hM : (r.f.length : Int) + (env.MaxKeySize : Int) < 9223372036854775808)
    (hb : ∀ off, Visits env r key off → off < r.fLength → LengthsBoundedAt env r off)
    (fuel : Nat) :
    ∀ off : Int, Visits env r key off →
      (loopIterations env r key fuel off : Int) ≤ (r.fLength - off + 1) / 2 ∨
        (r.fLength ≤ off ∧ loopIterations env r key fuel off = 0) := by
  induction fuel with
  | zero => intro off _; by_cases h : off < r.fLength
            · left; simp only [loopIterations]; omega
            · right; exact ⟨by omega, rfl⟩
  | succ n ih =>
    intro off hv
    by_cases hlt : off < r.fLength
    · left
      simp only [loopIterations, hlt, if_true]
      rcases hit : (iter env r key off).2 with run | off'
      · simp only []; omega
      · simp only []
        have hp := iter_progress env r key off off' hM (hb off hv hlt) hit
        rcases ih off' (Visits.next hv hlt hit) with h | ⟨h1, h2⟩
        · push_cast; omega
        · rw [h2]; simp only [Nat.add_zero]; omega
    · right
      exact ⟨by omega, by simp only [loopIterations, hlt, if_false]⟩

theorem findLoop_ends (env : Env) (r : Reader) (key : List Nat)
    (hM : (r.f.length : Int) + (env.MaxKeySize : Int) < 9223372036854775808)
    (hb : ∀ off, Visits env r key off → off < r.fLength → LengthsBoundedAt env r off)
    (fuel : Nat) :
    ∀ off : Int, Visits env r key off → ((r.fLength - off + 1) / 2).toNat + 1 ≤ fuel →
      ∃ run, (findLoop env r key fuel off).2 = some run := by
  induction fuel with
  | zero => intro off _ h; omega
  | succ n ih =>
    intro off hv hfuel
    by_cases hlt : off < r.fLength
    · rw [findLoop_succ_lt env r key n off hlt]
      rcases hit : iter env r key off with ⟨ops, nx⟩
      cases nx with
      | done run => exact ⟨run, rfl⟩
      | «continue» off' =>
        have hit2 : (iter env r key off).2 = .continue off' := by rw [hit]
        have hp := iter_progress env r key off off' hM (hb off hv hlt) hit2
        exact ih off' (Visits.next hv hlt hit2) (by omega)
    · rw [findLoop_succ_ge env r key n off (by omega)]
      exact ⟨_, rfl⟩

end sst

namespace sst

/-- C15, as amended: when every record the scan visits declares a `keyLength` and a
`valueLength` of at most `MaxKeySize` (and the file length plus `MaxKeySize` is below
`2 ^ 63`, so that no offset overflows), `Find` terminates: each iteration that does not
return increases the offset by at least 2 bytes, the body of the loop is entered at
most `(fLength - 8 + 1) / 2` times, that is `(fLength - 8) / 2` rounded up, and any
budget of one more iteration than that makes the call end. -/
theorem C15_terminates_within_bound (env : Env) (r : Reader) (key : List Nat)
    (hM : (r.f.length : Int) + (env.MaxKeySize : Int) < 9223372036854775808)
    (hb : ∀ off, Visits env r key off → off < r.fLength → LengthsBoundedAt env r off) :
    (∀ off off', Visits env r key off → off < r.fLength →
        (iter env r key off).2 = .continue off' → off + 2 ≤ off')
    ∧ (∀ fuel, loopIterations env r key fuel 8 ≤ ((r.fLength - 8 + 1) / 2).toNat)
    ∧ (∀ fuel, ((r.fLength - 8 + 1) / 2).toNat + 1 ≤ fuel →
        ∃ run, (r.Find env key fuel).2 = some run) := by
  refine ⟨?_, ?_, ?_⟩
  · intro off off' hv hlt hit
    exact (iter_progress env r key off off' hM (hb off hv hlt) hit).2
  · intro fuel
    rcases loopIterations_le env r key hM hb fuel 8 Visits.start with h | ⟨_, h⟩
    · omega
    · omega
  · intro fuel hfuel
    exact findLoop_ends env r key hM hb fuel 8 Visits.start hfuel

theorem garbled_bounded (off : Int) (h : Visits sampleEnv garbledReader [99] off)
    (_hlt : off < garbledReader.fLength) : LengthsBoundedAt sampleEnv garbledReader off := by
  intro kl vl koff hl
  rcases garbled_visits off h with rfl | rfl | rfl | rfl
  · have e : garbledReader.lengthsAt 8 = some (4, 3, 10) := by decide
    rw [e] at hl; cases hl; exact ⟨by decide, by decide⟩
  · have e : garbledReader.lengthsAt 17 = some (4, 3, 19) := by decide
    rw [e] at hl; cases hl; exact ⟨by decide, by decide⟩
  · have e : garbledReader.lengthsAt 26 = some (4, 1, 28) := by decide
    rw [e] at hl; cases hl; exact ⟨by decide, by decide⟩
  · have e : garbledReader.lengthsAt 33 = none := by decide
    rw [e] at hl; cases hl

/-- C15, witness: on the garbled example file of 35 bytes the scan for `"c"` enters
the loop 4 times, within the bound 14, and ends. -/
theorem C15_terminates_within_bound_witness :
    loopIterations sampleEnv garbledReader [99] 20 8 = 4
    ∧ (∀ fuel, loopIterations sampleEnv garbledReader [99] fuel 8 ≤ 14)
    ∧ (∃ run, (garbledReader.Find sampleEnv [99] 15).2 = some run) :=
  ⟨by decide,
   (C15_terminates_within_bound sampleEnv garbledReader [99] (by decide) garbled_bounded).2.1,
   (C15_terminates_within_bound sampleEnv garbledReader [99] (by decide) garbled_bounded).2.2
     15 (by decide)⟩

theorem tiny_iter (env : Env) (key : List Nat) :
    iter env tinyReader key 8 = ([⟨8, 1⟩, ⟨9, 1⟩], .done (.ret none 0 (some .eof))) := by
  have h1 : readAtUvarInt64 tinyReader.f 8 = (.ok (0, 1), ⟨8, 1⟩) := by rfl
  have h2 : readAtUvarInt64 tinyReader.f (wrapInt64 (8 + 1)) = (.error .eof, ⟨9, 1⟩) := by rfl
  unfold iter
  simp only [h1, h2]

/-- C15, counterexample: in the file of nine bytes no record is complete, so every
record's lengths are bounded; the body of the loop is entered once, and
`(fLength - 8) / 2` is 0. -/
theorem C15_counterexample :
    (loopIterations sampleEnv tinyReader [97] 1 8 = 1
      ∧ (tinyReader.fLength - 8) / 2 = 0
      ∧ (∀ off, Visits sampleEnv tinyReader [97] off → off < tinyReader.fLength →
          LengthsBoundedAt sampleEnv tinyReader off))
    ∧ (∀ (env : Env) (key : List Nat), loopIterations env tinyReader key 1 8 = 1) := by
  have gen : ∀ (env : Env) (key : List Nat), loopIterations env tinyReader key 1 8 = 1 := by
    intro env key
    have hlt : (8 : Int) < tinyReader.fLength := by decide
    simp only [loopIterations, hlt, if_true, tiny_iter env key]
  refine ⟨⟨gen _ _, by decide, ?_⟩, gen⟩
  intro off hv hlt
  clear hlt
  have h8 : off = 8 := by
    induction hv with
    | start => rfl
    | next _ _ hstep ih =>
      subst ih
      rw [tiny_iter] at hstep
      cases hstep
  subst h8
  intro kl vl koff hl
  have e : tinyReader.lengthsAt 8 = none := by rfl
  rw [e] at hl
  cases hl

end sst

/-! ## The order of the reads -/

namespace sst

theorem op_off_of_read {f : List Nat} {off : Int} {res : Except Err (Nat × Int)} {op : ReadOp}
    (h : readAtUvarInt64 f off = (res, op)) : op.off = off := by
  have := readAtUvarInt64_off f off
  rw [h] at this
  exact this

theorem parse_nonempty {env : Env} (hempty : ∃ e, env.Parse [] = .error e) {kb key : List Nat}
    {ts : Int} (h : env.Parse kb = .ok (key, ts)) : 1 ≤ kb.length := by
  cases kb with
  | nil => obtain ⟨e, he⟩ := hempty; rw [he] at h; cases h
  | cons _ _ => simp

/-- Within one iteration the offsets of the reads increase strictly, and none is below
the offset at which the iteration was entered. -/
theorem iter_offsets (env : Env) (r : Reader) (key : List Nat) (off : Int)
    (hsz : (r.f.length : Int) < 9223372036854775808)
    (hempty : ∃ e, env.Parse [] = .error e) :
    ((iter env r key off).1.map ReadOp.off).Pairwise (· < ·)
      ∧ ∀ op ∈ (iter env r key off).1, off ≤ op.off := by
  have hc := iter_case env r key off
  generalize iter env r key off = res at hc
  have first : ∀ {kl : Nat} {n1 : Int} {op1 : ReadOp},
      readAtUvarInt64 r.f off = (.ok (kl, n1), op1) →
      op1.off = off ∧ 0 ≤ off ∧ 1 ≤ n1 ∧ off + n1 ≤ (r.f.length : Int)
        ∧ wrapInt64 (off + n1) = off + n1 := by
    intro kl n1 op1 h1
    have f1 := @readAtUvarInt64_ok r.f off kl n1 (by rw [h1])
    exact ⟨op_off_of_read h1, f1.1, f1.2.1, f1.2.2.2, wrapInt64_of_range (by omega) (by omega)⟩
  have second : ∀ {vl : Nat} {n1 n2 : Int} {op2 : ReadOp}, 0 ≤ off → 1 ≤ n1 →
      readAtUvarInt64 r.f (off + n1) = (.ok (vl, n2), op2) →
      op2.off = off + n1 ∧ 1 ≤ n2 ∧ wrapInt64 (off + n1 + n2) = off + n1 + n2
        ∧ off + n1 + n2 ≤ (r.f.length : Int) := by
    intro vl n1 n2 op2 h0 hn h2
    have f2 := @readAtUvarInt64_ok r.f (off + n1) vl n2 (by rw [h2])
    exact ⟨op_off_of_read h2, f2.2.1, wrapInt64_of_range (by omega) (by omega), f2.2.2.2⟩
  have value : ∀ {kl : Nat} {n1 n2 : Int} {kb rk : List Nat} {ts : Int},
      0 ≤ off → 1 ≤ n1 → 1 ≤ n2 → off + n1 + n2 ≤ (r.f.length : Int) →
      ReadAt r.f kl (off + n1 + n2) = .ok kb → env.Parse kb = .ok (rk, ts) →
      1 ≤ kl ∧ wrapInt64 (off + n1 + n2 + toInt64 kl) = off + n1 + n2 + (kl : Int) := by
    intro kl n1 n2 kb rk ts h0 hn1 hn2 hend h3 h4
    have hl := ReadAt_length h3
    have hk := parse_nonempty hempty h4
    have f3 := ReadAt_ok h3
    have : off + n1 + n2 + (kl : Int) ≤ (r.f.length : Int) := by
      rcases f3.2 with hz | hz
      · omega
      · exact hz
    refine ⟨by omega, ?_⟩
    rw [toInt64_of_lt (by omega)]
    exact wrapInt64_of_range (by omega) (by omega)
  cases hc with
  | keyLenErr h1 =>
    simp only [List.map, List.pairwise_cons, List.not_mem_nil, false_implies, implies_true,
      List.Pairwise.nil, and_self, List.mem_singleton, true_and]
    intro op hop; rw [hop, op_off_of_read h1]
  | valueLenErr h1 h2 =>
    obtain ⟨o1, h0, hn1, _, w1⟩ := first h1
    rw [w1] at h2
    have o2 := op_off_of_read h2
    simp only [List.map, List.pairwise_cons, List.mem_cons, List.mem_singleton,
      List.not_mem_nil, or_false, false_implies, implies_true, List.Pairwise.nil, and_true,
      forall_eq_or_imp, forall_eq]
    omega
  | keyTooLong h1 h2 _ =>
    obtain ⟨o1, h0, hn1, _, w1⟩ := first h1
    rw [w1] at h2
    obtain ⟨o2, _, _, _⟩ := second h0 hn1 h2
    simp only [List.map, List.pairwise_cons, List.mem_cons, List.mem_singleton,
      List.not_mem_nil, or_false, false_implies, implies_true, List.Pairwise.nil, and_true,
      forall_eq_or_imp, forall_eq]
    omega
  | keyReadErr h1 h2 _ _ =>
    obtain ⟨o1, h0, hn1, _, w1⟩ := first h1
    rw [w1] at h2
    obtain ⟨o2, hn2, w2, _⟩ := second h0 hn1 h2
    simp only [w1, w2, List.map, List.pairwise_cons, List.mem_cons, List.mem_singleton,
      List.not_mem_nil, or_false, false_implies, implies_true, List.Pairwise.nil, and_true,
      forall_eq_or_imp, forall_eq]
    omega
  | codecErr h1 h2 _ _ _ =>
    obtain ⟨o1, h0, hn1, _, w1⟩ := first h1
    rw [w1] at h2
    obtain ⟨o2, hn2, w2, _⟩ := second h0 hn1 h2
    simp only [w1, w2, List.map, List.pairwise_cons, List.mem_cons, List.mem_singleton,
      List.not_mem_nil, or_false, false_implies, implies_true, List.Pairwise.nil, and_true,
      forall_eq_or_imp, forall_eq]
    omega
  | valueTooLong h1 h2 _ _ _ _ =>
    obtain ⟨o1, h0, hn1, _, w1⟩ := first h1
    rw [w1] at h2
    obtain ⟨o2, hn2, w2, _⟩ := second h0 hn1 h2
    simp only [w1, w2, List.map, List.pairwise_cons, List.mem_cons, List.mem_singleton,
      List.not_mem_nil, or_false, false_implies, implies_true, List.Pairwise.nil, and_true,
      forall_eq_or_imp, forall_eq]
    omega
  | valueReadErr h1 h2 _ h3 h4 _ _ =>
    obtain ⟨o1, h0, hn1, _, w1⟩ := first h1
    rw [w1] at h2 h3
    obtain ⟨o2, hn2, w2, hend⟩ := second h0 hn1 h2
    rw [w2] at h3
    obtain ⟨hk, w3⟩ := value h0 hn1 hn2 hend h3 h4
    simp only [w1, w2, w3, List.map, List.pairwise_cons, List.mem_cons, List.mem_singleton,
      List.not_mem_nil, or_false, false_implies, implies_true, List.Pairwise.nil, and_true,
      forall_eq_or_imp, forall_eq]
    omega
  | emptyValue h1 h2 _ h3 h4 _ _ =>
    obtain ⟨o1, h0, hn1, _, w1⟩ := first h1
    rw [w1] at h2 h3
    obtain ⟨o2, hn2, w2, hend⟩ := second h0 hn1 h2
    rw [w2] at h3
    obtain ⟨hk, w3⟩ := value h0 hn1 hn2 hend h3 h4
    simp only [w1, w2, w3, List.map, List.pairwise_cons, List.mem_cons, List.mem_singleton,
      List.not_mem_nil, or_false, false_implies, implies_true, List.Pairwise.nil, and_true,
      forall_eq_or_imp, forall_eq]
    omega
  | found h1 h2 _ h3 h4 _ _ =>
    obtain ⟨o1, h0, hn1, _, w1⟩ := first h1
    rw [w1] at h2 h3
    obtain ⟨o2, hn2, w2, hend⟩ := second h0 hn1 h2
    rw [w2] at h3
    obtain ⟨hk, w3⟩ := value h0 hn1 hn2 hend h3 h4
    simp only [w1, w2, w3, List.map, List.pairwise_cons, List.mem_cons, List.mem_singleton,
      List.not_mem_nil, or_false, false_implies, implies_true, List.Pairwise.nil, and_true,
      forall_eq_or_imp, forall_eq]
    omega
  | greater h1 h2 _ _ _ _ _ =>
    obtain ⟨o1, h0, hn1, _, w1⟩ := first h1
    rw [w1] at h2
    obtain ⟨o2, hn2, w2, _⟩ := second h0 hn1 h2
    simp only [w1, w2, List.map, List.pairwise_cons, List.mem_cons, List.mem_singleton,
      List.not_mem_nil, or_false, false_implies, implies_true, List.Pairwise.nil, and_true,
      forall_eq_or_imp, forall_eq]
    omega
  | less h1 h2 _ _ _ _ _ =>
    obtain ⟨o1, h0, hn1, _, w1⟩ := first h1
    rw [w1] at h2
    obtain ⟨o2, hn2, w2, _⟩ := second h0 hn1 h2
    simp only [w1, w2, List.map, List.pairwise_cons, List.mem_cons, List.mem_singleton,
      List.not_mem_nil, or_false, false_implies, implies_true, List.Pairwise.nil, and_true,
      forall_eq_or_imp, forall_eq]
    omega

end sst

namespace sst

/-- In a scan whose skips stay in the `int64` range the offsets of the reads increase
strictly, and none is below the offset at which the scan was entered. -/
theorem findLoop_increasing (env : Env) (r : Reader) (key : List Nat)
    (hsz : (r.f.length : Int) < 9223372036854775808)
    (hempty : ∃ e, env.Parse [] = .error e)
    (hskip : ∀ off, Visits env r key off → off < r.fLength → SkipInRangeAt r off)
    (fuel : Nat) :
    ∀ off : Int, Visits env r key off →
      ((findLoop env r key fuel off).1.map ReadOp.off).Pairwise (· < ·)
        ∧ ∀ op ∈ (findLoop env r key fuel off).1, off ≤ op.off := by
  induction fuel with
  | zero => intro off _; simp [findLoop]
  | succ n ih =>
    intro off hv
    by_cases hlt : off < r.fLength
    · rw [findLoop_succ_lt env r key n off hlt]
      have ho := iter_offsets env r key off hsz hempty
      have hinv := iter_continue_inv env r key off
      rcases hit : iter env r key off with ⟨ops, nx⟩
      rw [hit] at ho hinv
      cases nx with
      | done run => exact ho
      | «continue» off' =>
        obtain ⟨kl, vl, koff, kb, readKey, ts, hla, h0, hk, hend, _, hlen, hparse, _, _, hoff,
          hops⟩ := hinv off' hsz rfl
        have hkl := parse_nonempty hempty hparse
        have hrange := hskip off hv hlt kl vl koff hla
        have hoff' : off' = koff + (kl : Int) + (vl : Int) := by
          rw [hoff, toInt64_of_lt (by omega), wrapInt64_of_range (by omega) (by omega)]
        obtain ⟨ih1, ih2⟩ := ih off' (Visits.next hv hlt (by rw [hit]))
        simp only []
        refine ⟨?_, ?_⟩
        · rw [List.map_append, List.pairwise_append]
          refine ⟨ho.1, ih1, ?_⟩
          intro a ha b hb
          obtain ⟨opa, hopa, rfl⟩ := List.mem_map.mp ha
          obtain ⟨opb, hopb, rfl⟩ := List.mem_map.mp hb
          have := (hops opa hopa).2
          have := ih2 opb hopb
          omega
        · intro op hop
          rcases List.mem_append.mp hop with h | h
          · exact ho.2 op h
          · have := ih2 op h
            omega
    · rw [findLoop_succ_ge env r key n off (by omega)]
      simp

/-- C11, as amended: within a single call of `Find`, for every file and query key in
which every record the scan visits declares lengths whose end (key offset plus
`keyLength` plus `valueLength`) is below `2 ^ 63`, and for a codec that rejects the
empty string, the offsets passed to successive positional reads (the `keyLength` varint,
the `valueLength` varint, the encoded key, and either the value payload or the next
record's `keyLength` varint) form a strictly increasing sequence. -/
theorem C11_read_offsets_increase (env : Env) (r : Reader) (key : List Nat) (fuel : Nat)
    (hsz : (r.f.length : Int) < 9223372036854775808)
    (hempty : ∃ e, env.Parse [] = .error e)
    (hskip : ∀ off, Visits env r key off → off < r.fLength → SkipInRangeAt r off) :
    ((r.Find env key fuel).1.map ReadOp.off).Pairwise (· < ·) :=
  (findLoop_increasing env r key hsz hempty hskip fuel 8 Visits.start).1

theorem example_skipInRange (off : Int) (h : Visits sampleEnv exampleReader [98] off)
    (_hlt : off < exampleReader.fLength) : SkipInRangeAt exampleReader off := by
  intro kl vl koff hl
  rcases example_visits_b off h with rfl | rfl | rfl
  · have e : exampleReader.lengthsAt 8 = some (4, 3, 10) := by decide
    rw [e] at hl; cases hl; decide
  · have e : exampleReader.lengthsAt 17 = some (4, 3, 19) := by decide
    rw [e] at hl; cases hl; decide
  · have e : exampleReader.lengthsAt 26 = some (4, 1, 28) := by decide
    rw [e] at hl; cases hl; decide

/-- C11, witness: in the example scenario `Find("b")` reads at the offsets 8, 9, 10, 17,
18, 19, 26, 27, 28 and 32. -/
theorem C11_read_offsets_increase_witness :
    (exampleReader.Find sampleEnv [98] 4).1.map ReadOp.off = [8, 9, 10, 17, 18, 19, 26, 27, 28, 32]
    ∧ ((exampleReader.Find sampleEnv [98] 4).1.map ReadOp.off).Pairwise (· < ·) :=
  ⟨by decide,
   C11_read_offsets_increase sampleEnv exampleReader [98] 4 (by decide) ⟨_, rfl⟩
     example_skipInRange⟩

/-- C11, counterexample: in `backwardSkipReader` the record `"a"` declares the value
length `2 ^ 64 - 15`; `int64` turns it into `-15`, the skip leads from offset 23 back to
offset 8, and the reads of `Find("b")` are at 8, 9, 19 and then at 8 again. -/
theorem C11_counterexample :
    (backwardSkipReader.Find sampleEnv [98] 2).1.map ReadOp.off = [8, 9, 19, 8, 9, 19]
    ∧ ¬ ((backwardSkipReader.Find sampleEnv [98] 2).1.map ReadOp.off).Pairwise (· < ·) := by
  have h : (backwardSkipReader.Find sampleEnv [98] 2).1.map ReadOp.off = [8, 9, 19, 8, 9, 19] := by
    decide
  refine ⟨h, ?_⟩
  rw [h]
  decide

end sst

/-! ## A call depends only on the bytes it reads -/

namespace sst

theorem uvarintLoop_asked_ge (bs : List Nat) (i x s : Nat) : i ≤ (uvarintLoop bs i x s).2 := by
  induction bs generalizing i x s with
  | nil => unfold uvarintLoop; split <;> simp
  | cons b bs ih =>
    unfold uvarintLoop
    by_cases h10 : 10 ≤ i
    · simp [h10]
    · simp only [h10, if_false]
      by_cases hb : b < 128
      · simp only [hb, if_true]
        split <;> simp
      · simp only [hb, if_false]
        have := ih (i + 1) (x ||| ((b &&& 127) <<< s)) (s + 7)
        omega

theorem uvarintLoop_asked_gt (bs : List Nat) (i x s : Nat) (h10 : ¬ 10 ≤ i) :
    i + 1 ≤ (uvarintLoop bs i x s).2 := by
  cases bs with
  | nil => unfold uvarintLoop; simp [h10]
  | cons b bs =>
    unfold uvarintLoop
    simp only [h10, if_false]
    by_cases hb : b < 128
    · simp only [hb, if_true]
      split <;> simp
    · simp only [hb, if_false]
      exact uvarintLoop_asked_ge bs (i + 1) _ _

/-- The varint decoder gives the same result on two byte strings that agree on the
bytes it requests. -/
theorem uvarintLoop_agree (bs₁ : List Nat) :
    ∀ (bs₂ : List Nat) (i x s : Nat),
      (∀ j : Nat, i + j < (uvarintLoop bs₁ i x s).2 → bs₁[j]? = bs₂[j]?) →
      uvarintLoop bs₂ i x s = uvarintLoop bs₁ i x s := by
  induction bs₁ with
  | nil =>
    intro bs₂ i x s h
    by_cases h10 : 10 ≤ i
    · cases bs₂ <;> simp [uvarintLoop, h10]
    · have h0 := h 0 (by have := uvarintLoop_asked_gt [] i x s h10; omega)
      cases bs₂ with
      | nil => rfl
      | cons c cs => simp at h0
  | cons b bs ih =>
    intro bs₂ i x s h
    by_cases h10 : 10 ≤ i
    · cases bs₂ <;> simp [uvarintLoop, h10]
    · have h0 := h 0 (by have := uvarintLoop_asked_gt (b :: bs) i x s h10; omega)
      cases bs₂ with
      | nil => simp at h0
      | cons c cs =>
        simp only [List.getElem?_cons_zero, Option.some.injEq] at h0
        subst h0
        unfold uvarintLoop
        simp only [h10, if_false]
        by_cases hb : b < 128
        · simp only [hb, if_true]
        · simp only [hb, if_false]
          apply ih
          intro j hj
          have := h (j + 1) (by
            unfold uvarintLoop
            simp only [h10, if_false, hb]
            omega)
          simpa using this

theorem readAtUvarInt64_agree (f g : List Nat) (off : Int)
    (h : AgreeOn f g (readAtUvarInt64 f off).2) :
    readAtUvarInt64 g off = readAtUvarInt64 f off := by
  unfold readAtUvarInt64 at h ⊢
  by_cases hneg : off < 0
  · simp only [hneg, if_true]
  · simp only [hneg, if_false] at h ⊢
    have e : uvarintLoop (g.drop off.toNat) 0 0 0 = uvarintLoop (f.drop off.toNat) 0 0 0 := by
      apply uvarintLoop_agree
      intro j hj
      rw [List.getElem?_drop, List.getElem?_drop]
      apply h
      · simp only []; omega
      · simp only []; omega
    rw [e]

theorem ReadAt_agree (f g : List Nat) (n : Nat) (off : Int) (h : AgreeOn f g ⟨off, n⟩) :
    ReadAt g n off = ReadAt f n off := by
  unfold ReadAt
  by_cases hneg : off < 0
  · simp only [hneg, if_true]
  · simp only [hneg, if_false]
    have e : (g.drop off.toNat).take n = (f.drop off.toNat).take n := by
      apply List.ext_getElem?
      intro j
      by_cases hj : j < n
      · rw [List.getElem?_take_of_lt hj, List.getElem?_take_of_lt hj, List.getElem?_drop,
          List.getElem?_drop]
        symm
        apply h
        · simp only []; omega
        · simp only []; omega
      · rw [List.getElem?_take_eq_none (by omega), List.getElem?_take_eq_none (by omega)]
    rw [e]

end sst

namespace sst

/-- The paths of `IterCase` determine the iteration. -/
theorem iter_of_case (env : Env) (r : Reader) (key : List Nat) (off : Int)
    (res : List ReadOp × Next) (hc : IterCase env r key off res) :
    iter env r key off = res := by
  cases hc with
  | keyLenErr h1 => unfold iter; simp only [h1]
  | valueLenErr h1 h2 => unfold iter; simp only [h1, h2]
  | keyTooLong h1 h2 hmax => unfold iter; simp only [h1, h2, hmax, if_true]
  | keyReadErr h1 h2 hle h3 =>
    unfold iter; simp only [h1, h2, Nat.not_lt.mpr hle, if_false, h3]
  | codecErr h1 h2 hle h3 h4 =>
    unfold iter; simp only [h1, h2, Nat.not_lt.mpr hle, if_false, h3, h4]
  | valueTooLong h1 h2 hle h3 h4 hbig =>
    unfold iter; simp only [h1, h2, Nat.not_lt.mpr hle, if_false, h3, h4, if_true, hbig]
  | valueReadErr h1 h2 hle h3 h4 hsmall h5 =>
    unfold iter
    simp only [h1, h2, Nat.not_lt.mpr hle, if_false, h3, h4, if_true, Nat.not_lt.mpr hsmall, h5]
  | emptyValue h1 h2 hle h3 h4 hsmall h5 =>
    unfold iter
    simp only [h1, h2, Nat.not_lt.mpr hle, if_false, h3, h4, if_true, Nat.not_lt.mpr hsmall, h5]
  | found h1 h2 hle h3 h4 hsmall h5 =>
    rename_i kl vl n1 n2 op1 op2 kb ts tag raw
    unfold iter
    simp only [h1, h2, Nat.not_lt.mpr hle, if_false, h3, h4, if_true, Nat.not_lt.mpr hsmall, h5]
    by_cases ht : tag = env.typeNil
    · simp only [ht, if_true]
    · simp only [ht, if_false]
  | greater h1 h2 hle h3 h4 hne hgt =>
    unfold iter
    simp only [h1, h2, Nat.not_lt.mpr hle, if_false, h3, h4, hne, hgt, if_true]
  | less h1 h2 hle h3 h4 hne hlt =>
    unfold iter
    simp only [h1, h2, Nat.not_lt.mpr hle, if_false, h3, h4, hne, hlt, Bool.false_eq_true]

/-- An iteration on a second file that agrees with the first on the bytes that the
iteration requests there does the same reads and ends in the same way. -/
theorem iter_agree (env : Env) (r₁ r₂ : Reader) (key : List Nat) (off : Int)
    (h : ∀ op ∈ (iter env r₁ key off).1, AgreeOn r₁.f r₂.f op) :
    iter env r₂ key off = iter env r₁ key off := by
  have tr1 : ∀ {o : Int} {res : Except Err (Nat × Int)} {op : ReadOp},
      readAtUvarInt64 r₁.f o = (res, op) → AgreeOn r₁.f r₂.f op →
      readAtUvarInt64 r₂.f o = (res, op) := by
    intro o res op h1 ha
    rw [readAtUvarInt64_agree r₁.f r₂.f o (by rw [h1]; exact ha), h1]
  have tr2 : ∀ {n : Nat} {o : Int} {res : Except Err (List Nat)},
      ReadAt r₁.f n o = res → AgreeOn r₁.f r₂.f ⟨o, n⟩ → ReadAt r₂.f n o = res := by
    intro n o res h1 ha
    rw [ReadAt_agree r₁.f r₂.f n o ha, h1]
  have hc := iter_case env r₁ key off
  generalize iter env r₁ key off = res at hc h
  apply iter_of_case
  cases hc with
  | keyLenErr h1 => exact .keyLenErr (tr1 h1 (h _ (by simp)))
  | valueLenErr h1 h2 => exact .valueLenErr (tr1 h1 (h _ (by simp))) (tr1 h2 (h _ (by simp)))
  | keyTooLong h1 h2 hmax =>
    exact .keyTooLong (tr1 h1 (h _ (by simp))) (tr1 h2 (h _ (by simp))) hmax
  | keyReadErr h1 h2 hle h3 =>
    exact .keyReadErr (tr1 h1 (h _ (by simp))) (tr1 h2 (h _ (by simp))) hle
      (tr2 h3 (h _ (by simp)))
  | codecErr h1 h2 hle h3 h4 =>
    exact .codecErr (tr1 h1 (h _ (by simp))) (tr1 h2 (h _ (by simp))) hle
      (tr2 h3 (h _ (by simp))) h4
  | valueTooLong h1 h2 hle h3 h4 hbig =>
    exact .valueTooLong (tr1 h1 (h _ (by simp))) (tr1 h2 (h _ (by simp))) hle
      (tr2 h3 (h _ (by simp))) h4 hbig
  | valueReadErr h1 h2 hle h3 h4 hsmall h5 =>
    exact .valueReadErr (tr1 h1 (h _ (by simp))) (tr1 h2 (h _ (by simp))) hle
      (tr2 h3 (h _ (by simp))) h4 hsmall (tr2 h5 (h _ (by simp)))
  | emptyValue h1 h2 hle h3 h4 hsmall h5 =>
    exact .emptyValue (tr1 h1 (h _ (by simp))) (tr1 h2 (h _ (by simp))) hle
      (tr2 h3 (h _ (by simp))) h4 hsmall (tr2 h5 (h _ (by simp)))
  | found h1 h2 hle h3 h4 hsmall h5 =>
    exact .found (tr1 h1 (h _ (by simp))) (tr1 h2 (h _ (by simp))) hle
      (tr2 h3 (h _ (by simp))) h4 hsmall (tr2 h5 (h _ (by simp)))
  | greater h1 h2 hle h3 h4 hne hgt =>
    exact .greater (tr1 h1 (h _ (by simp))) (tr1 h2 (h _ (by simp))) hle
      (tr2 h3 (h _ (by simp))) h4 hne hgt
  | less h1 h2 hle h3 h4 hne hlt =>
    exact .less (tr1 h1 (h _ (by simp))) (tr1 h2 (h _ (by simp))) hle
      (tr2 h3 (h _ (by simp))) h4 hne hlt

/-- A scan on a second file that agrees with the first on the bytes that the scan
requests there, with the same cached length, does the same reads and ends in the same
way. -/
theorem findLoop_agree (env : Env) (r₁ r₂ : Reader) (key : List Nat)
    (hlen : r₁.fLength = r₂.fLength) (fuel : Nat) :
    ∀ off : Int, (∀ op ∈ (findLoop env r₁ key fuel off).1, AgreeOn r₁.f r₂.f op) →
      findLoop env r₂ key fuel off = findLoop env r₁ key fuel off := by
  induction fuel with
  | zero => intro off _; rfl
  | succ n ih =>
    intro off h
    by_cases hlt : off < r₁.fLength
    · rw [findLoop_succ_lt env r₁ key n off hlt] at h ⊢
      rw [findLoop_succ_lt env r₂ key n off (by rw [← hlen]; exact hlt)]
      have ha := iter_agree env r₁ r₂ key off
      rcases hit : iter env r₁ key off with ⟨ops, nx⟩
      rw [hit] at h ha
      cases nx with
      | done run =>
        rw [ha (fun op hop => h op hop)]
      | «continue» off' =>
        simp only [] at h
        rw [ha (fun op hop => h op (List.mem_append_left _ hop))]
        simp only []
        rw [ih off' (fun op hop => h op (List.mem_append_right _ hop))]
    · rw [findLoop_succ_ge env r₁ key n off (by omega),
        findLoop_succ_ge env r₂ key n off (by rw [← hlen]; omega)]

end sst

/-! ## Payloads of skipped records -/

namespace sst

/-- No read of an iteration is at an offset below the one at which it was entered. -/
theorem iter_ops_ge (env : Env) (r : Reader) (key : List Nat) (off : Int)
    (hsz : (r.f.length : Int) < 9223372036854775808) :
    ∀ op ∈ (iter env r key off).1, off ≤ op.off := by
  have hc := iter_case env r key off
  generalize iter env r key off = res at hc
  have first : ∀ {kl : Nat} {n1 : Int} {op1 : ReadOp},
      readAtUvarInt64 r.f off = (.ok (kl, n1), op1) →
      op1.off = off ∧ 0 ≤ off ∧ 1 ≤ n1 ∧ wrapInt64 (off + n1) = off + n1 := by
    intro kl n1 op1 h1
    have f1 := @readAtUvarInt64_ok r.f off kl n1 (by rw [h1])
    exact ⟨op_off_of_read h1, f1.1, f1.2.1, wrapInt64_of_range (by omega) (by omega)⟩
  have second : ∀ {vl : Nat} {n1 n2 : Int} {op2 : ReadOp}, 0 ≤ off → 1 ≤ n1 →
      readAtUvarInt64 r.f (off + n1) = (.ok (vl, n2), op2) →
      op2.off = off + n1 ∧ 1 ≤ n2 ∧ wrapInt64 (off + n1 + n2) = off + n1 + n2
        ∧ off + n1 + n2 ≤ (r.f.length : Int) := by
    intro vl n1 n2 op2 h0 hn h2
    have f2 := @readAtUvarInt64_ok r.f (off + n1) vl n2 (by rw [h2])
    exact ⟨op_off_of_read h2, f2.2.1, wrapInt64_of_range (by omega) (by omega), f2.2.2.2⟩
  have value : ∀ {kl : Nat} {n1 n2 : Int} {kb : List Nat},
      0 ≤ off → 1 ≤ n1 → 1 ≤ n2 → off + n1 + n2 ≤ (r.f.length : Int) →
      ReadAt r.f kl (off + n1 + n2) = .ok kb →
      wrapInt64 (off + n1 + n2 + toInt64 kl) = off + n1 + n2 + (kl : Int) := by
    intro kl n1 n2 kb h0 hn1 hn2 hend h3
    have f3 := ReadAt_ok h3
    have : off + n1 + n2 + (kl : Int) ≤ (r.f.length : Int) := by
      rcases f3.2 with hz | hz
      · omega
      · exact hz
    rw [toInt64_of_lt (by omega)]
    exact wrapInt64_of_range (by omega) (by omega)
  cases hc with
  | keyLenErr h1 =>
    intro op hop
    simp only [List.mem_singleton] at hop
    rw [hop, op_off_of_read h1]
  | valueLenErr h1 h2 =>
    obtain ⟨o1, h0, hn1, w1⟩ := first h1
    rw [w1] at h2
    have o2 := op_off_of_read h2
    simp only [List.mem_cons, List.mem_singleton, List.not_mem_nil, or_false,
      forall_eq_or_imp, forall_eq]
    omega
  | keyTooLong h1 h2 _ =>
    obtain ⟨o1, h0, hn1, w1⟩ := first h1
    rw [w1] at h2
    obtain ⟨o2, _, _, _⟩ := second h0 hn1 h2
    simp only [List.mem_cons, List.mem_singleton, List.not_mem_nil, or_false,
      forall_eq_or_imp, forall_eq]
    omega
  | keyReadErr h1 h2 _ _ =>
    obtain ⟨o1, h0, hn1, w1⟩ := first h1
    rw [w1] at h2
    obtain ⟨o2, hn2, w2, _⟩ := second h0 hn1 h2
    simp only [w1, w2, List.mem_cons, List.mem_singleton, List.not_mem_nil, or_false,
      forall_eq_or_imp, forall_eq]
    omega
  | codecErr h1 h2 _ _ _ =>
    obtain ⟨o1, h0, hn1, w1⟩ := first h1
    rw [w1] at h2
    obtain ⟨o2, hn2, w2, _⟩ := second h0 hn1 h2
    simp only [w1, w2, List.mem_cons, List.mem_singleton, List.not_mem_nil, or_false,
      forall_eq_or_imp, forall_eq]
    omega
  | valueTooLong h1 h2 _ _ _ _ =>
    obtain ⟨o1, h0, hn1, w1⟩ := first h1
    rw [w1] at h2
    obtain ⟨o2, hn2, w2, _⟩ := second h0 hn1 h2
    simp only [w1, w2, List.mem_cons, List.mem_singleton, List.not_mem_nil, or_false,
      forall_eq_or_imp, forall_eq]
    omega
  | valueReadErr h1 h2 _ h3 _ _ _ =>
    obtain ⟨o1, h0, hn1, w1⟩ := first h1
    rw [w1] at h2 h3
    obtain ⟨o2, hn2, w2, hend⟩ := second h0 hn1 h2
    rw [w2] at h3
    have w3 := value h0 hn1 hn2 hend h3
    simp only [w1, w2, w3, List.mem_cons, List.mem_singleton, List.not_mem_nil, or_false,
      forall_eq_or_imp, forall_eq]
    omega
  | emptyValue h1 h2 _ h3 _ _ _ =>
    obtain ⟨o1, h0, hn1, w1⟩ := first h1
    rw [w1] at h2 h3
    obtain ⟨o2, hn2, w2, hend⟩ := second h0 hn1 h2
    rw [w2] at h3
    have w3 := value h0 hn1 hn2 hend h3
    simp only [w1, w2, w3, List.mem_cons, List.mem_singleton, List.not_mem_nil, or_false,
      forall_eq_or_imp, forall_eq]
    omega
  | found h1 h2 _ h3 _ _ _ =>
    obtain ⟨o1, h0, hn1, w1⟩ := first h1
    rw [w1] at h2 h3
    obtain ⟨o2, hn2, w2, hend⟩ := second h0 hn1 h2
    rw [w2] at h3
    have w3 := value h0 hn1 hn2 hend h3
    simp only [w1, w2, w3, List.mem_cons, List.mem_singleton, List.not_mem_nil, or_false,
      forall_eq_or_imp, forall_eq]
    omega
  | greater h1 h2 _ _ _ _ _ =>
    obtain ⟨o1, h0, hn1, w1⟩ := first h1
    rw [w1] at h2
    obtain ⟨o2, hn2, w2, _⟩ := second h0 hn1 h2
    simp only [w1, w2, List.mem_cons, List.mem_singleton, List.not_mem_nil, or_false,
      forall_eq_or_imp, forall_eq]
    omega
  | less h1 h2 _ _ _ _ _ =>
    obtain ⟨o1, h0, hn1, w1⟩ := first h1
    rw [w1] at h2
    obtain ⟨o2, hn2, w2, _⟩ := second h0 hn1 h2
    simp only [w1, w2, List.mem_cons, List.mem_singleton, List.not_mem_nil, or_false,
      forall_eq_or_imp, forall_eq]
    omega

/-- In a scan whose skips stay in the `int64` range no read is at an offset below the
one at which the scan was entered. -/
theorem findLoop_ops_ge (env : Env) (r : Reader) (key : List Nat)
    (hsz : (r.f.length : Int) < 9223372036854775808)
    (hskip : ∀ off, Visits env r key off → off < r.fLength → SkipInRangeAt r off)
    (fuel : Nat) :
    ∀ off : Int, Visits env r key off →
      ∀ op ∈ (findLoop env r key fuel off).1, off ≤ op.off := by
  induction fuel with
  | zero => intro off _ op hop; simp [findLoop] at hop
  | succ n ih =>
    intro off hv
    by_cases hlt : off < r.fLength
    · rw [findLoop_succ_lt env r key n off hlt]
      have ho := iter_ops_ge env r key off hsz
      have hinv := iter_continue_inv env r key off
      rcases hit : iter env r key off with ⟨ops, nx⟩
      rw [hit] at ho hinv
      cases nx with
      | done run => exact ho
      | «continue» off' =>
        obtain ⟨kl, vl, koff, kb, readKey, ts, hla, h0, hk, hend, _, _, _, _, _, hoff, _⟩ :=
          hinv off' hsz rfl
        have hrange := hskip off hv hlt kl vl koff hla
        have hoff' : off' = koff + (kl : Int) + (vl : Int) := by
          rw [hoff, toInt64_of_lt (by omega), wrapInt64_of_range (by omega) (by omega)]
        have ih2 := ih off' (Visits.next hv hlt (by rw [hit]))
        intro op hop
        rcases List.mem_append.mp hop with h | h
        · exact ho op h
        · have := ih2 op h
          omega
    · rw [findLoop_succ_ge env r key n off (by omega)]
      intro op hop; simp at hop

/-- The scan visits the offset behind a run of records with smaller user keys. -/
theorem visits_after_skip (env : Env) (r : Reader) (key : List Nat)
    (hsz : (r.f.length : Int) < 9223372036854775808) (less : List Record) :
    ∀ (off : Int) (rest : List Nat), Visits env r key off → 0 ≤ off →
      (∀ rec ∈ less, rec.WF env) → (∀ rec ∈ less, strLess rec.userKey key = true) →
      r.f.drop off.toNat = bodyBytes less ++ rest →
      off + ((bodyBytes less).length : Int) ≤ r.fLength →
      Visits env r key (off + ((bodyBytes less).length : Int)) := by
  induction less with
  | nil => intro off rest hv _ _ _ _ _; simpa [bodyBytes] using hv
  | cons rec less ih =>
    intro off rest hv h0 hwf hlt hdrop hlen
    have hrec := hwf rec (List.mem_cons_self _ _)
    have h2 := hrec.two_le
    have hd : r.f.drop off.toNat = rec.bytes ++ (bodyBytes less ++ rest) := by
      rw [hdrop]; simp [bodyBytes]
    have hbl : (((bodyBytes (rec :: less)).length : Nat) : Int)
        = (rec.bytes.length : Int) + ((bodyBytes less).length : Int) := by
      simp [bodyBytes]
    have hstep := iter_skip env r key off rec _ h0 hsz hrec (hlt rec (List.mem_cons_self _ _)) hd
    have hv' : Visits env r key (off + (rec.bytes.length : Int)) :=
      Visits.next hv (by omega) (by rw [hstep])
    have := ih (off + (rec.bytes.length : Int)) rest hv' (by omega)
      (fun x hx => hwf x (List.mem_cons_of_mem _ hx))
      (fun x hx => hlt x (List.mem_cons_of_mem _ hx)) (drop_shift h0 hd) (by omega)
    have eo : off + (rec.bytes.length : Int) + ((bodyBytes less).length : Int)
        = off + (((bodyBytes (rec :: less)).length : Nat) : Int) := by omega
    rw [eo] at this
    exact this

end sst

namespace sst

theorem Record.SameHead.wf_of_sameHead {env : Env} {a b : Record} (h : a.SameHead b) (hwf : a.WF env) :
    b.WF env := by
  obtain ⟨h1, h2, h3, h4, h5, h6⟩ := h
  exact ⟨by rw [← h1, ← h3]; exact hwf.keyLength, by rw [← h2, ← h6]; exact hwf.valueLength,
    by rw [← h3]; exact hwf.maxKey, by rw [← h3, ← h4, ← h5]; exact hwf.decodes⟩

theorem Record.SameHead.same_bytes_length {a b : Record} (h : a.SameHead b) :
    a.bytes.length = b.bytes.length := by
  obtain ⟨h1, h2, h3, _, _, h6⟩ := h
  simp [Record.bytes, Record.head, h1, h2, h3, h6]

theorem Record.SameHead.same_headOps {a b : Record} (h : a.SameHead b) (off : Int) :
    a.headOps off = b.headOps off := by
  obtain ⟨h1, h2, h3, _, _, _⟩ := h
  simp [Record.headOps, h1, h2, h3]

theorem bodyBytes_length_of_sameHead {recs₁ recs₂ : List Record}
    (h : List.Forall₂ Record.SameHead recs₁ recs₂) :
    (bodyBytes recs₁).length = (bodyBytes recs₂).length := by
  induction h with
  | nil => rfl
  | cons hab _ ih => simp [bodyBytes, hab.same_bytes_length, ih]

/-- Two scans over runs of records that differ only in the payloads, all with user keys
below the query, do the same reads; they end in the same way when the scans behind the
runs do. -/
theorem skip_both (env : Env) (r₁ r₂ : Reader) (key : List Nat)
    (hsz₁ : (r₁.f.length : Int) < 9223372036854775808)
    (hsz₂ : (r₂.f.length : Int) < 9223372036854775808)
    (hlen : r₂.fLength = r₁.fLength) {recs₁ recs₂ : List Record}
    (hsame : List.Forall₂ Record.SameHead recs₁ recs₂) :
    ∀ (off : Int) (rest₁ rest₂ : List Nat), 0 ≤ off →
      (∀ rec ∈ recs₁, rec.WF env) → (∀ rec ∈ recs₁, strLess rec.userKey key = true) →
      r₁.f.drop off.toNat = bodyBytes recs₁ ++ rest₁ →
      r₂.f.drop off.toNat = bodyBytes recs₂ ++ rest₂ →
      off + ((bodyBytes recs₁).length : Int) ≤ r₁.fLength →
      (∀ fuel, findLoop env r₂ key fuel (off + ((bodyBytes recs₁).length : Int))
        = findLoop env r₁ key fuel (off + ((bodyBytes recs₁).length : Int))) →
      ∀ fuel, findLoop env r₂ key fuel off = findLoop env r₁ key fuel off := by
  induction hsame with
  | nil =>
    intro off rest₁ rest₂ _ _ _ _ _ _ htail fuel
    simpa [bodyBytes] using htail fuel
  | @cons a b as bs hab _ ih =>
    intro off rest₁ rest₂ h0 hwf hlt hd₁ hd₂ hle htail fuel
    cases fuel with
    | zero => rfl
    | succ n =>
      have ha := hwf a (List.mem_cons_self _ _)
      have hb := hab.wf_of_sameHead ha
      have h2 := ha.two_le
      have hka : strLess a.userKey key = true := hlt a (List.mem_cons_self _ _)
      have hkb : strLess b.userKey key = true := by rw [← hab.2.2.2.1]; exact hka
      have hd₁' : r₁.f.drop off.toNat = a.bytes ++ (bodyBytes as ++ rest₁) := by
        rw [hd₁]; simp [bodyBytes]
      have hd₂' : r₂.f.drop off.toNat = b.bytes ++ (bodyBytes bs ++ rest₂) := by
        rw [hd₂]; simp [bodyBytes]
      have hbl : (((bodyBytes (a :: as)).length : Nat) : Int)
          = (a.bytes.length : Int) + ((bodyBytes as).length : Int) := by
        simp [bodyBytes]
      have hlt₁ : off < r₁.fLength := by omega
      rw [findLoop_succ_lt env r₁ key n off hlt₁,
        findLoop_succ_lt env r₂ key n off (by rw [hlen]; exact hlt₁),
        iter_skip env r₁ key off a _ h0 hsz₁ ha hka hd₁',
        iter_skip env r₂ key off b _ h0 hsz₂ hb hkb hd₂',
        ← hab.same_headOps off, ← hab.same_bytes_length]
      simp only []
      have eo : off + (a.bytes.length : Int) + ((bodyBytes as).length : Int)
          = off + (((bodyBytes (a :: as)).length : Nat) : Int) := by omega
      rw [ih (off + (a.bytes.length : Int)) rest₁ rest₂ (by omega)
        (fun x hx => hwf x (List.mem_cons_of_mem _ hx))
        (fun x hx => hlt x (List.mem_cons_of_mem _ hx))
        (drop_shift h0 hd₁')
        (by rw [hab.same_bytes_length]; exact drop_shift h0 hd₂')
        (by omega) (by rw [eo]; exact htail) n]

/-- A record with a smaller user key is skipped by its declared value length, whether
or not the payload is in the file. -/
theorem iter_skip_head (env : Env) (r : Reader) (key : List Nat) (off : Int) (rec : Record)
    (rest : List Nat) (vlen : Nat) (h0 : 0 ≤ off)
    (hsz : (r.f.length : Int) < 9223372036854775808)
    (hk : IsUvarint rec.klEnc rec.eKey.length) (hv : IsUvarint rec.vlEnc vlen)
    (hmax : rec.eKey.length ≤ env.MaxKeySize)
    (hdec : env.Parse rec.eKey = .ok (rec.userKey, rec.ts))
    (hlt : strLess rec.userKey key = true)
    (hdrop : r.f.drop off.toNat = rec.head ++ rest) :
    iter env r key off
      = (rec.headOps off,
          .continue (wrapInt64 (off + (rec.head.length : Int) + toInt64 vlen))) := by
  have hd : r.f.drop off.toNat = rec.klEnc ++ (rec.vlEnc ++ (rec.eKey ++ rest)) := by
    rw [hdrop]; simp [Record.head]
  have hl := rec.head_length
  rw [iter_head env r key off _ _ _ _ _ h0 hsz hk hv hmax hd, hdec]
  simp only [if_neg (strLess_ne hlt), strLess_asymm hlt, Bool.false_eq_true, if_false]
  have e : off + (rec.klEnc.length : Int) + (rec.vlEnc.length : Int) + (rec.eKey.length : Int)
      = off + (rec.head.length : Int) := by omega
  rw [e]
  rfl

end sst

namespace sst

/-- C16, as amended: value payloads of skipped records are never read when the scan
moves forward.  First part: for two files that hold, behind the header, the same
records with user keys below the query except for the payload bytes, which are
replaced by arbitrary bytes of the same lengths, and the same bytes behind these
records, `Find` does the same reads and gives the same result, provided every skip of
the scan stays in the `int64` range (key offset plus `keyLength` plus `valueLength`
below `2 ^ 63`).  Second part: when the last record with a smaller user key declares a
`valueLength` that runs to or past the cached file length, and stays in that range,
the skip moves the offset to or beyond `fLength` and `Find` returns `ErrNotFound`, not
a read error. -/
theorem C16_skipped_payloads_not_read (env : Env) (key hdr : List Nat)
    (hhdr : hdr.length = 8) :
    (∀ (r₁ r₂ : Reader) (recs₁ recs₂ : List Record) (rest : List Nat) (fuel : Nat),
        r₁.f = hdr ++ bodyBytes recs₁ ++ rest →
        r₂.f = hdr ++ bodyBytes recs₂ ++ rest →
        r₂.fLength = r₁.fLength →
        8 + ((bodyBytes recs₁).length : Int) ≤ r₁.fLength →
        (r₁.f.length : Int) < 9223372036854775808 →
        List.Forall₂ Record.SameHead recs₁ recs₂ →
        (∀ x ∈ recs₁, x.WF env ∧ strLess x.userKey key = true) →
        (∀ off, Visits env r₁ key off → off < r₁.fLength → SkipInRangeAt r₁ off) →
        r₂.Find env key fuel = r₁.Find env key fuel)
    ∧ (∀ (r : Reader) (less : List Record) (rec : Record) (vlen : Nat) (cut : List Nat)
        (fuel : Nat),
        r.f = hdr ++ bodyBytes less ++ (rec.head ++ cut) →
        (r.f.length : Int) < 9223372036854775808 →
        (∀ x ∈ less, x.WF env ∧ strLess x.userKey key = true) →
        IsUvarint rec.klEnc rec.eKey.length → IsUvarint rec.vlEnc vlen →
        rec.eKey.length ≤ env.MaxKeySize →
        env.Parse rec.eKey = .ok (rec.userKey, rec.ts) →
        strLess rec.userKey key = true →
        8 + ((bodyBytes less).length : Int) < r.fLength →
        r.fLength ≤ 8 + ((bodyBytes less).length : Int) + rec.head.length + vlen →
        8 + ((bodyBytes less).length : Int) + rec.head.length + (vlen : Int)
          < 9223372036854775808 →
        less.length + 2 ≤ fuel →
        (r.Find env key fuel).2 = some (.ret none 0 (some .ErrNotFound))) := by
  have h8 : (8 : Int).toNat = hdr.length := by rw [hhdr]; rfl
  refine ⟨?_, ?_⟩
  · intro r₁ r₂ recs₁ recs₂ rest fuel hf₁ hf₂ hlen hle hsz₁ hsame hless hskip
    have hbl := bodyBytes_length_of_sameHead hsame
    have hsz₂ : (r₂.f.length : Int) < 9223372036854775808 := by
      have : r₂.f.length = r₁.f.length := by rw [hf₁, hf₂]; simp [hbl]
      rw [this]; exact hsz₁
    have hd₁ : r₁.f.drop (8 : Int).toNat = bodyBytes recs₁ ++ rest := by
      rw [hf₁, List.append_assoc, h8, List.drop_left]
    have hd₂ : r₂.f.drop (8 : Int).toNat = bodyBytes recs₂ ++ rest := by
      rw [hf₂, List.append_assoc, h8, List.drop_left]
    have hv := visits_after_skip env r₁ key hsz₁ recs₁ 8 rest Visits.start (by omega)
      (fun x hx => (hless x hx).1) (fun x hx => (hless x hx).2) hd₁ hle
    unfold Reader.Find
    apply skip_both env r₁ r₂ key hsz₁ hsz₂ hlen hsame 8 rest rest (by omega)
      (fun x hx => (hless x hx).1) (fun x hx => (hless x hx).2) hd₁ hd₂ hle
    intro fuel'
    apply findLoop_agree env r₁ r₂ key hlen.symm
    intro op hop i hi _
    have hge := findLoop_ops_ge env r₁ key hsz₁ hskip fuel' _ hv op hop
    have hp₁ : (hdr ++ bodyBytes recs₁).length ≤ i := by
      rw [List.length_append, hhdr]; omega
    have hp₂ : (hdr ++ bodyBytes recs₂).length ≤ i := by
      rw [List.length_append, hhdr, ← hbl]; omega
    rw [hf₁, hf₂, List.getElem?_append_right hp₁, List.getElem?_append_right hp₂]
    simp [hbl]
  · intro r less rec vlen cut fuel hf hsz hless hk hv hmax hdec hlt hreach hpast hrange hfuel
    obtain ⟨n, rfl⟩ : ∃ n, fuel = less.length + (n + 1 + 1) := ⟨fuel - less.length - 2, by omega⟩
    have hd : r.f.drop (8 : Int).toNat = bodyBytes less ++ (rec.head ++ cut) := by
      rw [hf, List.append_assoc, h8, List.drop_left]
    have hit := iter_skip_head env r key (8 + ((bodyBytes less).length : Int)) rec cut vlen
      (by omega) hsz hk hv hmax hdec hlt (drop_after_skip less hhdr hf)
    have hle : 8 + ((bodyBytes less).length : Int) ≤ r.fLength := le_of_lt hreach
    have hw : wrapInt64 (8 + ((bodyBytes less).length : Int) + (rec.head.length : Int)
        + toInt64 vlen)
        = 8 + ((bodyBytes less).length : Int) + (rec.head.length : Int) + (vlen : Int) := by
      rw [toInt64_of_lt (by omega)]
      exact wrapInt64_of_range (by omega) (by omega)
    unfold Reader.Find
    rw [findLoop_skip env r key hsz less 8 (rec.head ++ cut) (n + 1 + 1) (by decide)
      (fun x hx => (hless x hx).1) (fun x hx => (hless x hx).2) hd hle,
      findLoop_succ_lt env r key (n + 1) _ hreach, hit, hw]
    simp only []
    rw [findLoop_succ_ge env r key n _ hpast]
    rfl

theorem exampleRecords_before_c :
    ∀ x ∈ exampleRecords.take 2, x.WF sampleEnv ∧ strLess x.userKey [99] = true := by
  intro rec h
  simp only [exampleRecords, List.take, List.mem_cons, List.mem_singleton, List.not_mem_nil,
    or_false] at h
  rcases h with rfl | rfl <;> exact ⟨⟨rfl, rfl, by decide, rfl⟩, by decide⟩

/-- C16, witness: the example file with the payloads of both `"a"` records replaced
gives the same reads and the same result for `"b"`; and in the example file cut at the
end of the encoded key of `"b"`, whose payload of one byte would end at offset 33
beyond the length 32, `Find("c")` is `ErrNotFound`. -/
theorem C16_skipped_payloads_not_read_witness :
    repaintedReader.Find sampleEnv [98] 4 = exampleReader.Find sampleEnv [98] 4
    ∧ (cutPayloadReader.Find sampleEnv [99] 4).2 = some (.ret none 0 (some .ErrNotFound)) :=
  ⟨(C16_skipped_payloads_not_read sampleEnv [98] sampleMagic (by decide)).1
      exampleReader repaintedReader (exampleRecords.take 2) repaintedRecords
      [4, 1, 98, 0, 1, 118, 0] 4 (by decide) rfl rfl (by decide) (by decide)
      (.cons ⟨rfl, rfl, rfl, rfl, rfl, rfl⟩ (.cons ⟨rfl, rfl, rfl, rfl, rfl, rfl⟩ .nil))
      exampleRecords_before_b example_skipInRange,
   (C16_skipped_payloads_not_read sampleEnv [99] sampleMagic (by decide)).2
      cutPayloadReader (exampleRecords.take 2) (exampleRecords.get ⟨2, by decide⟩) 1 [] 4
      (by decide) (by decide) exampleRecords_before_c rfl rfl (by decide) rfl (by decide)
      (by decide) (by decide) (by decide) (by decide)⟩

/-- C16, counterexample: the two files `jumpBackFile` differ only in the 7 payload bytes
of the record `"a"`, whose user key is below the query `"c"`; the record `"b"` declares
the value length `2 ^ 64 - 22`, the skip leads back into that payload, and `Find("c")`
returns an empty present value with timestamp 5 on the one file and the codec's error
on the other.  And in `backwardSkipReader` the last record with a smaller key declares a
value length that runs past the end of the file, yet `Find("b")` does not return
`ErrNotFound`: it never returns. -/
theorem C16_counterexample :
    (jumpBackReader₁.Find sampleEnv [99] 3).2 = some (.ret (some []) 5 none)
    ∧ (jumpBackReader₂.Find sampleEnv [99] 3).2 = some (.ret none 0 (some (.codec .corrupt)))
    ∧ (jumpBackReader₁.f.take 14 = jumpBackReader₂.f.take 14
        ∧ jumpBackReader₁.f.drop 21 = jumpBackReader₂.f.drop 21
        ∧ jumpBackReader₁.fLength = jumpBackReader₂.fLength)
    ∧ (∀ fuel, (backwardSkipReader.Find sampleEnv [98] fuel).2 = none) :=
  ⟨by decide, by decide, ⟨by decide, by decide, by decide⟩, backwardSkip_never_returns⟩

end sst
